import Mathlib

/-!
# Offline operation queue and synchronisation engine

A shallow embedding of `src/scripts/utils/offline-sync-manager.js` (the
operation manager over three IndexedDB object stores) and of
`src/scripts/utils/sync-engine.js` (the engine replaying the queue against
the remote API).

Modelling conventions.

* An asynchronous method is a function from the world before the call to a
  result (`Except JsError α`, a rejected promise being `.error`) and the world
  after it. State changes made before a rejection persist, as in JavaScript.
* Everything the code cannot control is read from an `Env`: the wall clock,
  which storage requests are rejected, what `fetch` answers, which observer
  callbacks throw. Each oracle is indexed by a counter kept in the world, so
  every run is deterministic and any behaviour of the outside can be chosen.
* An object store is the list of its records in key order, with its key
  generator. `console.log` and `console.error` calls are not modelled.
* A method runs without interleaving of other tasks.
* A number is given by its integer value. Inside the range of
  `Number.isSafeInteger` the model fixes its text; outside it the text is read
  from the `Env`, as the engine prints it. Numbers with a fractional part,
  `NaN` and the infinities do not occur.
-/

namespace OfflineSync

/-! ## JavaScript values -/

/-- Primitive values that occur as members of a payload or of a response.
`num n` is the number whose value is the integer `n`: for an `n` that is no
double, the double next to it, which is the value the literal `n` has. -/
inductive JsPrim where
  | undefined
  | null
  | bool (b : Bool)
  | num (n : Int)
  | str (s : String)
  deriving DecidableEq, Repr

/-- Truthiness of a primitive, as tested by `if (x)` and `x || y`. -/
def JsPrim.truthy : JsPrim → Bool
  | .undefined => false
  | .null => false
  | .bool b => b
  | .num n => n != 0
  | .str s => s != ""

/-- The constant `Number.MAX_SAFE_INTEGER`, which is 2^53 - 1. -/
def MAX_SAFE_INTEGER : Nat := 9007199254740991

/-- String conversion of a primitive inside a template literal. A number in
the range of `Number.isSafeInteger` is printed in decimal notation, with a
minus sign when it is negative. Beyond that range `Number::toString` prints
the shortest digits that identify the double, padded with zeros, and from
1e21 on it uses the exponent form (`1e+21`): there the text is the one the
engine gives, `numberToString n`. -/
def JsPrim.toJsString (p : JsPrim) (numberToString : Int → String) : String :=
  match p with
  | .undefined => "undefined"
  | .null => "null"
  | .bool b => if b then "true" else "false"
  | .num n => if n.natAbs ≤ MAX_SAFE_INTEGER then toString n else numberToString n
  | .str s => s

/-- Plain object with primitive members: payloads and JSON responses. -/
abbrev JsObject := List (String × JsPrim)

/-- Property read `o.k`; a missing member reads as `undefined`. -/
def JsObject.prop (o : JsObject) (k : String) : JsPrim :=
  (o.lookup k).getD JsPrim.undefined

/-- Thrown value: an `Error` object, a `TypeError`, a `DOMException`. -/
structure JsError where
  name : String
  message : String
  deriving DecidableEq, Repr

/-- The expression `new Error(message)`. -/
def newError (message : String) : JsError :=
  { name := "Error", message := message }

/-- The method `Error.prototype.toString`. -/
def JsError.toString (e : JsError) : String :=
  if e.name = "" then e.message
  else if e.message = "" then e.name
  else e.name ++ ": " ++ e.message

/-! ## Constants of `offline-sync-manager.js` -/

namespace OPERATION_TYPES
abbrev CREATE : String := "CREATE"
abbrev UPDATE : String := "UPDATE"
abbrev DELETE : String := "DELETE"
end OPERATION_TYPES

namespace SYNC_STATUS
abbrev PENDING : String := "pending"
abbrev SYNCING : String := "syncing"
abbrev SYNCED : String := "synced"
abbrev FAILED : String := "failed"
end SYNC_STATUS

/-! ## Records of the three object stores -/

/-- Record of the `pending_operations` store (key path `id`, auto increment).
`localId`, `serverId`, `error` hold a string or `null`; `updatedAt` is absent
until the first status update. -/
structure Operation where
  id : Nat
  operationType : String
  endpoint : String
  payload : JsObject
  status : String
  timestamp : Nat
  retries : Nat
  maxRetries : Nat
  localId : Option String
  serverId : Option String
  error : Option String
  updatedAt : Option Nat
  deriving DecidableEq, Repr

/-- Record of the `sync_log` store (key path `id`, auto increment). -/
structure SyncLogEntry where
  id : Nat
  operationId : Nat
  status : String
  timestamp : Nat
  response : Option JsObject
  error : Option String
  deriving DecidableEq, Repr

/-- Record of the `local_drafts` store (key path `id`, chosen by the caller). -/
structure Draft where
  id : String
  data : JsObject
  savedAt : Nat
  deriving DecidableEq, Repr

/-- The `options` argument of `addPendingOperation`. It is spread last into the
new record, so every own property that names a field of the record replaces
it; `none` is an absent property. Properties that name no field are not
modelled. -/
structure Options where
  id : Option Nat
  operationType : Option String
  endpoint : Option String
  payload : Option JsObject
  status : Option String
  timestamp : Option Nat
  retries : Option Nat
  maxRetries : Option Nat
  localId : Option String
  serverId : Option String
  error : Option String
  updatedAt : Option Nat
  deriving DecidableEq, Repr

/-- The default `options = {}`. -/
def Options.empty : Options :=
  { id := none, operationType := none, endpoint := none, payload := none,
    status := none, timestamp := none, retries := none, maxRetries := none,
    localId := none, serverId := none, error := none, updatedAt := none }

/-- The `filter` argument of `getPendingOperations`. -/
structure Filter where
  status : Option String
  deriving DecidableEq, Repr

/-- The default `filter = {}`. -/
def Filter.empty : Filter := { status := none }

/-- Data handed to the observers by `notifySyncStatusChange`: either the
aggregate event `{ isSyncing, pendingCount, lastSyncTime }` of a pass or the
event `{ operationId, status, error }` of one operation. -/
inductive SyncEvent where
  | aggregate (isSyncing : Bool) (pendingCount : Nat) (lastSyncTime : Option Nat)
  | operation (operationId : Nat) (status : String) (error : Option String)
  deriving DecidableEq, Repr

/-- Arguments of one `fetch(url, { method, headers, body, signal })` call. The
content type header is constant and left out. -/
structure Request where
  url : String
  method : String
  authorization : String
  body : Option String
  deriving DecidableEq, Repr

/-- What a `fetch` call does: it rejects (a network error, or an `AbortError`
when the timeout aborts it), or it resolves with a response whose `json()`
resolves or rejects. -/
inductive FetchOutcome where
  | rejected (e : JsError)
  | response (status : Nat) (statusText : String) (json : Except JsError JsObject)

/-- The property `response.ok`: the status is in the range 200 to 299. -/
def responseOk (status : Nat) : Bool :=
  decide (200 ≤ status) && decide (status ≤ 299)

/-- Result of `getStats`. -/
structure Stats where
  totalPending : Nat
  byStatusPending : Nat
  byStatusSyncing : Nat
  byStatusSynced : Nat
  byStatusFailed : Nat
  byOperationCreate : Nat
  byOperationUpdate : Nat
  byOperationDelete : Nat
  recentSync : List SyncLogEntry
  deriving DecidableEq, Repr

/-- Result of `SyncEngine.getStatus`. -/
structure EngineStatus where
  isOnline : Bool
  isSyncing : Bool
  lastSyncTime : Option Nat
  pendingCount : Nat
  byStatusPending : Nat
  byStatusSyncing : Nat
  byStatusSynced : Nat
  byStatusFailed : Nat
  byOperationCreate : Nat
  byOperationUpdate : Nat
  byOperationDelete : Nat
  deriving DecidableEq, Repr

/-! ## The world -/

/-- Content of the IndexedDB database `worldstory_offline_sync`. -/
structure Db where
  pendingOperations : List Operation
  pendingNextKey : Nat
  syncLog : List SyncLogEntry
  syncLogNextKey : Nat
  localDrafts : List Draft
  deriving DecidableEq, Repr

/-- State of the two singletons, the database, and the traces of what the
code did to the outside: `executed` lists the arguments of the
`executeOperation` calls, `requests` the `fetch` calls, `delivered` the
observer invocations (callback identity and data), `callbackErrors` the
callbacks whose exception `notifySyncStatusChange` caught, all oldest first. -/
structure World where
  db : Db
  isInitialized : Bool
  syncCallbacks : List Nat
  isOnline : Bool
  isSyncing : Bool
  syncIntervalId : Option Nat
  lastSyncTime : Option Nat
  timerSeq : Nat
  executed : List Operation
  requests : List Request
  delivered : List (Nat × SyncEvent)
  callbackErrors : List Nat
  clockReads : Nat
  storageCalls : Nat
  deriving DecidableEq, Repr

/-- Everything outside the code. `dateNow k` is the value of the `k`-th
`Date.now()` read, `storageFault k` the error of the `k`-th IndexedDB request
if it is rejected, `fetch k` the outcome of the `k`-th `fetch` call,
`callbackThrows c data` whether observer `c` throws on `data`; `accessToken`
is the text of the result of `getAccessToken()` (module `./auth`),
`jsonStringify` is `JSON.stringify`, and `numberToString n` is the text the
engine prints for the number `n` when `n` is beyond the safe integers. -/
structure Env where
  dateNow : Nat → Nat
  storageFault : Nat → Option JsError
  fetch : Nat → Request → FetchOutcome
  callbackThrows : Nat → SyncEvent → Bool
  accessToken : String
  jsonStringify : JsObject → String
  numberToString : Int → String

/-- An empty database, a fresh manager and a fresh engine on an online
device. -/
def World.initial : World :=
  { db := { pendingOperations := [], pendingNextKey := 1, syncLog := [],
            syncLogNextKey := 1, localDrafts := [] },
    isInitialized := false, syncCallbacks := [], isOnline := true,
    isSyncing := false, syncIntervalId := none, lastSyncTime := none,
    timerSeq := 1, executed := [], requests := [], delivered := [],
    callbackErrors := [], clockReads := 0, storageCalls := 0 }

/-- One `Date.now()` read. -/
def dateNow (env : Env) (st : World) : Nat × World :=
  (env.dateNow st.clockReads, { st with clockReads := st.clockReads + 1 })

/-- One IndexedDB request: the error it is rejected with, if any. -/
def dbRequest (env : Env) (st : World) : Option JsError × World :=
  (env.storageFault st.storageCalls, { st with storageCalls := st.storageCalls + 1 })

/-! ## Object store primitives -/

/-- Position of a record in key order: `store.add` of a record with key
`op.id` into a store holding `records`. -/
def insertByKey (op : Operation) : List Operation → List Operation
  | [] => [op]
  | x :: xs => if op.id < x.id then op :: x :: xs else x :: insertByKey op xs

/-- The request `store.put(op)`: replaces the record that has the key of `op`,
or adds `op` in key order when there is none. -/
def putByKey (op : Operation) : List Operation → List Operation
  | [] => [op]
  | x :: xs =>
    if x.id = op.id then op :: xs
    else if op.id < x.id then op :: x :: xs
    else x :: putByKey op xs

/-- The request `store.get(key)`. -/
def getByKey (key : Nat) (records : List Operation) : Option Operation :=
  records.find? (fun op => op.id == key)

/-- The request `store.delete(key)`. -/
def deleteByKey (key : Nat) (records : List Operation) : List Operation :=
  records.filter (fun op => op.id != key)

/-- The request `store.index("status").getAll(status)`: the records whose
status is the given one, in key order. -/
def getAllByStatus (status : String) (records : List Operation) : List Operation :=
  records.filter (fun op => op.status == status)

/-- Cursor order of the `timestamp` index in direction `prev`: larger
timestamp first, and for equal timestamps larger key first. -/
def logNewer (a b : SyncLogEntry) : Bool :=
  decide (b.timestamp < a.timestamp) ||
    (decide (a.timestamp = b.timestamp) && decide (b.id < a.id))

/-- Insertion of one entry into a list already in cursor order. -/
def insertNewestFirst (e : SyncLogEntry) : List SyncLogEntry → List SyncLogEntry
  | [] => [e]
  | x :: xs => if logNewer e x then e :: x :: xs else x :: insertNewestFirst e xs

/-- The records of the log in the order the `prev` cursor visits them. -/
def newestFirst (log : List SyncLogEntry) : List SyncLogEntry :=
  log.foldr insertNewestFirst []

/-! ## `OfflineSyncManager` -/

/-- Method `init`: resolves at once when the database is open, otherwise
issues `indexedDB.open`, which is rejected or opens the database. -/
def init (env : Env) (st : World) : Except JsError Unit × World :=
  if st.isInitialized then (.ok (), st)
  else
    match dbRequest env st with
    | (some e, st) => (.error e, st)
    | (none, st) => (.ok (), { st with isInitialized := true })

/-- The object literal built by `addPendingOperation`, with the key `key` the
store gives it when `options` carries no `id`. The defaults come first and
`...options` is spread last. -/
def buildOperation (operationType endpoint : String) (payload : JsObject)
    (options : Options) (now key : Nat) : Operation :=
  let maxRetries : Nat :=
    match options.maxRetries with
    | some m => if m != 0 then m else 3
    | none => 3
  let localId : Option String :=
    match options.localId with
    | some s => if s != "" then some s else none
    | none => none
  let serverId : Option String :=
    match options.serverId with
    | some s => if s != "" then some s else none
    | none => none
  { id := options.id.getD key,
    operationType := options.operationType.getD operationType,
    endpoint := options.endpoint.getD endpoint,
    payload := options.payload.getD payload,
    status := options.status.getD SYNC_STATUS.PENDING,
    timestamp := options.timestamp.getD now,
    retries := options.retries.getD 0,
    maxRetries := options.maxRetries.getD maxRetries,
    localId := match options.localId with
      | some s => some s
      | none => localId,
    serverId := match options.serverId with
      | some s => some s
      | none => serverId,
    error := options.error,
    updatedAt := options.updatedAt }

/-- The key generator after `store.add` stored a record under `key`. -/
def nextKeyAfter (nextKey key : Nat) : Nat :=
  if nextKey ≤ key then key + 1 else nextKey

/-- Method `addPendingOperation(operationType, endpoint, payload, options)`:
resolves with the key of the stored record. The `add` request is rejected
with a `ConstraintError` when the key is already in the store. -/
def addPendingOperation (env : Env) (operationType endpoint : String)
    (payload : JsObject) (options : Options) (st : World) :
    Except JsError Nat × World :=
  match init env st with
  | (.error e, st) => (.error e, st)
  | (.ok _, st) =>
    match dateNow env st with
    | (now, st) =>
      let operation :=
        buildOperation operationType endpoint payload options now st.db.pendingNextKey
      match dbRequest env st with
      | (some e, st) => (.error e, st)
      | (none, st) =>
        match getByKey operation.id st.db.pendingOperations with
        | some _ =>
          (.error { name := "ConstraintError", message := "Key already exists in the object store." }, st)
        | none =>
          (.ok operation.id,
            { st with db := { st.db with
                pendingOperations := insertByKey operation st.db.pendingOperations,
                pendingNextKey := nextKeyAfter st.db.pendingNextKey operation.id } })

/-- Method `getPendingOperations(filter)`: all records, or those the status
index holds under `filter.status` when that is truthy. In that case the
source first issues `store.getAll()` and then replaces it by the index query,
in the same read-only transaction; only the query that is kept has handlers,
and it is the one request counted here. -/
def getPendingOperations (env : Env) (filter : Filter) (st : World) :
    Except JsError (List Operation) × World :=
  match init env st with
  | (.error e, st) => (.error e, st)
  | (.ok _, st) =>
    match dbRequest env st with
    | (some e, st) => (.error e, st)
    | (none, st) =>
      match filter.status with
      | some status =>
        if status != "" then (.ok (getAllByStatus status st.db.pendingOperations), st)
        else (.ok st.db.pendingOperations, st)
      | none => (.ok st.db.pendingOperations, st)

/-- Method `updateOperationStatus(operationId, status, error)`: reads the
record, overwrites `status`, `error` and `updatedAt`, and puts it back. -/
def updateOperationStatus (env : Env) (operationId : Nat) (status : String)
    (error : Option String) (st : World) : Except JsError Operation × World :=
  match init env st with
  | (.error e, st) => (.error e, st)
  | (.ok _, st) =>
    match dbRequest env st with
    | (some e, st) => (.error e, st)
    | (none, st) =>
      match getByKey operationId st.db.pendingOperations with
      | none => (.error (newError "Operation not found"), st)
      | some operation =>
        match dateNow env st with
        | (now, st) =>
          let operation :=
            { operation with status := status, error := error, updatedAt := some now }
          match dbRequest env st with
          | (some e, st) => (.error e, st)
          | (none, st) =>
            (.ok operation,
              { st with db := { st.db with
                  pendingOperations := putByKey operation st.db.pendingOperations } })

/-- Method `deleteOperation(operationId)`. -/
def deleteOperation (env : Env) (operationId : Nat) (st : World) :
    Except JsError Unit × World :=
  match init env st with
  | (.error e, st) => (.error e, st)
  | (.ok _, st) =>
    match dbRequest env st with
    | (some e, st) => (.error e, st)
    | (none, st) =>
      (.ok (),
        { st with db := { st.db with
            pendingOperations := deleteByKey operationId st.db.pendingOperations } })

/-- Method `logSync(operationId, status, response, error)`: resolves with the
entry, here as stored (with the key the store gave it). -/
def logSync (env : Env) (operationId : Nat) (status : String)
    (response : Option JsObject) (error : Option JsError) (st : World) :
    Except JsError SyncLogEntry × World :=
  match init env st with
  | (.error e, st) => (.error e, st)
  | (.ok _, st) =>
    match dateNow env st with
    | (now, st) =>
      let logEntry : SyncLogEntry :=
        { id := st.db.syncLogNextKey,
          operationId := operationId,
          status := status,
          timestamp := now,
          response := response,
          error := match error with
            | some e => some e.toString
            | none => none }
      match dbRequest env st with
      | (some e, st) => (.error e, st)
      | (none, st) =>
        (.ok logEntry,
          { st with db := { st.db with
              syncLog := st.db.syncLog ++ [logEntry],
              syncLogNextKey := st.db.syncLogNextKey + 1 } })

/-- Method `getSyncLog(limit)`: walks the timestamp index backwards and
collects entries while `count < limit`, so none for a limit of 0 or less. -/
def getSyncLog (env : Env) (limit : Int) (st : World) :
    Except JsError (List SyncLogEntry) × World :=
  match init env st with
  | (.error e, st) => (.error e, st)
  | (.ok _, st) =>
    match dbRequest env st with
    | (some e, st) => (.error e, st)
    | (none, st) => (.ok ((newestFirst st.db.syncLog).take limit.toNat), st)

/-- The `forEach` of `notifySyncStatusChange`: each callback is invoked with
`data`, and an exception it throws is caught and logged. -/
def notifyCallbacks (env : Env) (data : SyncEvent) : List Nat → World → World
  | [], st => st
  | callback :: rest, st =>
    let st := { st with delivered := st.delivered ++ [(callback, data)] }
    let st :=
      if env.callbackThrows callback data then
        { st with callbackErrors := st.callbackErrors ++ [callback] }
      else st
    notifyCallbacks env data rest st

/-- Method `notifySyncStatusChange(data)`. It has no way to throw. -/
def notifySyncStatusChange (env : Env) (data : SyncEvent) (st : World) : World :=
  notifyCallbacks env data st.syncCallbacks st

/-- The call `callback(data)` on its own: the callback is invoked and either
returns or throws. What it throws is not looked at by the code; it stands
here as an `Error` named after the callback. -/
def invokeCallback (env : Env) (callback : Nat) (data : SyncEvent) (st : World) :
    Except JsError Unit × World :=
  let st := { st with delivered := st.delivered ++ [(callback, data)] }
  if env.callbackThrows callback data then
    (.error (newError ("callback " ++ toString callback)), st)
  else (.ok (), st)

/-- The `forEach` of `notifySyncStatusChange` written with its `try` and
`catch`, as a computation that could reject: the `catch` logs the error and
the loop goes on with the next callback. -/
def notifyEach (env : Env) (data : SyncEvent) : List Nat → World → Except JsError Unit × World
  | [], st => (.ok (), st)
  | callback :: rest, st =>
    match invokeCallback env callback data st with
    | (.ok _, st) => notifyEach env data rest st
    | (.error _, st) =>
      notifyEach env data rest { st with callbackErrors := st.callbackErrors ++ [callback] }

/-- Number of queued operations that have the given status: what the
specification says `byStatus[status]` is. -/
def countStatus (status : String) (ops : List Operation) : Nat :=
  (ops.filter (fun op => op.status == status)).length

/-- Number of queued operations that have the given type: what the
specification says `byOperation[operationType]` is. -/
def countOperation (operationType : String) (ops : List Operation) : Nat :=
  (ops.filter (fun op => op.operationType == operationType)).length

/-- The statement `stats.byStatus[op.status]++`. A status that is none of the
four keys of the literal makes a property of its own, which `Stats` leaves
out. -/
def countByStatus (stats : Stats) (op : Operation) : Stats :=
  if op.status = "pending" then { stats with byStatusPending := stats.byStatusPending + 1 }
  else if op.status = "syncing" then { stats with byStatusSyncing := stats.byStatusSyncing + 1 }
  else if op.status = "synced" then { stats with byStatusSynced := stats.byStatusSynced + 1 }
  else if op.status = "failed" then { stats with byStatusFailed := stats.byStatusFailed + 1 }
  else stats

/-- The statement `stats.byOperation[op.operationType]++`. A type that is none
of the three keys of the literal makes a property of its own, which `Stats`
leaves out. -/
def countByOperation (stats : Stats) (op : Operation) : Stats :=
  if op.operationType = "CREATE" then
    { stats with byOperationCreate := stats.byOperationCreate + 1 }
  else if op.operationType = "UPDATE" then
    { stats with byOperationUpdate := stats.byOperationUpdate + 1 }
  else if op.operationType = "DELETE" then
    { stats with byOperationDelete := stats.byOperationDelete + 1 }
  else stats

/-- The `forEach` of `getStats`, over the operations of the queue in order. -/
def countAll : List Operation → Stats → Stats
  | [], stats => stats
  | op :: rest, stats => countAll rest (countByOperation (countByStatus stats op) op)

/-- Method `getStats`: the literal with its counters at 0, then the `forEach`
over the queue. -/
def getStats (env : Env) (st : World) : Except JsError Stats × World :=
  match getPendingOperations env Filter.empty st with
  | (.error e, st) => (.error e, st)
  | (.ok pendingOps, st) =>
    match getSyncLog env 100 st with
    | (.error e, st) => (.error e, st)
    | (.ok syncLog, st) =>
      (.ok (countAll pendingOps
          { totalPending := pendingOps.length,
            byStatusPending := 0,
            byStatusSyncing := 0,
            byStatusSynced := 0,
            byStatusFailed := 0,
            byOperationCreate := 0,
            byOperationUpdate := 0,
            byOperationDelete := 0,
            recentSync := syncLog.take 5 }), st)

/-- The request `store.put(draft)` on the `local_drafts` store (key path
`id`): replaces the draft that has the key of `draft`, or adds `draft`. No
cursor and no `getAll` is ever opened on this store, so the order of its
records is not observable; a new draft is put at the end. -/
def putDraft (draft : Draft) : List Draft → List Draft
  | [] => [draft]
  | x :: xs => if x.id = draft.id then draft :: xs else x :: putDraft draft xs

/-- The request `store.get(key)` on the `local_drafts` store. -/
def getDraftByKey (key : String) (drafts : List Draft) : Option Draft :=
  drafts.find? (fun d => d.id == key)

/-- The request `store.delete(key)` on the `local_drafts` store. -/
def deleteDraftByKey (key : String) (drafts : List Draft) : List Draft :=
  drafts.filter (fun d => d.id != key)

/-- Method `saveDraft(draftId, data)`: resolves with the draft it has put. -/
def saveDraft (env : Env) (draftId : String) (data : JsObject) (st : World) :
    Except JsError Draft × World :=
  match init env st with
  | (.error e, st) => (.error e, st)
  | (.ok _, st) =>
    match dateNow env st with
    | (now, st) =>
      let draft : Draft := { id := draftId, data := data, savedAt := now }
      match dbRequest env st with
      | (some e, st) => (.error e, st)
      | (none, st) =>
        (.ok draft,
          { st with db := { st.db with localDrafts := putDraft draft st.db.localDrafts } })

/-- Method `getDraft(draftId)`: resolves with `request.result`, which is
`undefined` (here `none`) when no draft has the key. -/
def getDraft (env : Env) (draftId : String) (st : World) :
    Except JsError (Option Draft) × World :=
  match init env st with
  | (.error e, st) => (.error e, st)
  | (.ok _, st) =>
    match dbRequest env st with
    | (some e, st) => (.error e, st)
    | (none, st) => (.ok (getDraftByKey draftId st.db.localDrafts), st)

/-- Method `deleteDraft(draftId)`. -/
def deleteDraft (env : Env) (draftId : String) (st : World) :
    Except JsError Unit × World :=
  match init env st with
  | (.error e, st) => (.error e, st)
  | (.ok _, st) =>
    match dbRequest env st with
    | (some e, st) => (.error e, st)
    | (none, st) =>
      (.ok (),
        { st with db := { st.db with
            localDrafts := deleteDraftByKey draftId st.db.localDrafts } })

/-- Method `clearAll`: one transaction over the three stores, in which the
three `clear` requests are issued at once. The rejection of one of them
aborts the transaction, which undoes the others, and the method rejects;
otherwise the transaction completes with the three stores empty. A `clear`
does not reset the key generator of a store. -/
def clearAll (env : Env) (st : World) : Except JsError Unit × World :=
  match init env st with
  | (.error e, st) => (.error e, st)
  | (.ok _, st) =>
    match dbRequest env st with
    | (first, st) =>
      match dbRequest env st with
      | (second, st) =>
        match dbRequest env st with
        | (third, st) =>
          match first.orElse (fun _ => second.orElse (fun _ => third)) with
          | some e => (.error e, st)
          | none =>
            (.ok (),
              { st with db := { st.db with
                  pendingOperations := [], syncLog := [], localDrafts := [] } })

/-- Method `onSyncStatusChange(callback)`: the callback is pushed on the
list. The function it returns is `unsubscribe callback`. -/
def onSyncStatusChange (callback : Nat) (st : World) : World :=
  { st with syncCallbacks := st.syncCallbacks ++ [callback] }

/-- The function that `onSyncStatusChange(callback)` returns: it keeps the
callbacks `cb` with `cb !== callback`. -/
def unsubscribe (callback : Nat) (st : World) : World :=
  { st with syncCallbacks := st.syncCallbacks.filter (fun cb => cb != callback) }

/-! ## `SyncEngine` -/

/-- The `switch` of `executeOperation`: the request for the operation, or the
error thrown by the default branch. -/
def buildRequest (env : Env) (operation : Operation) : Except JsError Request :=
  let authorization := "Bearer " ++ env.accessToken
  let url := operation.endpoint
  let id := operation.payload.prop "id"
  if operation.operationType = OPERATION_TYPES.CREATE then
    .ok { url := url, method := "POST", authorization := authorization,
          body := some (env.jsonStringify operation.payload) }
  else if operation.operationType = OPERATION_TYPES.UPDATE then
    .ok { url := if id.truthy then url ++ "/" ++ id.toJsString env.numberToString else url,
          method := "PUT", authorization := authorization,
          body := some (env.jsonStringify operation.payload) }
  else if operation.operationType = OPERATION_TYPES.DELETE then
    .ok { url := if id.truthy then url ++ "/" ++ id.toJsString env.numberToString else url,
          method := "DELETE", authorization := authorization,
          body := none }
  else
    .error (newError ("Unknown operation type: " ++ operation.operationType))

/-- Method `executeOperation(operation)`: builds the request, sends it, and
resolves with the JSON of a 2xx response. An abort by the 30 s timeout is
rethrown as `Sync timeout`, any other error as it is. -/
def executeOperation (env : Env) (operation : Operation) (st : World) :
    Except JsError JsObject × World :=
  let st := { st with executed := st.executed ++ [operation] }
  match buildRequest env operation with
  | .error e => (.error e, st)
  | .ok request =>
    let outcome := env.fetch st.requests.length request
    let st := { st with requests := st.requests ++ [request] }
    let result : Except JsError JsObject :=
      match outcome with
      | .rejected e => .error e
      | .response status statusText json =>
        if !responseOk status then
          .error (newError ("Server error: " ++ toString status ++ " " ++ statusText))
        else json
    match result with
    | .ok data => (.ok data, st)
    | .error error =>
      if error.name = "AbortError" then (.error (newError "Sync timeout"), st)
      else (.error error, st)

/-- The `try` block of `syncOperation`. -/
def syncOperationTry (env : Env) (operation : Operation) (st : World) :
    Except JsError JsObject × World :=
  match executeOperation env operation st with
  | (.error e, st) => (.error e, st)
  | (.ok response, st) =>
    match updateOperationStatus env operation.id SYNC_STATUS.SYNCED none st with
    | (.error e, st) => (.error e, st)
    | (.ok _, st) =>
      match logSync env operation.id SYNC_STATUS.SYNCED (some response) none st with
      | (.error e, st) => (.error e, st)
      | (.ok _, st) =>
        match deleteOperation env operation.id st with
        | (.error e, st) => (.error e, st)
        | (.ok _, st) =>
          let st := notifySyncStatusChange env
            (SyncEvent.operation operation.id SYNC_STATUS.SYNCED none) st
          (.ok response, st)

/-- The `catch` block of `syncOperation`. The retry count is incremented on
the object the caller passed in, and the block always ends by throwing: the
caught error, or the rejection of one of its own storage calls. -/
def syncOperationCatch (env : Env) (operation : Operation) (error : JsError)
    (st : World) : Except JsError JsObject × World :=
  let operation := { operation with retries := operation.retries + 1 }
  if operation.retries ≥ operation.maxRetries then
    match updateOperationStatus env operation.id SYNC_STATUS.FAILED (some error.message) st with
    | (.error e, st) => (.error e, st)
    | (.ok _, st) =>
      match logSync env operation.id SYNC_STATUS.FAILED none (some error) st with
      | (.error e, st) => (.error e, st)
      | (.ok _, st) =>
        let st := notifySyncStatusChange env
          (SyncEvent.operation operation.id SYNC_STATUS.FAILED (some error.message)) st
        (.error error, st)
  else
    match updateOperationStatus env operation.id SYNC_STATUS.PENDING none st with
    | (.error e, st) => (.error e, st)
    | (.ok _, st) => (.error error, st)

/-- Method `syncOperation(operation)`. -/
def syncOperation (env : Env) (operation : Operation) (st : World) :
    Except JsError JsObject × World :=
  match updateOperationStatus env operation.id SYNC_STATUS.SYNCING none st with
  | (.error e, st) => (.error e, st)
  | (.ok _, st) =>
    match syncOperationTry env operation st with
    | (.ok response, st) => (.ok response, st)
    | (.error error, st) => syncOperationCatch env operation error st

/-- The `for` loop of `syncAll`: one `syncOperation` after the other, the
error of each caught. -/
def syncAllLoop (env : Env) : List Operation → World → World
  | [], st => st
  | operation :: rest, st => syncAllLoop env rest (syncOperation env operation st).2

/-- The `try` block of `syncAll`. -/
def syncAllTry (env : Env) (st : World) : Except JsError Unit × World :=
  match getPendingOperations env { status := some SYNC_STATUS.PENDING } st with
  | (.error e, st) => (.error e, st)
  | (.ok pendingOps, st) =>
    let st := syncAllLoop env pendingOps st
    match dateNow env st with
    | (now, st) =>
      let st := { st with lastSyncTime := some now }
      match getStats env st with
      | (.error e, st) => (.error e, st)
      | (.ok stats, st) =>
        let st := notifySyncStatusChange env
          (SyncEvent.aggregate false stats.totalPending st.lastSyncTime) st
        (.ok (), st)

/-- Method `syncAll`. The error of the `try` block is caught and logged, and
the `finally` block clears `isSyncing`. -/
def syncAll (env : Env) (st : World) : Except JsError Unit × World :=
  if st.isSyncing || !st.isOnline then (.ok (), st)
  else
    let st := { st with isSyncing := true }
    let st := notifySyncStatusChange env (SyncEvent.aggregate true 0 none) st
    match syncAllTry env st with
    | (_, st) => (.ok (), { st with isSyncing := false })

/-- The `for` loop of `retryFailed`: the retry count is reset on the object in
hand and the status update is awaited; a rejection ends the loop. -/
def retryFailedLoop (env : Env) : List Operation → World → Except JsError Unit × World
  | [], st => (.ok (), st)
  | operation :: rest, st =>
    let operation := { operation with retries := 0 }
    match updateOperationStatus env operation.id SYNC_STATUS.PENDING none st with
    | (.error e, st) => (.error e, st)
    | (.ok _, st) => retryFailedLoop env rest st

/-- Method `retryFailed` up to, and without, its last statement. -/
def retryFailedReset (env : Env) (st : World) : Except JsError Unit × World :=
  match getPendingOperations env { status := some SYNC_STATUS.FAILED } st with
  | (.error e, st) => (.error e, st)
  | (.ok failedOps, st) => retryFailedLoop env failedOps st

/-- Method `retryFailed`: the reset, then the pass that `this.syncAll()`
starts (the method does not await it; the pass is run to its end here). -/
def retryFailed (env : Env) (st : World) : Except JsError Unit × World :=
  match retryFailedReset env st with
  | (.error e, st) => (.error e, st)
  | (.ok _, st) => (.ok (), (syncAll env st).2)

/-- Method `getStatus`. -/
def getStatus (env : Env) (st : World) : Except JsError EngineStatus × World :=
  match getStats env st with
  | (.error e, st) => (.error e, st)
  | (.ok stats, st) =>
    (.ok { isOnline := st.isOnline,
           isSyncing := st.isSyncing,
           lastSyncTime := st.lastSyncTime,
           pendingCount := stats.totalPending,
           byStatusPending := stats.byStatusPending,
           byStatusSyncing := stats.byStatusSyncing,
           byStatusSynced := stats.byStatusSynced,
           byStatusFailed := stats.byStatusFailed,
           byOperationCreate := stats.byOperationCreate,
           byOperationUpdate := stats.byOperationUpdate,
           byOperationDelete := stats.byOperationDelete }, st)

/-! ## `SyncEngine`: connectivity and the periodic timer -/

/-- The window that hosts the engine: the world, the interval timers that are
set, the number of `online` and `offline` listener pairs that `init` has
registered, and the number of `syncAll()` calls made by the scheduling code
(`startAutoSync` and the timer callback), which is kept for the statements. -/
structure Host where
  world : World
  intervals : List Nat
  listeners : Nat
  syncAllCalls : Nat
  deriving DecidableEq, Repr

/-- A fresh page: the initial world, no timer, no listener. -/
def Host.initial : Host :=
  { world := World.initial, intervals := [], listeners := 0, syncAllCalls := 0 }

/-- An event of the window: connectivity changes and the firing of the
interval timer with the given identifier. -/
inductive WindowEvent where
  | online
  | offline
  | tick (id : Nat)
  deriving DecidableEq, Repr

/-- The test `if (this.syncIntervalId)`: an identifier is stored and it is
not 0. -/
def intervalSet (st : World) : Bool :=
  match st.syncIntervalId with
  | some id => id != 0
  | none => false

/-- A call `this.syncAll()` from the scheduling code. The call is not awaited
there; the pass is run to its end here, and the call is counted. -/
def callSyncAll (env : Env) (h : Host) : Host :=
  { h with world := (syncAll env h.world).2, syncAllCalls := h.syncAllCalls + 1 }

/-- Method `startAutoSync`: nothing when a timer is stored, otherwise one
`syncAll()` at once and a new interval timer, whose identifier (the next
positive integer) is stored. -/
def startAutoSync (env : Env) (h : Host) : Host :=
  if intervalSet h.world then h
  else
    let h := callSyncAll env h
    let id := h.world.timerSeq + 1
    { h with
      world := { h.world with timerSeq := id, syncIntervalId := some id },
      intervals := h.intervals ++ [id] }

/-- Method `stopAutoSync`: clears the stored timer, if any. -/
def stopAutoSync (h : Host) : Host :=
  match h.world.syncIntervalId with
  | some id =>
    if id != 0 then
      { h with
        world := { h.world with syncIntervalId := none },
        intervals := h.intervals.filter (fun t => t != id) }
    else h
  | none => h

/-- Method `onOnline`. -/
def onOnline (env : Env) (h : Host) : Host :=
  startAutoSync env { h with world := { h.world with isOnline := true } }

/-- Method `onOffline`. -/
def onOffline (h : Host) : Host :=
  stopAutoSync { h with world := { h.world with isOnline := false } }

/-- The callback given to `setInterval`, for the timer `id`: a timer that is
not set does not fire; one that is set calls `syncAll()` when the device is
online and no pass is running. -/
def onTick (env : Env) (id : Nat) (h : Host) : Host :=
  if id ∈ h.intervals then
    if h.world.isOnline && !h.world.isSyncing then callSyncAll env h else h
  else h

/-- Method `SyncEngine.init`: opens the database, registers one more pair of
listeners, and starts the automatic sync when the device is online. -/
def engineInit (env : Env) (h : Host) : Except JsError Unit × Host :=
  match init env h.world with
  | (.error e, w) => (.error e, { h with world := w })
  | (.ok _, w) =>
    let h := { h with world := w, listeners := h.listeners + 1 }
    if h.world.isOnline then (.ok (), startAutoSync env h) else (.ok (), h)

/-- The listeners of one event, all running the same handler, one after the
other. -/
def runListeners (handler : Host → Host) : Nat → Host → Host
  | 0, h => h
  | n + 1, h => runListeners handler n (handler h)

/-- What the window does with one event. -/
def dispatch (env : Env) : WindowEvent → Host → Host
  | .online, h => runListeners (onOnline env) h.listeners h
  | .offline, h => runListeners onOffline h.listeners h
  | .tick id, h => onTick env id h

/-- What the window does with a sequence of events, oldest first. -/
def dispatchAll (env : Env) : List WindowEvent → Host → Host
  | [], h => h
  | event :: rest, h => dispatchAll env rest (dispatch env event h)

/-! ## `OfflineOperationsPage`: the actions of a card -/

/-- A value handed to the `pending_operations` store as a key. The keys in
the store are the numbers of its key generator, and IndexedDB never takes a
string key to be equal to a number key. -/
inductive StoreKey where
  | num (n : Nat)
  | str (s : String)
  deriving DecidableEq, Repr

/-- The request `store.get(key)` for a key of either type. -/
def getByStoreKey (key : StoreKey) (records : List Operation) : Option Operation :=
  match key with
  | .num n => getByKey n records
  | .str _ => none

/-- The request `store.delete(key)` for a key of either type. -/
def deleteByStoreKey (key : StoreKey) (records : List Operation) : List Operation :=
  match key with
  | .num n => deleteByKey n records
  | .str _ => records

/-- Method `deleteOperation(operationId)` of the manager, for a key of either
type; `deleteOperation env n` is this method at the number `n`. -/
def deleteOperationAt (env : Env) (operationId : StoreKey) (st : World) :
    Except JsError Unit × World :=
  match init env st with
  | (.error e, st) => (.error e, st)
  | (.ok _, st) =>
    match dbRequest env st with
    | (some e, st) => (.error e, st)
    | (none, st) =>
      (.ok (),
        { st with db := { st.db with
            pendingOperations := deleteByStoreKey operationId st.db.pendingOperations } })

/-- Method `updateOperationStatus(operationId, status, error)` of the manager,
for a key of either type; `updateOperationStatus env n` is this method at the
number `n`. -/
def updateOperationStatusAt (env : Env) (operationId : StoreKey) (status : String)
    (error : Option String) (st : World) : Except JsError Operation × World :=
  match init env st with
  | (.error e, st) => (.error e, st)
  | (.ok _, st) =>
    match dbRequest env st with
    | (some e, st) => (.error e, st)
    | (none, st) =>
      match getByStoreKey operationId st.db.pendingOperations with
      | none => (.error (newError "Operation not found"), st)
      | some operation =>
        match dateNow env st with
        | (now, st) =>
          let operation :=
            { operation with status := status, error := error, updatedAt := some now }
          match dbRequest env st with
          | (some e, st) => (.error e, st)
          | (none, st) =>
            (.ok operation,
              { st with db := { st.db with
                  pendingOperations := putByKey operation st.db.pendingOperations } })

/-- The attribute `data-id="${op.id}"` that `render` writes on the buttons of
the card of `op`, as `e.target.dataset.id` reads it back: a string. -/
def dataId (op : Operation) : String :=
  toString op.id

/-- A message shown by `showMessage(message, type)`. -/
structure Toast where
  message : String
  type : String
  deriving DecidableEq, Repr

/-- Method `deleteOperation(operationId)` of the page: after the user has
confirmed, the manager is asked to delete and the outcome is shown. -/
def pageDeleteOperation (env : Env) (confirmed : Bool) (operationId : String)
    (st : World) : Option Toast × World :=
  if confirmed then
    match deleteOperationAt env (StoreKey.str operationId) st with
    | (.ok _, st) => (some { message := "Operation deleted", type := "success" }, st)
    | (.error error, st) =>
      (some { message := "Error: " ++ error.message, type := "error" }, st)
  else (none, st)

/-- Method `retryOperation(operationId)` of the page, up to the message: the
pass that a success schedules one second later is left out. -/
def pageRetryOperation (env : Env) (operationId : String) (st : World) : Toast × World :=
  match updateOperationStatusAt env (StoreKey.str operationId) SYNC_STATUS.PENDING none st with
  | (.ok _, st) => ({ message := "Operation reset to pending", type := "success" }, st)
  | (.error error, st) => ({ message := "Error: " ++ error.message, type := "error" }, st)

/-- A click on the `Delete` button of the card of `op`: the handler reads
`e.target.dataset.id` and calls `this.deleteOperation(id)`. -/
def clickDelete (env : Env) (confirmed : Bool) (op : Operation) (st : World) :
    Option Toast × World :=
  pageDeleteOperation env confirmed (dataId op) st

/-- A click on the `Retry` button of the card of `op`: the handler reads
`e.target.dataset.id` and calls `this.retryOperation(id)`. -/
def clickRetry (env : Env) (op : Operation) (st : World) : Toast × World :=
  pageRetryOperation env (dataId op) st

/-! ## `NetworkInterceptor` -/

namespace CACHE_STRATEGY
abbrev NETWORK_FIRST : String := "network-first"
abbrev CACHE_FIRST : String := "cache-first"
abbrev STALE_WHILE_REVALIDATE : String := "stale-while-revalidate"
end CACHE_STRATEGY

/-- The object `ENDPOINTS`, as `Object.entries` lists it: its keys in the
order of the literal, each with its array. -/
def ENDPOINTS : List (String × List String) :=
  [(CACHE_STRATEGY.NETWORK_FIRST, ["/stories", "/reports", "/users"]),
   (CACHE_STRATEGY.CACHE_FIRST, ["/login", "/register"]),
   (CACHE_STRATEGY.STALE_WHILE_REVALIDATE, ["/stories"])]

/-- Whether the characters `s` begin with the characters `sub`. -/
def startsWithChars : List Char → List Char → Bool
  | _, [] => true
  | [], _ :: _ => false
  | c :: cs, p :: ps => c == p && startsWithChars cs ps

/-- Whether the characters `sub` occur in `s`, at some position. -/
def includesChars : List Char → List Char → Bool
  | [], sub => sub.isEmpty
  | c :: cs, sub => startsWithChars (c :: cs) sub || includesChars cs sub

/-- The method `String.prototype.includes`. -/
def includes (s sub : String) : Bool :=
  includesChars s.data sub.data

/-- The inner loop of `getStrategy`: the strategy, at the first endpoint of
the array that the url includes. -/
def getStrategyEndpoints (url strategy : String) : List String → Option String
  | [] => none
  | endpoint :: rest =>
    if includes url endpoint then some strategy
    else getStrategyEndpoints url strategy rest

/-- The outer loop of `getStrategy`, over the entries of `ENDPOINTS`. -/
def getStrategyEntries (url : String) : List (String × List String) → Option String
  | [] => none
  | (strategy, endpoints) :: rest =>
    match getStrategyEndpoints url strategy endpoints with
    | some found => some found
    | none => getStrategyEntries url rest

/-- Method `getStrategy(url)`: the result of the loops, and `network-first`
when they end without returning. -/
def getStrategy (url : String) : String :=
  match getStrategyEntries url ENDPOINTS with
  | some strategy => strategy
  | none => CACHE_STRATEGY.NETWORK_FIRST

/-- The branches of the `switch` of `intercept`. -/
inductive InterceptBranch where
  | cacheFirst
  | staleWhileRevalidate
  | networkFirst
  deriving DecidableEq, Repr

/-- The `switch (strategy)` of `intercept(url, fetchFn)`: the method it
calls. The `default` label stands with the case of `network-first`. -/
def interceptBranch (url : String) : InterceptBranch :=
  let strategy := getStrategy url
  if strategy = CACHE_STRATEGY.CACHE_FIRST then InterceptBranch.cacheFirst
  else if strategy = CACHE_STRATEGY.STALE_WHILE_REVALIDATE then
    InterceptBranch.staleWhileRevalidate
  else InterceptBranch.networkFirst

/-! ## Predicates used in the statements -/

/-- No IndexedDB request is rejected. -/
def NoStorageFault (env : Env) : Prop :=
  ∀ k, env.storageFault k = none

/-- Keys of the `pending_operations` store are unique and the records are in
key order, as IndexedDB keeps them. -/
abbrev UniqueKeys (records : List Operation) : Prop :=
  records.Pairwise (fun a b => a.id < b.id)

/-- The key generator of the `pending_operations` store is above every key
in use, as IndexedDB keeps it. -/
abbrev KeysBelow (nextKey : Nat) (records : List Operation) : Prop :=
  ∀ r ∈ records, r.id < nextKey

/-- The key generator of the `sync_log` store is above every key in use. -/
abbrev LogKeysBelow (nextKey : Nat) (log : List SyncLogEntry) : Prop :=
  ∀ e ∈ log, e.id < nextKey

/-- The `fetch` calls that `executeOperation` makes for an operation: one, or
none for an unknown operation type. -/
def requestsOf (env : Env) (operation : Operation) : List Request :=
  match buildRequest env operation with
  | .ok request => [request]
  | .error _ => []

/-- The records `getPendingOperations(filter)` resolves with. -/
def selectOperations (filter : Filter) (records : List Operation) : List Operation :=
  match filter.status with
  | some status => if status != "" then getAllByStatus status records else records
  | none => records

/-- `n` calls of `syncAll`, one after the other. -/
def syncAllTimes (env : Env) : Nat → World → World
  | 0, st => st
  | n + 1, st => syncAllTimes env n (syncAll env st).2

/-- Where the records of the queue come from when only the record with key
`k` is written, with `P` the statuses that may be written: every record of the
queue afterwards either was in the queue, or has key `k`, a status that `P`
allows, and the `retries` and `maxRetries` of a record that was in the queue
under key `k`. -/
def Evolves (k : Nat) (P : String → Prop) (st st' : World) : Prop :=
  ∀ r' ∈ st'.db.pendingOperations, r' ∈ st.db.pendingOperations ∨
    ∃ r ∈ st.db.pendingOperations, r.id = k ∧ r'.id = k ∧ r'.retries = r.retries ∧
      r'.maxRetries = r.maxRetries ∧ P r'.status

/-- Frame of the storage calls made for the record with key `k`, with `P` the
statuses they may write: every other record stays in the queue, the two
traces are as before, and the queue evolves at key `k` only. -/
def OpFrame (k : Nat) (P : String → Prop) (st st' : World) : Prop :=
  (∀ r ∈ st.db.pendingOperations, r.id ≠ k → r ∈ st'.db.pendingOperations) ∧
    st'.executed = st.executed ∧ st'.requests = st.requests ∧ Evolves k P st st'

/-- Frame of the calls that do not write to the `pending_operations` store:
every record stays in the queue, none is added, and the two traces are as
before. -/
def Keeps (st st' : World) : Prop :=
  (∀ r ∈ st.db.pendingOperations, r ∈ st'.db.pendingOperations) ∧
    st'.executed = st.executed ∧ st'.requests = st.requests ∧
    ∀ r' ∈ st'.db.pendingOperations, r' ∈ st.db.pendingOperations

/-- The statuses that `syncOperation` may write to the record of the
operation it is handed: `failed` only when the retries of that object, plus
one, reach its `maxRetries`. -/
def retryRule (operation : Operation) (status : String) : Prop :=
  status = SYNC_STATUS.SYNCING ∨ status = SYNC_STATUS.SYNCED ∨
    status = SYNC_STATUS.PENDING ∨
    (status = SYNC_STATUS.FAILED ∧ operation.retries + 1 ≥ operation.maxRetries)

/-- Relation between the queue before and after a run: every record of the
queue afterwards has the key, the `retries` and the `maxRetries` of a record
that was in the queue, and if it is `failed` then that record was `failed`
already or its stored retries plus one reach its `maxRetries`. -/
def RetriesStable (st st' : World) : Prop :=
  ∀ r' ∈ st'.db.pendingOperations, ∃ r ∈ st.db.pendingOperations,
    r.id = r'.id ∧ r'.retries = r.retries ∧ r'.maxRetries = r.maxRetries ∧
    (r'.status = SYNC_STATUS.FAILED →
      r.status = SYNC_STATUS.FAILED ∨ r.retries + 1 ≥ r.maxRetries)

/-- Records of the queue that have the same key have the same `retries` and
`maxRetries`; unique keys give this at once. -/
def KeyFixesRetries (records : List Operation) : Prop :=
  ∀ a ∈ records, ∀ b ∈ records, a.id = b.id →
    a.retries = b.retries ∧ a.maxRetries = b.maxRetries

/-- The observer list and the fields of the engine, which the storage calls,
the requests and the notifications leave alone. -/
def engineView (st : World) : List Nat × Bool × Bool × Option Nat × Option Nat × Nat :=
  (st.syncCallbacks, st.isOnline, st.isSyncing, st.syncIntervalId, st.lastSyncTime,
    st.timerSeq)

/-- The state of the scheduling after `init`: listeners are registered; the
timers that are set are the stored one, whose identifier is not 0; and a
timer is stored exactly when the engine holds the device to be online. -/
def Scheduled (h : Host) : Prop :=
  0 < h.listeners ∧ h.intervals = h.world.syncIntervalId.toList ∧
    (∀ id, h.world.syncIntervalId = some id → id ≠ 0) ∧
    h.world.syncIntervalId.isSome = h.world.isOnline

/-! ## Worlds that the closed forms are written with -/

/-- The world after `init` and `n` further IndexedDB requests, none of them
rejected. -/
def touch (n : Nat) (st : World) : World :=
  { st with
    isInitialized := true,
    storageCalls := (if st.isInitialized then st.storageCalls else st.storageCalls + 1) + n }

/-- The record `updateOperationStatus` puts back. -/
def withStatus (operation : Operation) (status : String) (error : Option String)
    (now : Nat) : Operation :=
  { operation with status := status, error := error, updatedAt := some now }

/-- The world with other records in the `pending_operations` store. -/
def withPending (records : List Operation) (st : World) : World :=
  { st with db := { st.db with pendingOperations := records } }

/-- The world after one more `Date.now()` read. -/
def clockRead (st : World) : World :=
  { st with clockReads := st.clockReads + 1 }

/-- The entry `logSync` builds, under the key the store gives it. -/
def logEntryOf (key operationId : Nat) (status : String) (response : Option JsObject)
    (error : Option JsError) (now : Nat) : SyncLogEntry :=
  { id := key, operationId := operationId, status := status, timestamp := now,
    response := response, error := error.map JsError.toString }

/-- The world with one more entry at the end of the `sync_log` store. -/
def withLogged (e : SyncLogEntry) (st : World) : World :=
  { st with db := { st.db with syncLog := st.db.syncLog ++ [e],
                               syncLogNextKey := st.db.syncLogNextKey + 1 } }

/-! ## Concrete environments and worlds -/

/-- The error a browser reports for a request that cannot reach the server. -/
def networkError : JsError :=
  { name := "TypeError", message := "Failed to fetch" }

/-- The error of a write that the storage quota does not allow. -/
def quotaExceeded : JsError :=
  { name := "QuotaExceededError", message := "The quota has been exceeded." }

/-- The error of a storage request that fails for a reason of the platform. -/
def unknownError : JsError :=
  { name := "UnknownError", message := "Internal error." }

/-- The fetches of a run that all fail with the same network error. -/
def fetchAlwaysFails (e : JsError) : Nat → Request → FetchOutcome :=
  fun _ _ => FetchOutcome.rejected e

/-- The fetches of a run that all get a 200 response with the same body. -/
def fetchAlwaysOk (data : JsObject) : Nat → Request → FetchOutcome :=
  fun _ _ => FetchOutcome.response 200 "OK" (Except.ok data)

/-- An environment without storage faults and without throwing observers,
whose clock advances by one at each read. The texts of `JSON.stringify` and
of the numbers beyond the safe integers are left empty: the scenarios do not
read a body, and the numbers in their payloads are safe integers. -/
def Env.plain (fetch : Nat → Request → FetchOutcome) : Env :=
  { dateNow := fun k => 1000 + k,
    storageFault := fun _ => none,
    fetch := fetch,
    callbackThrows := fun _ _ => false,
    accessToken := "token",
    jsonStringify := fun _ => "",
    numberToString := fun _ => "" }

/-- An environment that rejects the storage request number `k`, counted from
0, with the error `e`, and no other request. -/
def Env.faultAt (k : Nat) (e : JsError) (fetch : Nat → Request → FetchOutcome) : Env :=
  { Env.plain fetch with storageFault := fun n => if n = k then some e else none }

/-- An environment in which every request fails with a network error: no
storage fault, no throwing observer. -/
def failingEnv : Env := Env.plain (fetchAlwaysFails networkError)

/-- An environment in which every request gets a 200 response with the body
`{ id: 7 }`: no storage fault, no throwing observer. -/
def acceptingEnv : Env := Env.plain (fetchAlwaysOk [("id", JsPrim.num 7)])

/-- An environment in which the pending query of the first pass is rejected
(storage request 2) and every observer throws on every notification. -/
def hostileEnv : Env :=
  { Env.faultAt 2 unknownError (fetchAlwaysOk []) with callbackThrows := fun _ _ => true }

/-- The options `{ maxRetries: 3 }`. -/
def threeRetries : Options :=
  { Options.empty with maxRetries := some 3 }

/-- The options `{ status: "failed", retries: 3 }`. -/
def failedThrice : Options :=
  { Options.empty with status := some SYNC_STATUS.FAILED, retries := some 3 }

/-- The options `{ status: "failed", retries: 5 }`. -/
def failedOptions : Options :=
  { Options.empty with status := some SYNC_STATUS.FAILED, retries := some 5 }

/-- The options `{ maxRetries: 5, localId: "local_1" }`. -/
def retryOptions : Options :=
  { Options.empty with maxRetries := some 5, localId := some "local_1" }

/-- The queue of the retry scenario: on a fresh database,
`addPendingOperation("DELETE", "/api/stories", { id: 42 }, { maxRetries: 3 })`. -/
def queuedDelete : World :=
  (addPendingOperation failingEnv OPERATION_TYPES.DELETE "/api/stories"
    [("id", JsPrim.num 42)] threeRetries World.initial).2

/-- The record that `queuedDelete` holds. -/
def deleteRecord : Operation :=
  { id := 1, operationType := "DELETE", endpoint := "/api/stories",
    payload := [("id", JsPrim.num 42)], status := "pending", timestamp := 1000,
    retries := 0, maxRetries := 3, localId := none, serverId := none, error := none,
    updatedAt := none }

/-- The record that `queuedFailed` holds. -/
def failedRecord : Operation :=
  { id := 1, operationType := "DELETE", endpoint := "/api/stories",
    payload := [("id", JsPrim.num 42)], status := "failed", timestamp := 1000,
    retries := 3, maxRetries := 3, localId := none, serverId := none, error := none,
    updatedAt := none }

/-- The queue of the round trip scenario: on a fresh database,
`addPendingOperation("CREATE", "/api/stories", { title: "A" })`. -/
def queuedCreate : World :=
  (addPendingOperation acceptingEnv OPERATION_TYPES.CREATE "/api/stories"
    [("title", JsPrim.str "A")] Options.empty World.initial).2

/-- The record that `queuedCreate` holds. -/
def createRecord : Operation :=
  { id := 1, operationType := "CREATE", endpoint := "/api/stories",
    payload := [("title", JsPrim.str "A")], status := "pending", timestamp := 1000,
    retries := 0, maxRetries := 3, localId := none, serverId := none, error := none,
    updatedAt := none }

/-- A queue holding one operation that is `failed` with three retries stored:
on a fresh database, `addPendingOperation("DELETE", "/api/stories", { id: 42 },
{ status: "failed", retries: 3 })`. -/
def queuedFailed : World :=
  (addPendingOperation failingEnv OPERATION_TYPES.DELETE "/api/stories"
    [("id", JsPrim.num 42)] failedThrice World.initial).2

/-- The world `queuedCreate` with one observer registered. -/
def observedCreate : World :=
  { queuedCreate with syncCallbacks := [0] }

/-- What the queue stores of each operation: key, status, retries, maxRetries. -/
def retryView (st : World) : List (Nat × String × Nat × Nat) :=
  st.db.pendingOperations.map (fun op => (op.id, op.status, op.retries, op.maxRetries))

/-- One `syncOperation` on the first record that
`getPendingOperations({ status: "pending" })` resolves with: what the loop of
`syncAll` does for a queue of one. -/
def syncFirstPending (env : Env) (st : World) : World :=
  match getPendingOperations env { status := some SYNC_STATUS.PENDING } st with
  | (.ok (operation :: _), st) => (syncOperation env operation st).2
  | (_, st) => st

/-- An `UPDATE` whose payload has the id 0. -/
def updateZero : Operation :=
  { id := 1, operationType := "UPDATE", endpoint := "/api/stories",
    payload := [("id", JsPrim.num 0), ("title", JsPrim.str "A")], status := "pending",
    timestamp := 1000, retries := 0, maxRetries := 3, localId := none, serverId := none,
    error := none, updatedAt := none }

/-- A `DELETE` whose payload has the empty string as id. -/
def deleteEmpty : Operation :=
  { id := 2, operationType := "DELETE", endpoint := "/api/stories",
    payload := [("id", JsPrim.str "")], status := "pending",
    timestamp := 1000, retries := 0, maxRetries := 3, localId := none, serverId := none,
    error := none, updatedAt := none }

/-- An `UPDATE` whose payload has the id `"story-1"`. -/
def updateStory : Operation :=
  { id := 3, operationType := "UPDATE", endpoint := "/api/stories",
    payload := [("id", JsPrim.str "story-1"), ("title", JsPrim.str "A")], status := "pending",
    timestamp := 1000, retries := 0, maxRetries := 3, localId := none, serverId := none,
    error := none, updatedAt := none }

/-- The options `{ maxRetries: 1 }`. -/
def oneRetry : Options :=
  { Options.empty with maxRetries := some 1 }

/-- A queue holding one operation that allows one attempt, and one observer:
on a fresh database, `addPendingOperation("DELETE", "/api/stories", { id: 42 },
{ maxRetries: 1 })` and `onSyncStatusChange(callback)`. -/
def queuedOnce : World :=
  { (addPendingOperation failingEnv OPERATION_TYPES.DELETE "/api/stories"
      [("id", JsPrim.num 42)] oneRetry World.initial).2 with syncCallbacks := [0] }

/-- The record that `queuedOnce` holds. -/
def onceRecord : Operation :=
  { id := 1, operationType := "DELETE", endpoint := "/api/stories",
    payload := [("id", JsPrim.num 42)], status := "pending", timestamp := 1000,
    retries := 0, maxRetries := 1, localId := none, serverId := none, error := none,
    updatedAt := none }

/-- An environment in which every request fails with a network error and the
storage request number 6 is rejected: on `queuedOnce`, whose two requests were
the opening of the database and the `add`, requests 2 to 5 are the reads and
writes of the two status updates of `syncOperation`, and request 6 is the
`add` of `logSync`. -/
def logFaultEnv : Env := Env.faultAt 6 quotaExceeded (fetchAlwaysFails networkError)

/-- The world `queuedFailed` with one observer registered. -/
def observedFailed : World :=
  { queuedFailed with syncCallbacks := [0] }

/-- The options `{ maxRetries: 0 }`. -/
def zeroRetries : Options :=
  { Options.empty with maxRetries := some 0 }

/-- A record of the queue has the key `k`. -/
def HasKey (k : Nat) (st : World) : Prop :=
  ∃ r ∈ st.db.pendingOperations, r.id = k

/-- An environment that rejects the storage requests whose numbers, counted
from 0, are in `ks`, with the error `e`, and no other request. -/
def Env.faultsAt (ks : List Nat) (e : JsError) (fetch : Nat → Request → FetchOutcome) : Env :=
  { Env.plain fetch with storageFault := fun n => if n ∈ ks then some e else none }

/-- An accepting server and a storage that rejects the requests 6 and 8. In a
`syncOperation` on `queuedCreate`, whose requests 0 and 1 were the opening of
the database and the `add`, requests 2 to 5 are the reads and writes of the
updates to `syncing` and `synced`, request 6 is the `add` of `logSync`, and
requests 7 and 8 are the read and the write of the update in the `catch`
block. -/
def logAndPutFaultEnv : Env :=
  Env.faultsAt [6, 8] quotaExceeded (fetchAlwaysOk [("id", JsPrim.num 7)])

/-- The same faults one request later, for a `syncAll` pass on `queuedCreate`:
the pass begins with the query for the pending operations, request 2. -/
def passLogAndPutFaultEnv : Env :=
  Env.faultsAt [7, 9] quotaExceeded (fetchAlwaysOk [("id", JsPrim.num 7)])

/-- An environment in which every request gets a 500 response: no storage
fault, no throwing observer. -/
def serverErrorEnv : Env :=
  Env.plain (fun _ _ => FetchOutcome.response 500 "Internal Server Error" (Except.ok []))

/-- An operation record without its error text. -/
def eraseError (r : Operation) : Operation :=
  { r with error := none }

/-- A log entry without its error text. -/
def eraseLogError (e : SyncLogEntry) : SyncLogEntry :=
  { e with error := none }

/-- The world without the error texts it records, in the queue and in the
log, and without the traces of the requests and of the observer calls:
what two runs agree on when they differ only in the error of an execution. -/
def forgetErrors (st : World) : World :=
  { st with
    db := { st.db with
      pendingOperations := st.db.pendingOperations.map eraseError,
      syncLog := st.db.syncLog.map eraseLogError },
    executed := [],
    requests := [],
    delivered := [],
    callbackErrors := [] }

/-- An accepting server and a storage that rejects the request 5: in a
`syncOperation` on `queuedCreate` that is the write of the update to
`synced`, after the execution. -/
def syncedPutFaultEnv : Env :=
  Env.faultAt 5 quotaExceeded (fetchAlwaysOk [("id", JsPrim.num 7)])

/-- The same fault one request later, for a `syncAll` pass on `queuedCreate`,
which begins with the query for the pending operations. -/
def passSyncedPutFaultEnv : Env :=
  Env.faultAt 6 quotaExceeded (fetchAlwaysOk [("id", JsPrim.num 7)])

/-- Every record of the queue afterwards was in the queue before, or has a
key that `K` allows to be written. -/
def TouchesOnly (K : Nat → Prop) (st st' : World) : Prop :=
  ∀ r' ∈ st'.db.pendingOperations, r' ∈ st.db.pendingOperations ∨ K r'.id

/-- The options `{ status: "syncing" }`. -/
def syncingOptions : Options :=
  { Options.empty with status := some SYNC_STATUS.SYNCING }

/-- A queue with an operation left `syncing` under key 1 and a `failed`
operation under key 2, and the database open. -/
def queuedStuck : World :=
  (addPendingOperation failingEnv OPERATION_TYPES.DELETE "/api/stories"
    [("id", JsPrim.num 42)] failedThrice
    (addPendingOperation failingEnv OPERATION_TYPES.CREATE "/api/stories"
      [("title", JsPrim.str "A")] syncingOptions World.initial).2).2

/-- The record that `queuedStuck` holds under key 1. -/
def stuckRecord : Operation :=
  { id := 1, operationType := "CREATE", endpoint := "/api/stories",
    payload := [("title", JsPrim.str "A")], status := "syncing", timestamp := 1000,
    retries := 0, maxRetries := 3, localId := none, serverId := none, error := none,
    updatedAt := none }

/-- A manager on which the callbacks 5 and 7 are registered, in this order. -/
def observedTwice : World :=
  { World.initial with syncCallbacks := [5, 7] }

/-- Fifty entries of the `sync_log` store, for the operations 1 to 50 under
the keys 1 to 50, written at the clock readings `base`, `base + 1`, and so
on. -/
def fiftyEntries (base : Nat) : List SyncLogEntry :=
  (List.range 50).map (fun i =>
    { id := i + 1, operationId := i + 1, status := SYNC_STATUS.SYNCED,
      timestamp := base + i, response := some [], error := none })

/-- The pending `CREATE` of `createRecord` under the key 51. -/
def lateRecord : Operation :=
  { createRecord with id := 51 }

/-- A database in which fifty operations were synchronised and logged from
the clock reading `base` on, and the operation 51 waits in the queue. -/
def loggedFifty (base : Nat) : World :=
  { World.initial with
    db := { pendingOperations := [lateRecord], pendingNextKey := 52,
            syncLog := fiftyEntries base, syncLogNextKey := 51, localDrafts := [] },
    isInitialized := true }

/-! ## Lemmas on the object store primitives -/

theorem getByKey_cons (k : Nat) (x : Operation) (xs : List Operation) :
    getByKey k (x :: xs) = if x.id = k then some x else getByKey k xs := by
  unfold getByKey
  by_cases h : x.id = k <;> simp [List.find?_cons, h]

theorem getByKey_id (k : Nat) (l : List Operation) (op : Operation)
    (h : getByKey k l = some op) : op.id = k := by
  unfold getByKey at h
  have := List.find?_some h
  simpa using this

theorem getByKey_of_mem (op : Operation) (l : List Operation) (h : op ∈ l) :
    ∃ r, getByKey op.id l = some r ∧ r.id = op.id := by
  cases hg : getByKey op.id l with
  | none =>
    unfold getByKey at hg
    rw [List.find?_eq_none] at hg
    have := hg op h
    simp at this
  | some r => exact ⟨r, rfl, getByKey_id _ _ _ hg⟩

theorem getByKey_insertByKey_self (op : Operation) (l : List Operation)
    (h : getByKey op.id l = none) : getByKey op.id (insertByKey op l) = some op := by
  induction l with
  | nil => simp [insertByKey, getByKey_cons]
  | cons x xs ih =>
    rw [getByKey_cons] at h
    by_cases hx : x.id = op.id
    · simp [hx] at h
    · simp only [hx, if_false] at h
      unfold insertByKey
      by_cases hlt : op.id < x.id
      · simp [hlt, getByKey_cons]
      · simp [hlt, getByKey_cons, hx, ih h]

theorem insertByKey_perm (op : Operation) (l : List Operation) :
    (insertByKey op l).Perm (op :: l) := by
  induction l with
  | nil => simp [insertByKey]
  | cons x xs ih =>
    unfold insertByKey
    by_cases hlt : op.id < x.id
    · simp [hlt]
    · simp only [hlt, if_false]
      exact (List.Perm.cons x ih).trans (List.Perm.swap op x xs)

theorem insertByKey_of_keysBelow (op : Operation) (l : List Operation)
    (h : ∀ r ∈ l, r.id < op.id) : insertByKey op l = l ++ [op] := by
  induction l with
  | nil => simp [insertByKey]
  | cons x xs ih =>
    have hx : x.id < op.id := h x (List.mem_cons_self _ _)
    have hlt : ¬ op.id < x.id := by omega
    unfold insertByKey
    simp only [hlt, if_false, List.cons_append]
    rw [ih (fun r hr => h r (List.mem_cons_of_mem _ hr))]

theorem getByKey_eq_none_of_keysBelow (k : Nat) (l : List Operation)
    (h : ∀ r ∈ l, r.id < k) : getByKey k l = none := by
  unfold getByKey
  rw [List.find?_eq_none]
  intro x hx
  have := h x hx
  simp; omega

theorem getByKey_putByKey_self (op : Operation) (l : List Operation) :
    getByKey op.id (putByKey op l) = some op := by
  induction l with
  | nil => simp [putByKey, getByKey_cons]
  | cons x xs ih =>
    unfold putByKey
    by_cases hx : x.id = op.id
    · simp [hx, getByKey_cons]
    · by_cases hlt : op.id < x.id
      · simp [hx, hlt, getByKey_cons]
      · simp [hx, hlt, getByKey_cons, ih]

theorem mem_putByKey_of_ne (op r : Operation) (l : List Operation)
    (hr : r ∈ l) (hne : r.id ≠ op.id) : r ∈ putByKey op l := by
  induction l with
  | nil => cases hr
  | cons x xs ih =>
    unfold putByKey
    rcases List.mem_cons.mp hr with rfl | hr
    · simp only [hne, if_false]
      split <;> simp
    · split
      · exact List.mem_cons_of_mem _ hr
      · split
        · exact List.mem_cons_of_mem _ (List.mem_cons_of_mem _ hr)
        · exact List.mem_cons_of_mem _ (ih hr)

theorem mem_deleteByKey_of_ne (k : Nat) (r : Operation) (l : List Operation)
    (hr : r ∈ l) (hne : r.id ≠ k) : r ∈ deleteByKey k l := by
  unfold deleteByKey
  simp [List.mem_filter, hr, hne]

theorem mem_putByKey (op r : Operation) (l : List Operation) (h : r ∈ putByKey op l) :
    r = op ∨ r ∈ l := by
  induction l with
  | nil =>
    simp only [putByKey, List.mem_singleton] at h
    exact Or.inl h
  | cons x xs ih =>
    unfold putByKey at h
    split at h
    · rcases List.mem_cons.mp h with h | h
      · exact Or.inl h
      · exact Or.inr (List.mem_cons_of_mem _ h)
    · split at h
      · rcases List.mem_cons.mp h with h | h
        · exact Or.inl h
        · exact Or.inr h
      · rcases List.mem_cons.mp h with h | h
        · exact Or.inr (h ▸ List.mem_cons_self _ _)
        · rcases ih h with h | h
          · exact Or.inl h
          · exact Or.inr (List.mem_cons_of_mem _ h)

theorem mem_of_mem_deleteByKey (k : Nat) (r : Operation) (l : List Operation)
    (h : r ∈ deleteByKey k l) : r ∈ l := by
  unfold deleteByKey at h
  exact (List.mem_filter.mp h).1

theorem mem_of_getByKey (k : Nat) (l : List Operation) (op : Operation)
    (h : getByKey k l = some op) : op ∈ l := by
  unfold getByKey at h
  exact List.mem_of_find?_eq_some h

theorem id_ne_of_mem_deleteByKey (k : Nat) (o : Operation) (l : List Operation)
    (h : o ∈ deleteByKey k l) : o.id ≠ k := by
  unfold deleteByKey at h
  simpa using (List.mem_filter.mp h).2

theorem mem_getAllByStatus (status : String) (records : List Operation) (x : Operation) :
    x ∈ getAllByStatus status records ↔ x ∈ records ∧ x.status = status := by
  unfold getAllByStatus
  simp [List.mem_filter]

theorem uniqueKeys_nodup (records : List Operation) (h : UniqueKeys records) :
    (records.map (fun op => op.id)).Nodup := by
  unfold List.Nodup
  rw [List.pairwise_map]
  exact h.imp (fun hlt => by omega)

theorem eq_of_id_eq (records : List Operation) (h : UniqueKeys records) (a b : Operation)
    (ha : a ∈ records) (hb : b ∈ records) (hid : a.id = b.id) : a = b :=
  List.inj_on_of_nodup_map (uniqueKeys_nodup records h) ha hb hid

theorem getByKey_of_mem_uniqueKeys (op : Operation) (l : List Operation)
    (hkeys : UniqueKeys l) (h : op ∈ l) : getByKey op.id l = some op := by
  obtain ⟨r, hr, hid⟩ := getByKey_of_mem op l h
  have hrmem : r ∈ l := by
    unfold getByKey at hr
    exact List.mem_of_find?_eq_some hr
  rw [hr, eq_of_id_eq l hkeys r op hrmem h hid]

theorem uniqueKeys_getAllByStatus (status : String) (records : List Operation)
    (h : UniqueKeys records) : UniqueKeys (getAllByStatus status records) :=
  List.Pairwise.sublist (List.filter_sublist _) h

theorem selectOperations_subset (filter : Filter) (records : List Operation) :
    ∀ o ∈ selectOperations filter records, o ∈ records := by
  intro o ho
  unfold selectOperations at ho
  split at ho
  · split at ho
    · exact (List.mem_filter.mp ho).1
    · exact ho
  · exact ho

theorem selectOperations_pending (records : List Operation) :
    selectOperations { status := some SYNC_STATUS.PENDING } records =
      getAllByStatus SYNC_STATUS.PENDING records := by
  unfold selectOperations
  simp only
  rw [if_pos (by decide)]

theorem logNewer_eq_false (x e : SyncLogEntry) (ht : x.timestamp ≤ e.timestamp)
    (hid : x.id < e.id) : logNewer x e = false := by
  unfold logNewer
  simp only [Bool.or_eq_false_iff, Bool.and_eq_false_iff, decide_eq_false_iff_not]
  exact ⟨by omega, Or.inr (by omega)⟩

theorem newestFirst_append_newest (e : SyncLogEntry) (l : List SyncLogEntry)
    (h : ∀ x ∈ l, logNewer x e = false) : newestFirst (l ++ [e]) = e :: newestFirst l := by
  unfold newestFirst
  induction l with
  | nil => rfl
  | cons x xs ih =>
    simp only [List.cons_append, List.foldr_cons]
    rw [ih (fun y hy => h y (List.mem_cons_of_mem _ hy))]
    simp [insertNewestFirst, h x (List.mem_cons_self _ _)]

/-! ## Frame lemmas, for every environment -/

theorem evolves_of_eq {k : Nat} {P : String → Prop} {a b : World}
    (hp : b.db.pendingOperations = a.db.pendingOperations) : Evolves k P a b :=
  fun _ hm => Or.inl (hp ▸ hm)

theorem evolves_trans {k : Nat} {P : String → Prop} {a b c : World}
    (h₁ : Evolves k P a b) (h₂ : Evolves k P b c) : Evolves k P a c := by
  intro r' hr'
  rcases h₂ r' hr' with hb | ⟨r₂, hr₂, hid₂, hid', hret₂, hmax₂, hP⟩
  · exact h₁ r' hb
  · rcases h₁ r₂ hr₂ with ha | ⟨r, hr, hid, -, hret, hmax, -⟩
    · exact Or.inr ⟨r₂, ha, hid₂, hid', hret₂, hmax₂, hP⟩
    · exact Or.inr ⟨r, hr, hid, hid', hret₂.trans hret, hmax₂.trans hmax, hP⟩

theorem opFrame_refl (k : Nat) (P : String → Prop) (st : World) : OpFrame k P st st :=
  ⟨fun _ hr _ => hr, rfl, rfl, evolves_of_eq rfl⟩

theorem opFrame_trans {k : Nat} {P : String → Prop} {a b c : World}
    (h₁ : OpFrame k P a b) (h₂ : OpFrame k P b c) : OpFrame k P a c :=
  ⟨fun r hr hne => h₂.1 r (h₁.1 r hr hne) hne, h₂.2.1.trans h₁.2.1,
    h₂.2.2.1.trans h₁.2.2.1, evolves_trans h₁.2.2.2 h₂.2.2.2⟩

theorem opFrame_of_eq {k : Nat} {P : String → Prop} {a b : World}
    (hp : b.db.pendingOperations = a.db.pendingOperations)
    (he : b.executed = a.executed) (hr : b.requests = a.requests) : OpFrame k P a b :=
  ⟨fun _ hm _ => hp ▸ hm, he, hr, evolves_of_eq hp⟩

theorem keeps_of_frame {P : String → Prop} {st st' : World}
    (h : ∀ k, OpFrame k P st st') : Keeps st st' := by
  refine ⟨fun r hr => (h (r.id + 1)).1 r hr (by omega), (h 0).2.1, (h 0).2.2.1,
    fun r' hr' => ?_⟩
  rcases (h (r'.id + 1)).2.2.2 r' hr' with hb | ⟨r, -, -, hid', -⟩
  · exact hb
  · omega

theorem keeps_trans {a b c : World} (h₁ : Keeps a b) (h₂ : Keeps b c) : Keeps a c :=
  ⟨fun r hr => h₂.1 r (h₁.1 r hr), h₂.2.1.trans h₁.2.1, h₂.2.2.1.trans h₁.2.2.1,
    fun r' hr' => h₁.2.2.2 r' (h₂.2.2.2 r' hr')⟩

theorem keeps_of_eq {a b : World} (hp : b.db.pendingOperations = a.db.pendingOperations)
    (he : b.executed = a.executed) (hr : b.requests = a.requests) : Keeps a b :=
  ⟨fun _ hm => hp ▸ hm, he, hr, fun _ hm => hp ▸ hm⟩

theorem init_db (env : Env) (st : World) : (init env st).2.db = st.db := by
  unfold init dbRequest
  split
  · rfl
  · split <;> rename_i h <;> simp only [Prod.mk.injEq] at h <;> obtain ⟨-, rfl⟩ := h <;> rfl

theorem init_frame (env : Env) (k : Nat) (P : String → Prop) (st : World) :
    OpFrame k P st (init env st).2 := by
  unfold init dbRequest
  split
  · exact opFrame_refl _ _ _
  · split <;> rename_i h <;> simp only [Prod.mk.injEq] at h <;> obtain ⟨-, rfl⟩ := h <;>
      exact opFrame_of_eq rfl rfl rfl

/-- What `addPendingOperation` does when it resolves, for every environment:
the key it resolves with is the key of the record it built, that key was free,
and the record went into the store in key order. -/
theorem addPendingOperation_resolved (env : Env) (operationType endpoint : String)
    (payload : JsObject) (options : Options) (st : World) (k : Nat) (st' : World)
    (h : addPendingOperation env operationType endpoint payload options st = (Except.ok k, st')) :
    ∃ now : Nat,
      k = (buildOperation operationType endpoint payload options now st.db.pendingNextKey).id ∧
      getByKey k st.db.pendingOperations = none ∧
      st'.db.pendingOperations =
        insertByKey (buildOperation operationType endpoint payload options now
          st.db.pendingNextKey) st.db.pendingOperations := by
  unfold addPendingOperation at h
  have hdb := init_db env st
  split at h
  · simp at h
  · rename_i u st₁ hi
    rw [hi] at hdb
    simp only [dateNow, dbRequest] at h
    split at h
    · simp at h
    · rename_i st₂ hreq
      simp only [Prod.mk.injEq] at hreq
      obtain ⟨-, rfl⟩ := hreq
      simp only at h
      split at h
      · simp at h
      · rename_i hfree
        simp only [Prod.mk.injEq, Except.ok.injEq] at h
        obtain ⟨rfl, rfl⟩ := h
        simp only at hdb
        refine ⟨env.dateNow st₁.clockReads, ?_, ?_, ?_⟩
        · simp only [hdb]
        · simp only [hdb] at hfree ⊢; exact hfree
        · simp only [hdb]

theorem getPendingOperations_resolved (env : Env) (filter : Filter) (st : World)
    (ops : List Operation) (st' : World)
    (h : getPendingOperations env filter st = (Except.ok ops, st')) :
    ops = selectOperations filter st.db.pendingOperations := by
  unfold getPendingOperations at h
  have hdb := init_db env st
  split at h
  · simp at h
  · rename_i u st₁ hi
    rw [hi] at hdb
    simp only [dbRequest] at h
    split at h
    · simp at h
    · rename_i st₂ hreq
      simp only [Prod.mk.injEq] at hreq
      obtain ⟨-, rfl⟩ := hreq
      simp only at hdb
      unfold selectOperations
      split at h
      · rename_i s hs
        split at h <;> rename_i hne <;> simp only [Prod.mk.injEq, Except.ok.injEq] at h <;>
          simp [hne, ← h.1, hdb]
      · simp only [Prod.mk.injEq, Except.ok.injEq] at h
        simp [← h.1, hdb]

theorem updateOperationStatus_frame (env : Env) (k : Nat) (P : String → Prop)
    (status : String) (error : Option String) (st : World) (hP : P status) :
    OpFrame k P st (updateOperationStatus env k status error st).2 := by
  unfold updateOperationStatus
  have hi := init_frame env k P st
  split
  · rename_i h; rw [h] at hi; exact hi
  · rename_i h; rw [h] at hi
    refine opFrame_trans hi ?_
    unfold dbRequest dateNow
    split
    · rename_i h; simp only [Prod.mk.injEq] at h; obtain ⟨-, rfl⟩ := h
      exact opFrame_of_eq rfl rfl rfl
    · rename_i h; simp only [Prod.mk.injEq] at h; obtain ⟨-, rfl⟩ := h
      split
      · exact opFrame_of_eq rfl rfl rfl
      · rename_i op hop
        have hid := getByKey_id _ _ _ hop
        simp only
        split
        · rename_i h; simp only [Prod.mk.injEq] at h; obtain ⟨-, rfl⟩ := h
          exact opFrame_of_eq rfl rfl rfl
        · rename_i h; simp only [Prod.mk.injEq] at h; obtain ⟨-, rfl⟩ := h
          refine ⟨fun r hr hne => ?_, rfl, rfl, fun r' hr' => ?_⟩
          · exact mem_putByKey_of_ne _ r _ hr (by simpa [hid] using hne)
          · rcases mem_putByKey _ _ _ hr' with rfl | hold
            · exact Or.inr ⟨op, mem_of_getByKey _ _ _ hop, hid, hid, rfl, rfl, hP⟩
            · exact Or.inl hold

theorem deleteOperation_frame (env : Env) (k : Nat) (P : String → Prop) (st : World) :
    OpFrame k P st (deleteOperation env k st).2 := by
  unfold deleteOperation
  have hi := init_frame env k P st
  split
  · rename_i h; rw [h] at hi; exact hi
  · rename_i h; rw [h] at hi
    refine opFrame_trans hi ?_
    unfold dbRequest
    split
    · rename_i h; simp only [Prod.mk.injEq] at h; obtain ⟨-, rfl⟩ := h
      exact opFrame_of_eq rfl rfl rfl
    · rename_i h; simp only [Prod.mk.injEq] at h; obtain ⟨-, rfl⟩ := h
      exact ⟨fun r hr hne => mem_deleteByKey_of_ne _ r _ hr hne, rfl, rfl,
        fun r' hr' => Or.inl (mem_of_mem_deleteByKey _ _ _ hr')⟩

theorem logSync_frame (env : Env) (k : Nat) (P : String → Prop) (operationId : Nat)
    (status : String) (response : Option JsObject) (error : Option JsError) (st : World) :
    OpFrame k P st (logSync env operationId status response error st).2 := by
  unfold logSync
  have hi := init_frame env k P st
  split
  · rename_i h; rw [h] at hi; exact hi
  · rename_i h; rw [h] at hi
    refine opFrame_trans hi ?_
    unfold dbRequest dateNow
    simp only
    split
    · rename_i h; simp only [Prod.mk.injEq] at h; obtain ⟨-, rfl⟩ := h
      exact opFrame_of_eq rfl rfl rfl
    · rename_i h; simp only [Prod.mk.injEq] at h; obtain ⟨-, rfl⟩ := h
      exact opFrame_of_eq rfl rfl rfl

theorem getPendingOperations_frame (env : Env) (k : Nat) (P : String → Prop)
    (filter : Filter) (st : World) :
    OpFrame k P st (getPendingOperations env filter st).2 := by
  unfold getPendingOperations
  have hi := init_frame env k P st
  split
  · rename_i h; rw [h] at hi; exact hi
  · rename_i h; rw [h] at hi
    refine opFrame_trans hi ?_
    unfold dbRequest
    split
    · rename_i h; simp only [Prod.mk.injEq] at h; obtain ⟨-, rfl⟩ := h
      exact opFrame_of_eq rfl rfl rfl
    · rename_i h; simp only [Prod.mk.injEq] at h; obtain ⟨-, rfl⟩ := h
      split
      · split <;> exact opFrame_of_eq rfl rfl rfl
      · exact opFrame_of_eq rfl rfl rfl

theorem getSyncLog_frame (env : Env) (k : Nat) (P : String → Prop) (limit : Int)
    (st : World) : OpFrame k P st (getSyncLog env limit st).2 := by
  unfold getSyncLog
  have hi := init_frame env k P st
  split
  · rename_i h; rw [h] at hi; exact hi
  · rename_i h; rw [h] at hi
    refine opFrame_trans hi ?_
    unfold dbRequest
    split
    · rename_i h; simp only [Prod.mk.injEq] at h; obtain ⟨-, rfl⟩ := h
      exact opFrame_of_eq rfl rfl rfl
    · rename_i h; simp only [Prod.mk.injEq] at h; obtain ⟨-, rfl⟩ := h
      exact opFrame_of_eq rfl rfl rfl

theorem getStats_frame (env : Env) (k : Nat) (P : String → Prop) (st : World) :
    OpFrame k P st (getStats env st).2 := by
  unfold getStats
  have h₁ := getPendingOperations_frame env k P Filter.empty st
  split
  · rename_i h; rw [h] at h₁; exact h₁
  · rename_i ops st₁ h; rw [h] at h₁
    refine opFrame_trans h₁ ?_
    have h₂ := getSyncLog_frame env k P 100 st₁
    split
    · rename_i h; rw [h] at h₂; exact h₂
    · rename_i h; rw [h] at h₂; exact h₂

theorem notifyCallbacks_frame (env : Env) (k : Nat) (P : String → Prop) (data : SyncEvent)
    (cbs : List Nat) (st : World) : OpFrame k P st (notifyCallbacks env data cbs st) := by
  induction cbs generalizing st with
  | nil => exact opFrame_refl _ _ _
  | cons c rest ih =>
    unfold notifyCallbacks
    refine opFrame_trans ?_ (ih _)
    simp only
    split <;> exact opFrame_of_eq rfl rfl rfl

theorem notifySyncStatusChange_frame (env : Env) (k : Nat) (P : String → Prop)
    (data : SyncEvent) (st : World) : OpFrame k P st (notifySyncStatusChange env data st) :=
  notifyCallbacks_frame env k P data _ st

theorem notifyCallbacks_db (env : Env) (data : SyncEvent) (cbs : List Nat) (st : World) :
    (notifyCallbacks env data cbs st).db = st.db := by
  induction cbs generalizing st with
  | nil => rfl
  | cons c rest ih =>
    unfold notifyCallbacks
    rw [ih]
    simp only
    split <;> rfl

theorem notifySyncStatusChange_db (env : Env) (data : SyncEvent) (st : World) :
    (notifySyncStatusChange env data st).db = st.db :=
  notifyCallbacks_db env data _ st

theorem executeOperation_effect (env : Env) (operation : Operation) (st : World) :
    (executeOperation env operation st).2 =
      { st with executed := st.executed ++ [operation],
                requests := st.requests ++ requestsOf env operation } := by
  unfold executeOperation requestsOf
  cases hb : buildRequest env operation with
  | error e => simp
  | ok request =>
    simp only
    split
    · rfl
    · split <;> rfl

theorem executeOperation_result (env : Env) (operation : Operation) (st st' : World)
    (h : st'.requests = st.requests) :
    (executeOperation env operation st').1 = (executeOperation env operation st).1 := by
  unfold executeOperation
  cases hb : buildRequest env operation with
  | error e => rfl
  | ok request =>
    simp only [h]
    split
    · rfl
    · split <;> rfl

theorem retryRule_syncing (operation : Operation) :
    retryRule operation SYNC_STATUS.SYNCING := Or.inl rfl

theorem retryRule_synced (operation : Operation) :
    retryRule operation SYNC_STATUS.SYNCED := Or.inr (Or.inl rfl)

theorem retryRule_pending (operation : Operation) :
    retryRule operation SYNC_STATUS.PENDING := Or.inr (Or.inr (Or.inl rfl))

theorem retryRule_failed (operation : Operation)
    (h : operation.retries + 1 ≥ operation.maxRetries) :
    retryRule operation SYNC_STATUS.FAILED := Or.inr (Or.inr (Or.inr ⟨rfl, h⟩))

theorem syncOperationTry_frame (env : Env) (operation : Operation) (st : World) :
    OpFrame operation.id (retryRule operation) (executeOperation env operation st).2
      (syncOperationTry env operation st).2 := by
  unfold syncOperationTry
  split
  · rename_i h; rw [h]; exact opFrame_refl _ _ _
  · rename_i response st₁ h; rw [h]
    have h₁ := updateOperationStatus_frame env operation.id (retryRule operation)
      SYNC_STATUS.SYNCED none st₁ (retryRule_synced operation)
    split
    · rename_i h; rw [h] at h₁; exact h₁
    · rename_i o st₂ h; rw [h] at h₁
      refine opFrame_trans h₁ ?_
      have h₂ := logSync_frame env operation.id (retryRule operation) operation.id
        SYNC_STATUS.SYNCED (some response) none st₂
      split
      · rename_i h; rw [h] at h₂; exact h₂
      · rename_i e st₃ h; rw [h] at h₂
        refine opFrame_trans h₂ ?_
        have h₃ := deleteOperation_frame env operation.id (retryRule operation) st₃
        split
        · rename_i h; rw [h] at h₃; exact h₃
        · rename_i u st₄ h; rw [h] at h₃
          exact opFrame_trans h₃ (notifySyncStatusChange_frame env _ _ _ st₄)

theorem syncOperationCatch_frame (env : Env) (operation : Operation) (error : JsError)
    (st : World) :
    OpFrame operation.id (retryRule operation) st
      (syncOperationCatch env operation error st).2 := by
  unfold syncOperationCatch
  simp only
  split
  · rename_i hmax
    have h₁ := updateOperationStatus_frame env operation.id (retryRule operation)
      SYNC_STATUS.FAILED (some error.message) st (retryRule_failed operation hmax)
    split
    · rename_i h; rw [h] at h₁; exact h₁
    · rename_i o st₁ h; rw [h] at h₁
      refine opFrame_trans h₁ ?_
      have h₂ := logSync_frame env operation.id (retryRule operation) operation.id
        SYNC_STATUS.FAILED none (some error) st₁
      split
      · rename_i h; rw [h] at h₂; exact h₂
      · rename_i e st₂ h; rw [h] at h₂
        exact opFrame_trans h₂ (notifySyncStatusChange_frame env _ _ _ st₂)
  · have h₁ := updateOperationStatus_frame env operation.id (retryRule operation)
      SYNC_STATUS.PENDING none st (retryRule_pending operation)
    split
    · rename_i h; rw [h] at h₁; exact h₁
    · rename_i h; rw [h] at h₁; exact h₁

/-- What one `syncOperation` does to the queue and to the traces, whatever the
environment does: the records of other operations stay; the operation is
executed exactly once if the first status update went through, and not at all
otherwise; and the queue evolves at the key of the operation only, by the
retry rule applied to the object the call was handed. -/
theorem syncOperation_frame (env : Env) (operation : Operation) (st : World) :
    (∀ r ∈ st.db.pendingOperations, r.id ≠ operation.id →
        r ∈ (syncOperation env operation st).2.db.pendingOperations) ∧
    (((updateOperationStatus env operation.id SYNC_STATUS.SYNCING none st).1.isOk = false ∧
        (syncOperation env operation st).2.executed = st.executed ∧
        (syncOperation env operation st).2.requests = st.requests) ∨
      ((updateOperationStatus env operation.id SYNC_STATUS.SYNCING none st).1.isOk = true ∧
        (syncOperation env operation st).2.executed = st.executed ++ [operation] ∧
        (syncOperation env operation st).2.requests =
          st.requests ++ requestsOf env operation)) ∧
    Evolves operation.id (retryRule operation) st (syncOperation env operation st).2 := by
  unfold syncOperation
  have h₁ := updateOperationStatus_frame env operation.id (retryRule operation)
    SYNC_STATUS.SYNCING none st (retryRule_syncing operation)
  split
  · rename_i e st₁ h; rw [h] at h₁ ⊢
    exact ⟨h₁.1, Or.inl ⟨rfl, h₁.2.1, h₁.2.2.1⟩, h₁.2.2.2⟩
  · rename_i o st₁ h; rw [h] at h₁ ⊢
    have h₂ := syncOperationTry_frame env operation st₁
    have hx := executeOperation_effect env operation st₁
    have key : ∀ st', OpFrame operation.id (retryRule operation)
          (executeOperation env operation st₁).2 st' →
        (∀ r ∈ st.db.pendingOperations, r.id ≠ operation.id → r ∈ st'.db.pendingOperations) ∧
        (st'.executed = st.executed ++ [operation] ∧
          st'.requests = st.requests ++ requestsOf env operation) ∧
        Evolves operation.id (retryRule operation) st st' := by
      intro st' hf
      rw [hx] at hf
      refine ⟨fun r hr hne => hf.1 r (h₁.1 r hr hne) hne, ⟨?_, ?_⟩, ?_⟩
      · rw [hf.2.1]
        show st₁.executed ++ [operation] = _
        rw [show st₁.executed = st.executed from h₁.2.1]
      · rw [hf.2.2.1]
        show st₁.requests ++ requestsOf env operation = _
        rw [show st₁.requests = st.requests from h₁.2.2.1]
      · exact evolves_trans h₁.2.2.2 (evolves_trans (evolves_of_eq rfl) hf.2.2.2)
    split
    · rename_i response st₂ h; rw [h] at h₂
      have := key st₂ h₂
      exact ⟨this.1, Or.inr ⟨rfl, this.2.1⟩, this.2.2⟩
    · rename_i error st₂ h; rw [h] at h₂
      have := key _ (opFrame_trans h₂ (syncOperationCatch_frame env operation error st₂))
      exact ⟨this.1, Or.inr ⟨rfl, this.2.1⟩, this.2.2⟩

/-- The loop of `syncAll` keeps every record whose key is not among the
operations it is given, and executes a sublist of them, in order. -/
theorem syncAllLoop_frame (env : Env) (ops : List Operation) (st : World) :
    (∀ r ∈ st.db.pendingOperations, (∀ x ∈ ops, r.id ≠ x.id) →
        r ∈ (syncAllLoop env ops st).db.pendingOperations) ∧
    ∃ done : List Operation, done.Sublist ops ∧
      (syncAllLoop env ops st).executed = st.executed ++ done ∧
      (syncAllLoop env ops st).requests = st.requests ++ done.flatMap (requestsOf env) := by
  induction ops generalizing st with
  | nil => exact ⟨fun r hr _ => hr, [], List.Sublist.refl _, by simp [syncAllLoop], by simp [syncAllLoop]⟩
  | cons x rest ih =>
    unfold syncAllLoop
    obtain ⟨hkeep, hx, -⟩ := syncOperation_frame env x st
    obtain ⟨ihkeep, done, hsub, hexec, hreq⟩ := ih (syncOperation env x st).2
    refine ⟨fun r hr hne => ?_, ?_⟩
    · exact ihkeep r (hkeep r hr (hne x (List.mem_cons_self _ _)))
        (fun y hy => hne y (List.mem_cons_of_mem _ hy))
    · rcases hx with ⟨-, he, hr⟩ | ⟨-, he, hr⟩
      · exact ⟨done, hsub.cons x, by rw [hexec, he], by rw [hreq, hr]⟩
      · refine ⟨x :: done, hsub.cons₂ x, by rw [hexec, he]; simp, ?_⟩
        rw [hreq, hr]; simp [List.flatMap_cons]

/-- The part of `syncAll` after the loop keeps the queue and the traces. -/
theorem syncAll_tail_keeps (env : Env) (st : World) :
    Keeps st
      (match dateNow env st with
        | (now, st) =>
          match getStats env { st with lastSyncTime := some now } with
          | (Except.error e, st) => ((Except.error e : Except JsError Unit), st)
          | (Except.ok stats, st) =>
            (Except.ok (), notifySyncStatusChange env
              (SyncEvent.aggregate false stats.totalPending st.lastSyncTime) st)).2 := by
  unfold dateNow
  simp only
  generalize hst₁ : ({ st with clockReads := st.clockReads + 1,
                               lastSyncTime := some (env.dateNow st.clockReads) } : World) = st₁
  have h₀ : Keeps st st₁ := by rw [← hst₁]; exact keeps_of_eq rfl rfl rfl
  have h₁ : Keeps st₁ (getStats env st₁).2 :=
    keeps_of_frame (fun k => getStats_frame env k (fun _ => True) st₁)
  split
  · rename_i h; rw [h] at h₁; exact keeps_trans h₀ h₁
  · rename_i stats st₂ h; rw [h] at h₁
    exact keeps_trans (keeps_trans h₀ h₁)
      (keeps_of_frame (fun k => notifySyncStatusChange_frame env k (fun _ => True) _ st₂))

/-- What a call of `syncAll` does to the queue and to the traces, whatever
the environment does: the operations it executes are, in order, some of the
records that have status `pending` when it is called, each at most once, and
every record whose key is not the key of such a record stays as it is. -/
theorem syncAll_frame (env : Env) (st : World) :
    ∃ done : List Operation,
      done.Sublist (getAllByStatus SYNC_STATUS.PENDING st.db.pendingOperations) ∧
      (syncAll env st).2.executed = st.executed ++ done ∧
      (syncAll env st).2.requests = st.requests ++ done.flatMap (requestsOf env) ∧
      ∀ r ∈ st.db.pendingOperations,
        (∀ x ∈ getAllByStatus SYNC_STATUS.PENDING st.db.pendingOperations, r.id ≠ x.id) →
        r ∈ (syncAll env st).2.db.pendingOperations := by
  unfold syncAll
  split
  · exact ⟨[], List.nil_sublist _, by simp, by simp, fun r hr _ => hr⟩
  · simp only
    generalize hst₀ : notifySyncStatusChange env (SyncEvent.aggregate true 0 none)
      { st with isSyncing := true } = st₀
    have hdb₀ : st₀.db = st.db := by rw [← hst₀, notifySyncStatusChange_db]
    have hk₀ : Keeps st st₀ := by
      rw [← hst₀]
      have hflag : Keeps st { st with isSyncing := true } := keeps_of_eq rfl rfl rfl
      exact keeps_trans hflag
        (keeps_of_frame (fun k => notifySyncStatusChange_frame env k (fun _ => True) _ _))
    unfold syncAllTry
    have hk₁ : Keeps st₀ (getPendingOperations env { status := some SYNC_STATUS.PENDING } st₀).2 :=
      keeps_of_frame (fun k => getPendingOperations_frame env k (fun _ => True) _ st₀)
    split
    · rename_i r₁ e st₁ h
      rw [h] at hk₁
      have hk := keeps_trans hk₀ hk₁
      exact ⟨[], List.nil_sublist _, by simpa using hk.2.1, by simpa using hk.2.2.1,
        fun r hr _ => hk.1 r hr⟩
    · rename_i r₁ pendingOps st₁ h
      rw [h] at hk₁
      have hops := getPendingOperations_resolved env _ _ _ _ h
      rw [selectOperations_pending, hdb₀] at hops
      obtain ⟨hloop, done, hsub, hexec, hreq⟩ := syncAllLoop_frame env pendingOps st₁
      have hk₂ := syncAll_tail_keeps env (syncAllLoop env pendingOps st₁)
      have hk := keeps_trans hk₀ hk₁
      refine ⟨done, hops ▸ hsub, ?_, ?_, fun r hr hne => ?_⟩
      · show _ = st.executed ++ done
        rw [← hk.2.1, ← hexec]; exact hk₂.2.1
      · show _ = st.requests ++ done.flatMap (requestsOf env)
        rw [← hk.2.2.1, ← hreq]; exact hk₂.2.2.1
      · exact hk₂.1 r (hloop r (hk.1 r hr) (hops ▸ hne))

/-! ## Closed forms when no storage request is rejected -/

@[simp] theorem touch_db (n : Nat) (st : World) : (touch n st).db = st.db := rfl

@[simp] theorem touch_clockReads (n : Nat) (st : World) : (touch n st).clockReads = st.clockReads := rfl

@[simp] theorem touch_executed (n : Nat) (st : World) : (touch n st).executed = st.executed := rfl

@[simp] theorem touch_requests (n : Nat) (st : World) : (touch n st).requests = st.requests := rfl

@[simp] theorem touch_isInitialized (n : Nat) (st : World) : (touch n st).isInitialized = true := rfl

theorem init_noFault {env : Env} (h : NoStorageFault env) (st : World) :
    init env st = (Except.ok (), touch 0 st) := by
  unfold init touch dbRequest
  by_cases hi : st.isInitialized = true
  · simp [hi]
    cases st; simp_all
  · simp [hi, h st.storageCalls]

theorem addPendingOperation_noFault {env : Env} (h : NoStorageFault env)
    (operationType endpoint : String) (payload : JsObject) (options : Options) (st : World)
    (hfree : getByKey (buildOperation operationType endpoint payload options
      (env.dateNow st.clockReads) st.db.pendingNextKey).id st.db.pendingOperations = none) :
    ∃ st', addPendingOperation env operationType endpoint payload options st =
      (Except.ok (buildOperation operationType endpoint payload options
        (env.dateNow st.clockReads) st.db.pendingNextKey).id, st') := by
  unfold addPendingOperation
  rw [init_noFault h]
  simp only [dateNow, dbRequest, h _, touch_db, touch_clockReads, hfree]
  exact ⟨_, rfl⟩

theorem getPendingOperations_noFault {env : Env} (h : NoStorageFault env) (filter : Filter)
    (st : World) :
    getPendingOperations env filter st =
      (Except.ok (selectOperations filter st.db.pendingOperations), touch 1 st) := by
  unfold getPendingOperations
  rw [init_noFault h]
  simp only [dbRequest, h _, selectOperations]
  have : ({ touch 0 st with storageCalls := (touch 0 st).storageCalls + 1 } : World) = touch 1 st := by
    simp [touch]
  rw [this]
  cases filter.status with
  | none => rfl
  | some s => simp only [touch_db]; split <;> rfl

theorem updateOperationStatus_noFault {env : Env} (h : NoStorageFault env) (k : Nat)
    (status : String) (error : Option String) (st : World) :
    updateOperationStatus env k status error st =
      match getByKey k st.db.pendingOperations with
      | none => (Except.error (newError "Operation not found"), touch 1 st)
      | some operation =>
        (Except.ok (withStatus operation status error (env.dateNow st.clockReads)),
          withPending (putByKey (withStatus operation status error (env.dateNow st.clockReads))
            st.db.pendingOperations) (clockRead (touch 2 st))) := by
  unfold updateOperationStatus
  rw [init_noFault h]
  simp only [dbRequest, dateNow, h _, touch_db]
  cases getByKey k st.db.pendingOperations with
  | none => simp [touch]
  | some op => simp [touch, Nat.add_assoc, withStatus, withPending, clockRead]

theorem updateOperationStatus_isOk {env : Env} (h : NoStorageFault env) (k : Nat)
    (status : String) (error : Option String) (st : World)
    (hk : ∃ r ∈ st.db.pendingOperations, r.id = k) :
    (updateOperationStatus env k status error st).1.isOk = true := by
  obtain ⟨r, hr, rfl⟩ := hk
  obtain ⟨r', hr', -⟩ := getByKey_of_mem r _ hr
  rw [updateOperationStatus_noFault h, hr']
  rfl

theorem deleteOperation_noFault {env : Env} (h : NoStorageFault env) (k : Nat) (st : World) :
    deleteOperation env k st =
      (Except.ok (), withPending (deleteByKey k st.db.pendingOperations) (touch 1 st)) := by
  unfold deleteOperation
  rw [init_noFault h]
  simp [dbRequest, h _, touch, withPending]

theorem logSync_noFault {env : Env} (h : NoStorageFault env) (operationId : Nat)
    (status : String) (response : Option JsObject) (error : Option JsError) (st : World) :
    logSync env operationId status response error st =
      (Except.ok (logEntryOf st.db.syncLogNextKey operationId status response error
          (env.dateNow st.clockReads)),
        withLogged (logEntryOf st.db.syncLogNextKey operationId status response error
          (env.dateNow st.clockReads)) (clockRead (touch 1 st))) := by
  unfold logSync
  rw [init_noFault h]
  cases error <;> simp [dbRequest, dateNow, h _, touch, withLogged, clockRead, logEntryOf]

theorem getSyncLog_noFault {env : Env} (h : NoStorageFault env) (limit : Int) (st : World) :
    getSyncLog env limit st =
      (Except.ok ((newestFirst st.db.syncLog).take limit.toNat), touch 1 st) := by
  unfold getSyncLog
  rw [init_noFault h]
  simp [dbRequest, h _, touch]

/-- The database after a `syncOperation` whose execution succeeds, no storage
request being rejected: the record of the operation is gone and the log has
one more entry, written at the third clock read of the call. -/
theorem syncOperation_success_noFault {env : Env} (hfault : NoStorageFault env)
    (operation : Operation) (st : World) (response : JsObject)
    (hmem : operation ∈ st.db.pendingOperations)
    (hexec : (executeOperation env operation st).1 = Except.ok response) :
    (syncOperation env operation st).1 = Except.ok response ∧
    (∀ o ∈ (syncOperation env operation st).2.db.pendingOperations, o.id ≠ operation.id) ∧
    (syncOperation env operation st).2.db.syncLog =
      st.db.syncLog ++ [logEntryOf st.db.syncLogNextKey operation.id SYNC_STATUS.SYNCED
        (some response) none (env.dateNow (st.clockReads + 2))] := by
  obtain ⟨r, hr, hrid⟩ := getByKey_of_mem operation _ hmem
  unfold syncOperation
  rw [updateOperationStatus_noFault hfault, hr]
  simp only
  generalize hst₁ : withPending _ (clockRead (touch 2 st)) = st₁
  have hreq : st₁.requests = st.requests := by rw [← hst₁]; rfl
  have hdb₁ : getByKey operation.id st₁.db.pendingOperations =
      some (withStatus r SYNC_STATUS.SYNCING none (env.dateNow st.clockReads)) := by
    rw [← hst₁]
    have := getByKey_putByKey_self (withStatus r SYNC_STATUS.SYNCING none (env.dateNow st.clockReads))
      st.db.pendingOperations
    rw [show (withStatus r SYNC_STATUS.SYNCING none (env.dateNow st.clockReads)).id = operation.id
      from hrid] at this
    exact this
  have hx : executeOperation env operation st₁ =
      (Except.ok response, { st₁ with executed := st₁.executed ++ [operation],
                                      requests := st₁.requests ++ requestsOf env operation }) := by
    apply Prod.ext
    · rw [executeOperation_result env operation st st₁ hreq, hexec]
    · exact executeOperation_effect env operation st₁
  unfold syncOperationTry
  rw [hx]
  simp only
  rw [updateOperationStatus_noFault hfault]
  simp only [hdb₁]
  rw [logSync_noFault hfault]
  simp only
  rw [deleteOperation_noFault hfault]
  simp only [notifySyncStatusChange_db]
  refine ⟨trivial, ?_, ?_⟩
  · intro o ho
    exact id_ne_of_mem_deleteByKey _ _ _ ho
  · rw [← hst₁]
    simp [withPending, withLogged, clockRead, touch]

/-- The database after a `syncOperation` whose execution fails, no storage
request being rejected and the operation being a record of the queue as the
pending query returned it: the call rejects with the error of the execution;
the record is stored with the status the retry rule gives it, `failed` when
its stored retries plus one reach `maxRetries` and `pending` otherwise, and
with every other field but `error` and `updatedAt` as before, the stored
retries included; the log gets an entry in the first case only. -/
theorem syncOperation_failure_noFault {env : Env} (hfault : NoStorageFault env)
    (operation : Operation) (st : World) (error : JsError)
    (hmem : operation ∈ st.db.pendingOperations)
    (hkeys : UniqueKeys st.db.pendingOperations)
    (hexec : (executeOperation env operation st).1 = Except.error error) :
    (syncOperation env operation st).1 = Except.error error ∧
    getByKey operation.id (syncOperation env operation st).2.db.pendingOperations =
      some (if operation.retries + 1 ≥ operation.maxRetries then
          withStatus operation SYNC_STATUS.FAILED (some error.message)
            (env.dateNow (st.clockReads + 1))
        else withStatus operation SYNC_STATUS.PENDING none (env.dateNow (st.clockReads + 1))) ∧
    (syncOperation env operation st).2.db.syncLog =
      if operation.retries + 1 ≥ operation.maxRetries then
        st.db.syncLog ++ [logEntryOf st.db.syncLogNextKey operation.id SYNC_STATUS.FAILED
          none (some error) (env.dateNow (st.clockReads + 2))]
      else st.db.syncLog := by
  have hr := getByKey_of_mem_uniqueKeys operation _ hkeys hmem
  unfold syncOperation
  rw [updateOperationStatus_noFault hfault, hr]
  simp only
  generalize hst₁ : withPending _ (clockRead (touch 2 st)) = st₁
  have hreq : st₁.requests = st.requests := by rw [← hst₁]; rfl
  have hlog₁ : st₁.db.syncLog = st.db.syncLog := by rw [← hst₁]; rfl
  have hkey₁ : st₁.db.syncLogNextKey = st.db.syncLogNextKey := by rw [← hst₁]; rfl
  have hclock₁ : st₁.clockReads = st.clockReads + 1 := by rw [← hst₁]; rfl
  have hdb₁ : getByKey operation.id st₁.db.pendingOperations =
      some (withStatus operation SYNC_STATUS.SYNCING none (env.dateNow st.clockReads)) := by
    rw [← hst₁]
    exact getByKey_putByKey_self
      (withStatus operation SYNC_STATUS.SYNCING none (env.dateNow st.clockReads))
      st.db.pendingOperations
  have hx : executeOperation env operation st₁ =
      (Except.error error, { st₁ with executed := st₁.executed ++ [operation],
                                      requests := st₁.requests ++ requestsOf env operation }) := by
    apply Prod.ext
    · rw [executeOperation_result env operation st st₁ hreq, hexec]
    · exact executeOperation_effect env operation st₁
  unfold syncOperationTry
  rw [hx]
  simp only
  unfold syncOperationCatch
  simp only
  by_cases hmax : operation.retries + 1 ≥ operation.maxRetries
  · rw [if_pos hmax, if_pos hmax, if_pos hmax]
    rw [updateOperationStatus_noFault hfault]
    simp only [hdb₁]
    rw [logSync_noFault hfault]
    simp only [notifySyncStatusChange_db]
    refine ⟨trivial, ?_, ?_⟩
    · simp only [withPending, clockRead, touch, withLogged, hclock₁]
      exact getByKey_putByKey_self
        (withStatus operation SYNC_STATUS.FAILED (some error.message)
          (env.dateNow (st.clockReads + 1))) st₁.db.pendingOperations
    · simp [withPending, withLogged, clockRead, touch, hlog₁, hkey₁, hclock₁]
  · rw [if_neg hmax, if_neg hmax, if_neg hmax]
    rw [updateOperationStatus_noFault hfault]
    simp only [hdb₁]
    refine ⟨trivial, ?_, ?_⟩
    · simp only [withPending, clockRead, touch, hclock₁]
      exact getByKey_putByKey_self
        (withStatus operation SYNC_STATUS.PENDING none
          (env.dateNow (st.clockReads + 1))) st₁.db.pendingOperations
    · simp [withPending, clockRead, touch, hlog₁]

/-- The loop of `syncAll` when no storage request is rejected: every
operation it is given is executed, once and in order, provided the records
are in the queue under distinct keys. -/
theorem syncAllLoop_noFault {env : Env} (h : NoStorageFault env) (ops : List Operation)
    (st : World) (hmem : ∀ x ∈ ops, ∃ r ∈ st.db.pendingOperations, r.id = x.id)
    (hnodup : (ops.map (fun op => op.id)).Nodup) :
    (syncAllLoop env ops st).executed = st.executed ++ ops ∧
    (syncAllLoop env ops st).requests = st.requests ++ ops.flatMap (requestsOf env) := by
  induction ops generalizing st with
  | nil => simp [syncAllLoop]
  | cons x rest ih =>
    unfold syncAllLoop
    obtain ⟨hkeep, hx, -⟩ := syncOperation_frame env x st
    have hok := updateOperationStatus_isOk h x.id SYNC_STATUS.SYNCING none st
      (hmem x (List.mem_cons_self _ _))
    rw [List.map_cons, List.nodup_cons] at hnodup
    have hrest : ∀ y ∈ rest, ∃ r ∈ (syncOperation env x st).2.db.pendingOperations, r.id = y.id := by
      intro y hy
      obtain ⟨r, hr, hid⟩ := hmem y (List.mem_cons_of_mem _ hy)
      refine ⟨r, hkeep r hr ?_, hid⟩
      intro heq
      exact hnodup.1 (List.mem_map.mpr ⟨y, hy, by rw [← hid, heq]⟩)
    obtain ⟨he, hr⟩ := ih (syncOperation env x st).2 hrest hnodup.2
    rcases hx with ⟨hbad, -, -⟩ | ⟨-, he₁, hr₁⟩
    · rw [hok] at hbad; cases hbad
    · exact ⟨by rw [he, he₁]; simp, by rw [hr, hr₁]; simp [List.flatMap_cons]⟩

/-! ## The stored retries never change, for every environment -/

theorem retriesStable_refl (st : World) : RetriesStable st st :=
  fun r' hr' => ⟨r', hr', rfl, rfl, rfl, fun h => Or.inl h⟩

theorem retriesStable_trans {a b c : World} (h₁ : RetriesStable a b)
    (h₂ : RetriesStable b c) : RetriesStable a c := by
  intro r' hr'
  obtain ⟨r₂, hr₂, hid₂, hret₂, hmax₂, hf₂⟩ := h₂ r' hr'
  obtain ⟨r, hr, hid, hret, hmax, hf⟩ := h₁ r₂ hr₂
  refine ⟨r, hr, hid.trans hid₂, hret₂.trans hret, hmax₂.trans hmax, fun hfailed => ?_⟩
  rcases hf₂ hfailed with h | h
  · exact hf h
  · exact Or.inr (by rw [← hret, ← hmax]; exact h)

theorem retriesStable_of_keeps {a b : World} (h : Keeps a b) : RetriesStable a b :=
  fun r' hr' => ⟨r', h.2.2.2 r' hr', rfl, rfl, rfl, fun hf => Or.inl hf⟩

theorem keyFixesRetries_of_uniqueKeys (records : List Operation) (h : UniqueKeys records) :
    KeyFixesRetries records := by
  intro a ha b hb hid
  rw [eq_of_id_eq records h a b ha hb hid]
  exact ⟨rfl, rfl⟩

theorem keyFixesRetries_of_stable {a b : World} (h : RetriesStable a b)
    (hfix : KeyFixesRetries a.db.pendingOperations) :
    KeyFixesRetries b.db.pendingOperations := by
  intro x hx y hy hid
  obtain ⟨x₀, hx₀, hidx, hretx, hmaxx, -⟩ := h x hx
  obtain ⟨y₀, hy₀, hidy, hrety, hmaxy, -⟩ := h y hy
  have := hfix x₀ hx₀ y₀ hy₀ (by rw [hidx, hidy, hid])
  exact ⟨by rw [hretx, hrety, this.1], by rw [hmaxx, hmaxy, this.2]⟩

/-- One `syncOperation`, whatever the environment does, on an object that has
the `retries` and `maxRetries` of the record stored under its key: the stored
retries stay as they are, and a record is `failed` afterwards only if it was
before or if its stored retries plus one reach its `maxRetries`. -/
theorem syncOperation_stable (env : Env) (operation : Operation) (st : World)
    (hsame : ∀ r ∈ st.db.pendingOperations, r.id = operation.id →
      r.retries = operation.retries ∧ r.maxRetries = operation.maxRetries) :
    RetriesStable st (syncOperation env operation st).2 := by
  obtain ⟨-, -, hev⟩ := syncOperation_frame env operation st
  intro r' hr'
  rcases hev r' hr' with hold | ⟨r, hr, hid, hid', hret, hmax, hrule⟩
  · exact ⟨r', hold, rfl, rfl, rfl, fun hf => Or.inl hf⟩
  · refine ⟨r, hr, hid.trans hid'.symm, hret, hmax, fun hfailed => Or.inr ?_⟩
    obtain ⟨hr₁, hr₂⟩ := hsame r hr hid
    rcases hrule with h | h | h | ⟨-, h⟩
    · rw [h] at hfailed; exact absurd hfailed (by decide)
    · rw [h] at hfailed; exact absurd hfailed (by decide)
    · rw [h] at hfailed; exact absurd hfailed (by decide)
    · rw [hr₁, hr₂]; exact h

theorem syncAllLoop_stable (env : Env) (ops : List Operation) (st : World)
    (hsame : ∀ x ∈ ops, ∀ r ∈ st.db.pendingOperations, r.id = x.id →
      r.retries = x.retries ∧ r.maxRetries = x.maxRetries) :
    RetriesStable st (syncAllLoop env ops st) := by
  induction ops generalizing st with
  | nil => exact retriesStable_refl st
  | cons x rest ih =>
    unfold syncAllLoop
    have hstep := syncOperation_stable env x st (hsame x (List.mem_cons_self _ _))
    refine retriesStable_trans hstep (ih _ ?_)
    intro y hy r₁ hr₁ hid
    obtain ⟨r, hr, hidr, hret, hmax, -⟩ := hstep r₁ hr₁
    have := hsame y (List.mem_cons_of_mem _ hy) r hr (hidr.trans hid)
    exact ⟨hret.trans this.1, hmax.trans this.2⟩

/-- A call of `syncAll`, whatever the environment does, never changes the
retries stored for an operation, and leaves an operation `failed` only if it
was `failed` before the call or if its stored retries plus one reach its
`maxRetries`. -/
theorem syncAll_stable (env : Env) (st : World)
    (hfix : KeyFixesRetries st.db.pendingOperations) :
    RetriesStable st (syncAll env st).2 := by
  unfold syncAll
  split
  · exact retriesStable_refl st
  · simp only
    generalize hst₀ : notifySyncStatusChange env (SyncEvent.aggregate true 0 none)
      { st with isSyncing := true } = st₀
    have hdb₀ : st₀.db = st.db := by rw [← hst₀, notifySyncStatusChange_db]
    have hk₀ : Keeps st st₀ := keeps_of_eq (by rw [hdb₀])
      (by rw [← hst₀]; exact (notifySyncStatusChange_frame env 0 (fun _ => True) _ _).2.1)
      (by rw [← hst₀]; exact (notifySyncStatusChange_frame env 0 (fun _ => True) _ _).2.2.1)
    unfold syncAllTry
    have hk₁ : Keeps st₀ (getPendingOperations env { status := some SYNC_STATUS.PENDING } st₀).2 :=
      keeps_of_frame (fun k => getPendingOperations_frame env k (fun _ => True) _ st₀)
    split
    · rename_i r₁ e st₁ h
      rw [h] at hk₁
      exact retriesStable_of_keeps (keeps_trans hk₀ hk₁)
    · rename_i r₁ pendingOps st₁ h
      rw [h] at hk₁
      have hops := getPendingOperations_resolved env _ _ _ _ h
      rw [selectOperations_pending, hdb₀] at hops
      have hk := keeps_trans hk₀ hk₁
      have hloop := syncAllLoop_stable env pendingOps st₁ (by
        intro x hx r hr hid
        have hxmem : x ∈ st.db.pendingOperations :=
          ((mem_getAllByStatus _ _ _).mp (hops ▸ hx)).1
        exact hfix r (hk.2.2.2 r hr) x hxmem hid)
      have hk₂ := syncAll_tail_keeps env (syncAllLoop env pendingOps st₁)
      exact retriesStable_trans (retriesStable_of_keeps hk)
        (retriesStable_trans hloop (retriesStable_of_keeps hk₂))

/-- Any number of `syncAll` passes, whatever the environment does: the
retries stored for an operation never change, and an operation is `failed`
afterwards only if it was `failed` at the start or if its stored retries plus
one reach its `maxRetries`. -/
theorem syncAllTimes_stable (env : Env) (n : Nat) (st : World)
    (hfix : KeyFixesRetries st.db.pendingOperations) :
    RetriesStable st (syncAllTimes env n st) := by
  induction n generalizing st with
  | zero => exact retriesStable_refl st
  | succ n ih =>
    unfold syncAllTimes
    have hstep := syncAll_stable env st hfix
    exact retriesStable_trans hstep (ih _ (keyFixesRetries_of_stable hstep hfix))

theorem retriesStable_of_evolves {k : Nat} {P : String → Prop} {a b : World}
    (hP : ∀ s, P s → s ≠ SYNC_STATUS.FAILED) (h : Evolves k P a b) : RetriesStable a b := by
  intro r' hr'
  rcases h r' hr' with hold | ⟨r, hr, hid, hid', hret, hmax, hs⟩
  · exact ⟨r', hold, rfl, rfl, rfl, fun hf => Or.inl hf⟩
  · exact ⟨r, hr, hid.trans hid'.symm, hret, hmax, fun hf => absurd hf (hP _ hs)⟩

theorem retryFailedLoop_stable (env : Env) (ops : List Operation) (st : World) :
    RetriesStable st (retryFailedLoop env ops st).2 := by
  induction ops generalizing st with
  | nil => exact retriesStable_refl st
  | cons x rest ih =>
    unfold retryFailedLoop
    simp only
    have h₁ := updateOperationStatus_frame env x.id (fun s => s = SYNC_STATUS.PENDING)
      SYNC_STATUS.PENDING none st rfl
    have hs : ∀ s, s = SYNC_STATUS.PENDING → s ≠ SYNC_STATUS.FAILED := by
      intro s hs; rw [hs]; decide
    split
    · rename_i h; rw [h] at h₁
      exact retriesStable_of_evolves hs h₁.2.2.2
    · rename_i o st₁ h; rw [h] at h₁
      exact retriesStable_trans (retriesStable_of_evolves hs h₁.2.2.2) (ih st₁)

/-- The status updates of `retryFailed`, whatever the environment does, never
change the retries stored for an operation. -/
theorem retryFailedReset_stable (env : Env) (st : World) :
    RetriesStable st (retryFailedReset env st).2 := by
  unfold retryFailedReset
  have hk : Keeps st (getPendingOperations env { status := some SYNC_STATUS.FAILED } st).2 :=
    keeps_of_frame (fun k => getPendingOperations_frame env k (fun _ => True) _ st)
  split
  · rename_i h; rw [h] at hk; exact retriesStable_of_keeps hk
  · rename_i failedOps st₁ h; rw [h] at hk
    exact retriesStable_trans (retriesStable_of_keeps hk) (retryFailedLoop_stable env failedOps st₁)

/-! ## The claims -/

/-- Claim C1 (the code departs from it). An operation with `maxRetries = 3`
whose every execution fails is still `pending` after one, two and three failed
attempts, one per `syncAll` pass: the queue stores 0 retries throughout and
nothing is written to the sync log. The cause is that `syncOperation` counts
the attempt on the object it was handed, while `updateOperationStatus` writes
back the stored record with only `status`, `error` and `updatedAt` changed.
Hence, whatever the environment does and however many passes run, the
operation is stored with 0 retries and is never `failed`. -/
theorem syncAll_failures_never_reach_failed :
    retryView queuedDelete = [(1, "pending", 0, 3)] ∧
    retryView (syncAllTimes failingEnv 1 queuedDelete) = [(1, "pending", 0, 3)] ∧
    retryView (syncAllTimes failingEnv 2 queuedDelete) = [(1, "pending", 0, 3)] ∧
    retryView (syncAllTimes failingEnv 3 queuedDelete) = [(1, "pending", 0, 3)] ∧
    (syncAllTimes failingEnv 3 queuedDelete).executed.map (fun op => op.id) = [1, 1, 1] ∧
    (syncAllTimes failingEnv 3 queuedDelete).db.syncLog = [] ∧
    (∀ (env : Env) (n : Nat), ∀ r ∈ (syncAllTimes env n queuedDelete).db.pendingOperations,
      r.retries = 0 ∧ r.status ≠ "failed") := by
  refine ⟨by decide, by decide, by decide, by decide, by decide, by decide, ?_⟩
  intro env n r hr
  have hq : queuedDelete.db.pendingOperations = [deleteRecord] := by decide
  obtain ⟨r₀, hr₀, -, hret, hmax, hfailed⟩ :=
    syncAllTimes_stable env n queuedDelete
      (keyFixesRetries_of_uniqueKeys _ (by decide)) r hr
  rw [hq, List.mem_singleton] at hr₀
  subst hr₀
  refine ⟨hret, fun hf => ?_⟩
  rcases hfailed hf with h | h
  · exact absurd h (by decide)
  · exact absurd h (by decide)

/-- Claim C2 (the code departs from it). For the `DELETE` of `{ id: 42 }` on
`/api/stories` with `maxRetries = 3` and 0 retries stored, the pending query
returns the record, and a `syncOperation` on it whose execution fails (one
execution, a network error) leaves the operation `pending` with 0 retries
stored, not 1, and `getPendingOperations()` returns it so; after three such
failures the queue still stores 0 retries and status `pending`. The same
holds for every environment without storage faults and every error of the
execution. -/
theorem syncOperation_failure_stores_no_retry :
    (getPendingOperations failingEnv { status := some "pending" } queuedDelete).1.toOption =
      some [deleteRecord] ∧
    retryView (syncOperation failingEnv deleteRecord queuedDelete).2 = [(1, "pending", 0, 3)] ∧
    (syncOperation failingEnv deleteRecord queuedDelete).2.executed = [deleteRecord] ∧
    ((getPendingOperations failingEnv Filter.empty
        (syncOperation failingEnv deleteRecord queuedDelete).2).1.toOption.map
      (fun ops => ops.map (fun op => (op.status, op.retries)))) = some [("pending", 0)] ∧
    retryView (syncFirstPending failingEnv (syncFirstPending failingEnv
      (syncFirstPending failingEnv queuedDelete))) = [(1, "pending", 0, 3)] ∧
    (∀ (env : Env) (error : JsError), NoStorageFault env →
      (executeOperation env deleteRecord queuedDelete).1 = Except.error error →
      ∃ r, getByKey 1 (syncOperation env deleteRecord queuedDelete).2.db.pendingOperations =
          some r ∧ r.status = "pending" ∧ r.retries = 0) := by
  refine ⟨by decide, by decide, by decide, by decide, by decide, ?_⟩
  intro env error hfault hexec
  obtain ⟨-, hget, -⟩ := syncOperation_failure_noFault hfault deleteRecord queuedDelete error
    (by decide) (by decide) hexec
  rw [if_neg (by decide)] at hget
  exact ⟨_, hget, rfl, rfl⟩

/-- Claim C3, counterexample. With the options `{ status: "failed", retries: 5 }`
the record that `addPendingOperation` inserts has status `failed` and 5
retries: the options are spread last into the record. -/
theorem addPendingOperation_options_override_status :
    (addPendingOperation failingEnv OPERATION_TYPES.CREATE "/api/stories"
        [("title", JsPrim.str "A")] failedOptions World.initial).1 = Except.ok 1 ∧
    retryView (addPendingOperation failingEnv OPERATION_TYPES.CREATE "/api/stories"
        [("title", JsPrim.str "A")] failedOptions World.initial).2 = [(1, "failed", 5, 3)] :=
  ⟨rfl, by decide⟩

/-- Claim C3, as amended. Whenever `addPendingOperation` resolves, with key
`k`, the queue holds under `k` the record it inserted, whose status is
`options.status` if the options carry one and `pending` otherwise, and whose
retries are `options.retries` if the options carry them and 0 otherwise. In
particular the record starts `pending` with 0 retries for every options object
without a `status` and without a `retries` property. -/
theorem addPendingOperation_initial_status (env : Env) (operationType endpoint : String)
    (payload : JsObject) (options : Options) (st : World) (k : Nat) (st' : World)
    (h : addPendingOperation env operationType endpoint payload options st = (Except.ok k, st')) :
    ∃ op : Operation, getByKey k st'.db.pendingOperations = some op ∧
      op ∈ st'.db.pendingOperations ∧
      op.status = options.status.getD SYNC_STATUS.PENDING ∧
      op.retries = options.retries.getD 0 ∧
      (options.status = none → options.retries = none →
        op.status = SYNC_STATUS.PENDING ∧ op.retries = 0) := by
  obtain ⟨now, hk, hfree, hst⟩ := addPendingOperation_resolved env _ _ _ _ _ _ _ h
  refine ⟨buildOperation operationType endpoint payload options now st.db.pendingNextKey,
    ?_, ?_, rfl, rfl, fun hs hr => ?_⟩
  · rw [hst, hk]
    exact getByKey_insertByKey_self _ _ (hk ▸ hfree)
  · rw [hst]
    exact (insertByKey_perm _ _).symm.subset (List.mem_cons_self _ _)
  · simp [buildOperation, hs, hr]

/-- Claim C3, witness: the amended statement at the enqueueing of a `CREATE`
with the options `{ maxRetries: 5, localId: "local_1" }`, which resolves with
key 1. -/
theorem addPendingOperation_initial_status_witness :
    ∃ op : Operation,
      getByKey 1 (addPendingOperation failingEnv OPERATION_TYPES.CREATE "/api/stories"
        [("title", JsPrim.str "A")] retryOptions World.initial).2.db.pendingOperations =
          some op ∧
      op.status = "pending" ∧ op.retries = 0 := by
  obtain ⟨op, hget, -, -, -, hinit⟩ :=
    addPendingOperation_initial_status failingEnv OPERATION_TYPES.CREATE "/api/stories"
      [("title", JsPrim.str "A")] retryOptions World.initial 1 _ rfl
  exact ⟨op, hget, hinit rfl rfl⟩

/-- Claim C4. Round trip of `addPendingOperation` (no options) and
`getPendingOperations()`, for every environment and every world. Whenever the
first resolves, with key `k`, the queue is the old queue plus exactly one
record, which has key `k` and the operation type, endpoint and payload of the
call; the old records are all there, unchanged (and in front of the new one,
when the key generator is above their keys); a following
`getPendingOperations()` that resolves returns that queue, which is the one
new record when the queue was empty. When no storage request is rejected and
the key generator is above the keys in use, both calls do resolve. -/
theorem addPendingOperation_roundTrip (env : Env) (operationType endpoint : String)
    (payload : JsObject) (st : World) :
    (∀ k st', addPendingOperation env operationType endpoint payload Options.empty st =
        (Except.ok k, st') →
      ∃ op : Operation,
        op.id = k ∧ op.operationType = operationType ∧ op.endpoint = endpoint ∧
        op.payload = payload ∧
        st'.db.pendingOperations.Perm (op :: st.db.pendingOperations) ∧
        (KeysBelow st.db.pendingNextKey st.db.pendingOperations →
          st'.db.pendingOperations = st.db.pendingOperations ++ [op]) ∧
        ∀ ops st'', getPendingOperations env Filter.empty st' = (Except.ok ops, st'') →
          ops = st'.db.pendingOperations ∧ (st.db.pendingOperations = [] → ops = [op])) ∧
    (NoStorageFault env → KeysBelow st.db.pendingNextKey st.db.pendingOperations →
      ∃ k st' ops st'',
        addPendingOperation env operationType endpoint payload Options.empty st =
          (Except.ok k, st') ∧
        getPendingOperations env Filter.empty st' = (Except.ok ops, st'')) := by
  constructor
  · intro k st' h
    obtain ⟨now, hk, -, hst⟩ := addPendingOperation_resolved env _ _ _ _ _ _ _ h
    refine ⟨buildOperation operationType endpoint payload Options.empty now
      st.db.pendingNextKey, hk.symm, rfl, rfl, rfl, ?_, ?_, ?_⟩
    · rw [hst]; exact insertByKey_perm _ _
    · intro hbelow
      rw [hst]
      exact insertByKey_of_keysBelow _ _ hbelow
    · intro ops st'' hget
      have hops := getPendingOperations_resolved env _ _ _ _ hget
      have hsel : selectOperations Filter.empty st'.db.pendingOperations =
          st'.db.pendingOperations := rfl
      rw [hsel] at hops
      refine ⟨hops, fun hempty => ?_⟩
      rw [hops, hst, hempty]
      rfl
  · intro hfault hbelow
    obtain ⟨st', hadd⟩ := addPendingOperation_noFault hfault operationType endpoint payload
      Options.empty st (getByKey_eq_none_of_keysBelow _ _ hbelow)
    exact ⟨_, st', _, _, hadd, getPendingOperations_noFault hfault _ _⟩

/-- Claim C4, witness: on a fresh database,
`addPendingOperation("CREATE", "/api/stories", { title: "A" })` resolves with
key 1 and `getPendingOperations()` then resolves with that one record. -/
theorem addPendingOperation_roundTrip_witness :
    (∃ k st' ops st'',
      addPendingOperation acceptingEnv OPERATION_TYPES.CREATE "/api/stories"
        [("title", JsPrim.str "A")] Options.empty World.initial = (Except.ok k, st') ∧
      getPendingOperations acceptingEnv Filter.empty st' = (Except.ok ops, st'')) ∧
    ∃ op : Operation, op.id = 1 ∧ op.operationType = "CREATE" ∧
      op.endpoint = "/api/stories" ∧ op.payload = [("title", JsPrim.str "A")] ∧
      (getPendingOperations acceptingEnv Filter.empty queuedCreate).1 = Except.ok [op] := by
  have hthm := addPendingOperation_roundTrip acceptingEnv OPERATION_TYPES.CREATE
    "/api/stories" [("title", JsPrim.str "A")] World.initial
  refine ⟨hthm.2 (fun _ => rfl) (fun r hr => by cases hr), ?_⟩
  obtain ⟨op, hid, htype, hendpoint, hpayload, -, -, hget⟩ := hthm.1 1 queuedCreate rfl
  refine ⟨op, hid, htype, hendpoint, hpayload, ?_⟩
  obtain ⟨-, hone⟩ := hget queuedCreate.db.pendingOperations
    (getPendingOperations acceptingEnv Filter.empty queuedCreate).2 rfl
  rw [← hone rfl]
  rfl

/-- Claim C6. A `syncAll()` called while `isSyncing` is true, or while
`isOnline` is false, resolves without error and leaves the whole world as it
was: the queue and every record in it, the sync log, `isSyncing`,
`lastSyncTime`, the list of requests sent and the list of notifications
delivered to observers. -/
theorem syncAll_noop_when_syncing_or_offline (env : Env) (st : World)
    (h : st.isSyncing = true ∨ st.isOnline = false) :
    syncAll env st = (Except.ok (), st) := by
  unfold syncAll
  rcases h with h | h <;> simp [h]

/-- Claim C6, witness: a queue with one pending operation and one observer,
while a pass is running, and the same queue on an offline device. -/
theorem syncAll_noop_when_syncing_or_offline_witness :
    syncAll acceptingEnv { observedCreate with isSyncing := true } =
      (Except.ok (), { observedCreate with isSyncing := true }) ∧
    syncAll acceptingEnv { observedCreate with isOnline := false } =
      (Except.ok (), { observedCreate with isOnline := false }) :=
  ⟨syncAll_noop_when_syncing_or_offline acceptingEnv _ (Or.inl rfl),
    syncAll_noop_when_syncing_or_offline acceptingEnv _ (Or.inr rfl)⟩

/-- Claim C7, counterexample. On an online, idle device whose queue holds one
pending `CREATE`, let the `put` of the status update to `syncing` be rejected
(storage requests 0 and 1 opened the database and added the record, 2 is the
pending query, 3 the `get` and 4 the `put` of the update). The pending query
resolves with that one record, and the pass executes nothing and sends no
request: the rejection leaves `syncOperation` before the execution, and
`syncAll` catches it. The operation is still `pending` afterwards. -/
theorem syncAll_storage_fault_skips_operation :
    queuedCreate.isOnline = true ∧ queuedCreate.isSyncing = false ∧
    queuedCreate.storageCalls = 2 ∧
    ((getPendingOperations (Env.faultAt 4 quotaExceeded (fetchAlwaysOk []))
        { status := some "pending" } queuedCreate).1.toOption.map
      (fun ops => ops.map (fun op => op.id))) = some [1] ∧
    (syncAll (Env.faultAt 4 quotaExceeded (fetchAlwaysOk [])) queuedCreate).2.executed = [] ∧
    (syncAll (Env.faultAt 4 quotaExceeded (fetchAlwaysOk [])) queuedCreate).2.requests = [] ∧
    (syncAll (Env.faultAt 4 quotaExceeded (fetchAlwaysOk [])) queuedCreate).2.executed ≠
      queuedCreate.executed ++
        getAllByStatus SYNC_STATUS.PENDING queuedCreate.db.pendingOperations ∧
    retryView (syncAll (Env.faultAt 4 quotaExceeded (fetchAlwaysOk [])) queuedCreate).2 =
      [(1, "pending", 0, 3)] := by
  decide

/-- Claim C7, as amended. Within one `syncAll()` pass on an online, idle
device, when no storage request is rejected, the operations executed against
the remote API are exactly the records that have status `pending` when the
pass starts, in the order of the pending query (key order), each executed
exactly once, whatever the outcome of each execution; the requests sent are
those of these operations, in the same order; and the keys of these
operations are distinct, so none is executed a second time in the pass. -/
theorem syncAll_executes_pending_in_order (env : Env) (st : World)
    (hfault : NoStorageFault env) (honline : st.isOnline = true)
    (hidle : st.isSyncing = false) (hkeys : UniqueKeys st.db.pendingOperations) :
    (syncAll env st).2.executed =
        st.executed ++ getAllByStatus SYNC_STATUS.PENDING st.db.pendingOperations ∧
    (syncAll env st).2.requests =
        st.requests ++
          (getAllByStatus SYNC_STATUS.PENDING st.db.pendingOperations).flatMap (requestsOf env) ∧
    ((getAllByStatus SYNC_STATUS.PENDING st.db.pendingOperations).map (fun op => op.id)).Nodup := by
  have hnodup := uniqueKeys_nodup _ (uniqueKeys_getAllByStatus SYNC_STATUS.PENDING _ hkeys)
  refine ⟨?_, ?_, hnodup⟩ <;>
  · unfold syncAll
    rw [if_neg (by simp [honline, hidle])]
    simp only
    generalize hst₀ : notifySyncStatusChange env (SyncEvent.aggregate true 0 none)
      { st with isSyncing := true } = st₀
    have hdb₀ : st₀.db = st.db := by rw [← hst₀, notifySyncStatusChange_db]
    have hk₀ : Keeps st st₀ := by
      rw [← hst₀]
      have hflag : Keeps st { st with isSyncing := true } := keeps_of_eq rfl rfl rfl
      exact keeps_trans hflag
        (keeps_of_frame (fun k => notifySyncStatusChange_frame env k (fun _ => True) _ _))
    unfold syncAllTry
    rw [getPendingOperations_noFault hfault, selectOperations_pending, hdb₀]
    simp only
    have hloop := syncAllLoop_noFault hfault
      (getAllByStatus SYNC_STATUS.PENDING st.db.pendingOperations) (touch 1 st₀)
      (fun x hx => ⟨x, by
        rw [touch_db, hdb₀]; exact ((mem_getAllByStatus _ _ _).mp hx).1, rfl⟩) hnodup
    have hk₂ := syncAll_tail_keeps env
      (syncAllLoop env (getAllByStatus SYNC_STATUS.PENDING st.db.pendingOperations) (touch 1 st₀))
    first
      | (show _ = st.executed ++ _
         rw [← hk₀.2.1, ← touch_executed 1 st₀, ← hloop.1]; exact hk₂.2.1)
      | (show _ = st.requests ++ _
         rw [← hk₀.2.2.1, ← touch_requests 1 st₀, ← hloop.2]; exact hk₂.2.2.1)

/-- Claim C7, witness: a pass over the queue of `queuedDelete` with every
request failing executes the one pending operation once and sends its one
`DELETE` request. -/
theorem syncAll_executes_pending_in_order_witness :
    NoStorageFault failingEnv ∧ UniqueKeys queuedDelete.db.pendingOperations ∧
    (syncAll failingEnv queuedDelete).2.executed =
      queuedDelete.executed ++
        getAllByStatus SYNC_STATUS.PENDING queuedDelete.db.pendingOperations ∧
    (syncAll failingEnv queuedDelete).2.requests.map (fun r => (r.method, r.url)) =
      [("DELETE", "/api/stories/42")] := by
  have hthm := syncAll_executes_pending_in_order failingEnv queuedDelete (fun _ => rfl)
    rfl rfl (by decide)
  exact ⟨fun _ => rfl, by decide, hthm.1, by decide⟩

/-- Claim C8, counterexample. A `syncAll()` called while a pass is running
(`isSyncing` true) resolves and leaves `isSyncing` true: the guard returns
before the `try` statement, so the `finally` block does not run. -/
theorem syncAll_while_syncing_keeps_flag :
    (syncAll failingEnv { queuedDelete with isSyncing := true }).2.isSyncing = true ∧
    (syncAll failingEnv { queuedDelete with isSyncing := true }).1.toOption = some () := by
  decide

/-- Claim C8, as amended. `syncAll()` never fails: for every environment
(every outcome of the executions and of the storage requests, a rejected
`getPendingOperations` or `getStats` included, and every behaviour of the
observers) and every world, it resolves; if `isSyncing` is false when it is
called, `isSyncing` is false afterwards; if `isSyncing` is true when it is
called, the call changes nothing, so `isSyncing` stays true. -/
theorem syncAll_never_fails (env : Env) (st : World) :
    (syncAll env st).1 = Except.ok () ∧
    (st.isSyncing = false → (syncAll env st).2.isSyncing = false) ∧
    (st.isSyncing = true → (syncAll env st).2 = st) := by
  unfold syncAll
  split
  · exact ⟨rfl, fun h => h, fun _ => rfl⟩
  · rename_i h
    refine ⟨rfl, fun _ => rfl, fun hs => ?_⟩
    simp [hs] at h

/-- Claim C8, witness: a pass in which the pending query itself is rejected,
with an observer that throws on every notification, resolves and ends with
`isSyncing` false; and a call made while `isSyncing` is true changes nothing. -/
theorem syncAll_never_fails_witness :
    (syncAll hostileEnv observedCreate).1 = Except.ok () ∧
    (syncAll hostileEnv observedCreate).2.isSyncing = false ∧
    (syncAll hostileEnv { observedCreate with isSyncing := true }).2 =
      { observedCreate with isSyncing := true } :=
  ⟨(syncAll_never_fails hostileEnv observedCreate).1,
    (syncAll_never_fails hostileEnv observedCreate).2.1 rfl,
    (syncAll_never_fails hostileEnv { observedCreate with isSyncing := true }).2.2 rfl⟩

/-- Claim C9. A failed operation is never retried by `syncAll()`: for every
environment and every queue (with unique keys, as the store keeps them), the
operations a call of `syncAll()` executes, and the requests it sends, are for
none of the records that have status `failed` when it is called, and every
such record is in the queue afterwards with all its fields unchanged. -/
theorem syncAll_never_retries_failed (env : Env) (st : World)
    (hkeys : UniqueKeys st.db.pendingOperations) :
    ∃ done : List Operation,
      (syncAll env st).2.executed = st.executed ++ done ∧
      (syncAll env st).2.requests = st.requests ++ done.flatMap (requestsOf env) ∧
      ∀ op ∈ st.db.pendingOperations, op.status = SYNC_STATUS.FAILED →
        (∀ x ∈ done, x.id ≠ op.id) ∧ op ∈ (syncAll env st).2.db.pendingOperations := by
  obtain ⟨done, hsub, hexec, hreq, hkeep⟩ := syncAll_frame env st
  have hother : ∀ op ∈ st.db.pendingOperations, op.status = SYNC_STATUS.FAILED →
      ∀ x ∈ getAllByStatus SYNC_STATUS.PENDING st.db.pendingOperations, op.id ≠ x.id := by
    intro op hop hfailed x hx hid
    obtain ⟨hxmem, hxstatus⟩ := (mem_getAllByStatus _ _ _).mp hx
    have := eq_of_id_eq _ hkeys op x hop hxmem hid
    rw [this, hxstatus] at hfailed
    revert hfailed
    decide
  refine ⟨done, hexec, hreq, fun op hop hfailed => ⟨fun x hx hid => ?_, ?_⟩⟩
  · exact hother op hop hfailed x (hsub.subset hx) hid.symm
  · exact hkeep op hop (hother op hop hfailed)

/-- Claim C9, witness: a pass over the queue of `queuedFailed`, which holds
one failed operation, executes nothing and leaves the record as it is. -/
theorem syncAll_never_retries_failed_witness :
    UniqueKeys queuedFailed.db.pendingOperations ∧
    (syncAll failingEnv queuedFailed).2.executed = [] ∧
    (syncAll failingEnv queuedFailed).2.db.pendingOperations =
      queuedFailed.db.pendingOperations ∧
    ∃ done : List Operation,
      (syncAll failingEnv queuedFailed).2.executed = queuedFailed.executed ++ done ∧
      ∀ op ∈ queuedFailed.db.pendingOperations, op.status = "failed" →
        op ∈ (syncAll failingEnv queuedFailed).2.db.pendingOperations := by
  obtain ⟨done, hexec, -, hfailed⟩ :=
    syncAll_never_retries_failed failingEnv queuedFailed (by decide)
  exact ⟨by decide, by decide, by decide, done, hexec, fun op hop hs => (hfailed op hop hs).2⟩

/-- Claim C10 (the code departs from it). `retryFailed()` on a queue holding
one failed operation with 3 retries stored: after its status updates, before
the pass it starts, the operation is stored with status `pending` and still 3
retries, not 0. The reset to 0 is made on the object the query returned, and
`updateOperationStatus` writes back the stored record with only `status`,
`error` and `updatedAt` changed. The pass that follows therefore counts a
fourth retry and marks the operation `failed` at its first failed attempt.
Whatever the environment does, the status updates leave 3 retries stored. -/
theorem retryFailed_keeps_stored_retries :
    retryView queuedFailed = [(1, "failed", 3, 3)] ∧
    (retryFailedReset failingEnv queuedFailed).1.toOption = some () ∧
    retryView (retryFailedReset failingEnv queuedFailed).2 = [(1, "pending", 3, 3)] ∧
    retryView (retryFailed failingEnv queuedFailed).2 = [(1, "failed", 3, 3)] ∧
    (retryFailed failingEnv queuedFailed).2.executed.length = 1 ∧
    (∀ env : Env, ∀ r ∈ (retryFailedReset env queuedFailed).2.db.pendingOperations,
      r.retries = 3) := by
  refine ⟨by decide, by decide, by decide, by decide, by decide, ?_⟩
  intro env r hr
  have hq : queuedFailed.db.pendingOperations = [failedRecord] := by decide
  obtain ⟨r₀, hr₀, -, hret, -⟩ := retryFailedReset_stable env queuedFailed r hr
  rw [hq, List.mem_singleton] at hr₀
  subst hr₀
  exact hret

/-! ## Status updates, requests and terminal failures -/

/-- What `updateOperationStatus` does, for every environment: it fails and
leaves the database as it was, with `Operation not found` when no storage
request was rejected before the read and the key is absent; or it read the
record `r` stored under the key and resolves with `r` changed in `status`,
`error` and `updatedAt`, which it has put back. -/
theorem updateOperationStatus_cases (env : Env) (k : Nat) (status : String)
    (error : Option String) (st : World) :
    (∃ e, (updateOperationStatus env k status error st).1 = Except.error e ∧
      (updateOperationStatus env k status error st).2.db = st.db ∧
      (e = newError "Operation not found" ∧ getByKey k st.db.pendingOperations = none ∨
        ∃ n, env.storageFault n = some e)) ∨
    (∃ r now, getByKey k st.db.pendingOperations = some r ∧
      (updateOperationStatus env k status error st).1 =
        Except.ok (withStatus r status error now) ∧
      (updateOperationStatus env k status error st).2.db =
        { st.db with
          pendingOperations := putByKey (withStatus r status error now) st.db.pendingOperations }) := by
  unfold updateOperationStatus
  have hi := init_db env st
  have hf : ∀ e, (init env st).1 = Except.error e → ∃ n, env.storageFault n = some e := by
    intro e he
    unfold init dbRequest at he
    split at he
    · cases he
    · split at he
      · rename_i h; simp only [Prod.mk.injEq] at h
        simp only [Except.error.injEq] at he
        exact ⟨_, he ▸ h.1⟩
      · cases he
  split
  · rename_i e st₁ h; rw [h] at hi hf
    exact Or.inl ⟨e, rfl, hi, Or.inr (hf e rfl)⟩
  · rename_i st₁ h; rw [h] at hi
    simp only at hi
    unfold dbRequest dateNow
    split
    · rename_i e st₂ h; simp only [Prod.mk.injEq] at h; obtain ⟨he, rfl⟩ := h
      exact Or.inl ⟨e, rfl, hi, Or.inr ⟨_, he⟩⟩
    · rename_i st₂ h; simp only [Prod.mk.injEq] at h; obtain ⟨-, rfl⟩ := h
      split
      · rename_i hop
        exact Or.inl ⟨_, rfl, hi, Or.inl ⟨rfl, hi ▸ hop⟩⟩
      · rename_i op hop
        simp only
        split
        · rename_i e st₃ h; simp only [Prod.mk.injEq] at h; obtain ⟨he, rfl⟩ := h
          exact Or.inl ⟨e, rfl, hi, Or.inr ⟨_, he⟩⟩
        · rename_i st₃ h; simp only [Prod.mk.injEq] at h; obtain ⟨-, rfl⟩ := h
          refine Or.inr ⟨op, env.dateNow st₁.clockReads, hi ▸ hop, rfl, ?_⟩
          show ({ st₁.db with pendingOperations := _ } : Db) = _
          rw [hi]
          rfl

theorem getByKey_eq_none_iff (k : Nat) (l : List Operation) :
    getByKey k l = none ↔ ∀ r ∈ l, r.id ≠ k := by
  unfold getByKey
  rw [List.find?_eq_none]
  simp

theorem putByKey_eq_map (op : Operation) (l : List Operation) (hkeys : UniqueKeys l)
    (hmem : ∃ r ∈ l, r.id = op.id) :
    putByKey op l = l.map (fun x => if x.id = op.id then op else x) := by
  induction l with
  | nil => obtain ⟨r, hr, -⟩ := hmem; cases hr
  | cons x xs ih =>
    have hx := List.pairwise_cons.mp hkeys
    unfold putByKey
    by_cases hid : x.id = op.id
    · rw [if_pos hid, List.map_cons, if_pos hid]
      congr 1
      symm
      conv_rhs => rw [← List.map_id xs]
      refine List.map_congr_left (fun y hy => ?_)
      have := hx.1 y hy
      rw [if_neg (by omega)]
      rfl
    · obtain ⟨r, hr, hrid⟩ := hmem
      rcases List.mem_cons.mp hr with rfl | hr
      · exact absurd hrid hid
      · have hlt := hx.1 r hr
        rw [if_neg hid, if_neg (by omega), List.map_cons, if_neg hid,
          ih hx.2 ⟨r, hr, hrid⟩]

/-- C11: `updateOperationStatus(id, status, error)`. When no storage request
is rejected it fails with the `Operation not found` error if and only if no
operation of the queue has key `id`, and it fails with no other error. In
every environment a call that fails leaves the database, hence the queue, as
it was, and a call that succeeds returns the record that is then stored under
`id`, with the status and the error of the arguments (`none` is the `null` of
an omitted error). -/
theorem updateOperationStatus_notFound_iff_absent (env : Env) (operationId : Nat)
    (status : String) (error : Option String) (st : World) :
    (NoStorageFault env →
      (((updateOperationStatus env operationId status error st).1 =
          Except.error (newError "Operation not found") ↔
        ∀ r ∈ st.db.pendingOperations, r.id ≠ operationId) ∧
      ∀ e, (updateOperationStatus env operationId status error st).1 = Except.error e →
        e = newError "Operation not found")) ∧
    (∀ e, (updateOperationStatus env operationId status error st).1 = Except.error e →
      (updateOperationStatus env operationId status error st).2.db = st.db) ∧
    (∀ op, (updateOperationStatus env operationId status error st).1 = Except.ok op →
      getByKey operationId
        (updateOperationStatus env operationId status error st).2.db.pendingOperations =
          some op ∧
      op.id = operationId ∧ op.status = status ∧ op.error = error) ∧
    (∀ op, (updateOperationStatus env operationId status none st).1 = Except.ok op →
      op.error = none) := by
  have hok : ∀ (error : Option String) (op : Operation),
      (updateOperationStatus env operationId status error st).1 = Except.ok op →
      getByKey operationId
        (updateOperationStatus env operationId status error st).2.db.pendingOperations =
          some op ∧
      op.id = operationId ∧ op.status = status ∧ op.error = error := by
    intro error op hop
    rcases updateOperationStatus_cases env operationId status error st with
      ⟨e, he, -, -⟩ | ⟨r, now, hr, hres, hdb⟩
    · rw [he] at hop; cases hop
    · rw [hres] at hop
      simp only [Except.ok.injEq] at hop
      subst hop
      have hid : (withStatus r status error now).id = operationId :=
      getByKey_id operationId _ r hr
      refine ⟨?_, hid, rfl, rfl⟩
      rw [hdb]
      simp only
      rw [← hid]
      exact getByKey_putByKey_self _ _
  refine ⟨fun hnf => ⟨?_, ?_⟩, ?_, hok error, fun op hop => (hok none op hop).2.2.2⟩
  · rw [updateOperationStatus_noFault hnf, ← getByKey_eq_none_iff]
    cases getByKey operationId st.db.pendingOperations with
    | none => simp
    | some r => simp
  · intro e he
    rw [updateOperationStatus_noFault hnf] at he
    cases hg : getByKey operationId st.db.pendingOperations with
    | none => rw [hg] at he; simp only [Except.error.injEq] at he; exact he.symm
    | some r => rw [hg] at he; cases he
  · intro e he
    rcases updateOperationStatus_cases env operationId status error st with
      ⟨e', -, hdb, -⟩ | ⟨r, now, -, hres, -⟩
    · exact hdb
    · rw [hres] at he; cases he

/-- C12: `updateOperationStatus(id, status, error)` is a read-modify-write.
When it succeeds with `op`, the store held a record `r` under `id` when the
call was made, and `op` has the `id`, `operationType`, `endpoint`, `payload`,
`timestamp`, `retries`, `maxRetries`, `localId` and `serverId` of `r`; `op` is
what the store holds under `id` afterwards; every record with another key is
in the queue afterwards, and no record with another key is new; with unique
keys the queue is the old one with `op` in the place of `r`; the sync log, the
drafts and the two key generators are unchanged. -/
theorem updateOperationStatus_read_modify_write (env : Env) (operationId : Nat)
    (status : String) (error : Option String) (st : World) (op : Operation)
    (hok : (updateOperationStatus env operationId status error st).1 = Except.ok op) :
    (∃ r, getByKey operationId st.db.pendingOperations = some r ∧
      r ∈ st.db.pendingOperations ∧
      op.id = r.id ∧ op.operationType = r.operationType ∧ op.endpoint = r.endpoint ∧
      op.payload = r.payload ∧ op.timestamp = r.timestamp ∧ op.retries = r.retries ∧
      op.maxRetries = r.maxRetries ∧ op.localId = r.localId ∧ op.serverId = r.serverId) ∧
    getByKey operationId
      (updateOperationStatus env operationId status error st).2.db.pendingOperations =
        some op ∧
    (∀ x ∈ st.db.pendingOperations, x.id ≠ operationId →
      x ∈ (updateOperationStatus env operationId status error st).2.db.pendingOperations) ∧
    (∀ x ∈ (updateOperationStatus env operationId status error st).2.db.pendingOperations,
      x.id ≠ operationId → x ∈ st.db.pendingOperations) ∧
    (UniqueKeys st.db.pendingOperations →
      (updateOperationStatus env operationId status error st).2.db.pendingOperations =
        st.db.pendingOperations.map (fun x => if x.id = operationId then op else x)) ∧
    (updateOperationStatus env operationId status error st).2.db.syncLog = st.db.syncLog ∧
    (updateOperationStatus env operationId status error st).2.db.localDrafts =
      st.db.localDrafts ∧
    (updateOperationStatus env operationId status error st).2.db.syncLogNextKey =
      st.db.syncLogNextKey ∧
    (updateOperationStatus env operationId status error st).2.db.pendingNextKey =
      st.db.pendingNextKey := by
  rcases updateOperationStatus_cases env operationId status error st with
    ⟨e, he, -, -⟩ | ⟨r, now, hr, hres, hdb⟩
  · rw [he] at hok; cases hok
  · rw [hres] at hok
    simp only [Except.ok.injEq] at hok
    subst hok
    have hid : (withStatus r status error now).id = operationId :=
      getByKey_id operationId _ r hr
    have hrmem := mem_of_getByKey _ _ _ hr
    rw [hdb]
    refine ⟨⟨r, hr, hrmem, rfl, rfl, rfl, rfl, rfl, rfl, rfl, rfl, rfl⟩, ?_, ?_, ?_, ?_,
      rfl, rfl, rfl, rfl⟩
    · simp only
      rw [← hid]
      exact getByKey_putByKey_self _ _
    · intro x hx hne
      exact mem_putByKey_of_ne _ x _ hx (by rw [hid]; exact hne)
    · intro x hx hne
      rcases mem_putByKey _ _ _ hx with rfl | hold
      · exact absurd hid hne
      · exact hold
    · intro hkeys
      simp only
      rw [putByKey_eq_map (withStatus r status error now) _ hkeys ⟨r, hrmem, rfl⟩, hid]

/-- The call `updateOperationStatus(1, "failed", "Failed to fetch")` on the
queue of the retry scenario succeeds, and the theorem applies to it. -/
theorem updateOperationStatus_read_modify_write_witness :
    (updateOperationStatus failingEnv 1 SYNC_STATUS.FAILED (some "Failed to fetch")
        queuedDelete).1 = Except.ok (withStatus deleteRecord "failed" (some "Failed to fetch") 1001) ∧
    (updateOperationStatus failingEnv 1 SYNC_STATUS.FAILED (some "Failed to fetch")
        queuedDelete).2.db.pendingOperations =
      [withStatus deleteRecord "failed" (some "Failed to fetch") 1001] ∧
    (withStatus deleteRecord "failed" (some "Failed to fetch") 1001).retries = 0 ∧
    (withStatus deleteRecord "failed" (some "Failed to fetch") 1001).maxRetries = 3 :=
  ⟨rfl,
   ((updateOperationStatus_read_modify_write failingEnv 1 SYNC_STATUS.FAILED
      (some "Failed to fetch") queuedDelete _ rfl).2.2.2.2.1 (by decide)).trans (by decide),
   rfl, rfl⟩

/-- C13, counterexample: for an `UPDATE` whose payload has the id 0 the
request goes to the endpoint itself and not to `endpoint + "/" + 0`, and for a
`DELETE` whose payload has the id `""` it goes to the endpoint itself and not
to `endpoint + "/"`: the test `if (operation.payload.id)` is false for both. -/
theorem executeOperation_falsy_id_keeps_endpoint :
    ((executeOperation acceptingEnv updateZero World.initial).2.requests.map
        (fun r => (r.method, r.url)) = [("PUT", "/api/stories")] ∧
      updateZero.endpoint ++ "/" ++
          (updateZero.payload.prop "id").toJsString acceptingEnv.numberToString =
        "/api/stories/0") ∧
    ((executeOperation acceptingEnv deleteEmpty World.initial).2.requests.map
        (fun r => (r.method, r.url)) = [("DELETE", "/api/stories")] ∧
      deleteEmpty.endpoint ++ "/" ++
          (deleteEmpty.payload.prop "id").toJsString acceptingEnv.numberToString =
        "/api/stories/") := by
  decide

/-- The falsy primitives: `undefined` (also what an absent member reads as),
`null`, `false`, the number 0 and the empty string. -/
theorem truthy_eq_false_iff (p : JsPrim) :
    p.truthy = false ↔
      p = JsPrim.undefined ∨ p = JsPrim.null ∨ p = JsPrim.bool false ∨
        p = JsPrim.num 0 ∨ p = JsPrim.str "" := by
  cases p with
  | undefined => simp [JsPrim.truthy]
  | null => simp [JsPrim.truthy]
  | bool b => cases b <;> simp [JsPrim.truthy]
  | num n => simp [JsPrim.truthy]
  | str s => simp [JsPrim.truthy]

/-- C13, amended: `executeOperation` sends exactly one request, built from
`operationType`, for every operation of one of the three types. `CREATE`
gives method `POST`, the endpoint as url, and the JSON of the full payload as
body. `UPDATE` gives method `PUT` and the JSON of the full payload as body,
`DELETE` gives method `DELETE` and no body; the url of both is
`endpoint + "/" + payload.id` when `payload.id` is truthy and the endpoint
itself when it is falsy, which it is exactly when it is absent, `undefined`,
`null`, `false`, 0 or `""`. In the url a string id stands as it is and a
number id in the range of `Number.isSafeInteger` stands in decimal notation. -/
theorem executeOperation_request_of_type (env : Env) (operation : Operation) (st : World) :
    (operation.operationType = OPERATION_TYPES.CREATE →
      (executeOperation env operation st).2.requests = st.requests ++
        [{ url := operation.endpoint, method := "POST",
           authorization := "Bearer " ++ env.accessToken,
           body := some (env.jsonStringify operation.payload) }]) ∧
    (operation.operationType = OPERATION_TYPES.UPDATE →
      ((operation.payload.prop "id").truthy = true →
        (executeOperation env operation st).2.requests = st.requests ++
          [{ url := operation.endpoint ++ "/" ++
               (operation.payload.prop "id").toJsString env.numberToString,
             method := "PUT",
             authorization := "Bearer " ++ env.accessToken,
             body := some (env.jsonStringify operation.payload) }]) ∧
      ((operation.payload.prop "id").truthy = false →
        (executeOperation env operation st).2.requests = st.requests ++
          [{ url := operation.endpoint, method := "PUT",
             authorization := "Bearer " ++ env.accessToken,
             body := some (env.jsonStringify operation.payload) }])) ∧
    (operation.operationType = OPERATION_TYPES.DELETE →
      ((operation.payload.prop "id").truthy = true →
        (executeOperation env operation st).2.requests = st.requests ++
          [{ url := operation.endpoint ++ "/" ++
               (operation.payload.prop "id").toJsString env.numberToString,
             method := "DELETE",
             authorization := "Bearer " ++ env.accessToken,
             body := none }]) ∧
      ((operation.payload.prop "id").truthy = false →
        (executeOperation env operation st).2.requests = st.requests ++
          [{ url := operation.endpoint, method := "DELETE",
             authorization := "Bearer " ++ env.accessToken,
             body := none }])) ∧
    ((operation.payload.prop "id").truthy = false ↔
      operation.payload.prop "id" = JsPrim.undefined ∨
      operation.payload.prop "id" = JsPrim.null ∨
      operation.payload.prop "id" = JsPrim.bool false ∨
      operation.payload.prop "id" = JsPrim.num 0 ∨
      operation.payload.prop "id" = JsPrim.str "") ∧
    (∀ s : String, operation.payload.prop "id" = JsPrim.str s →
      (operation.payload.prop "id").toJsString env.numberToString = s) ∧
    (∀ n : Int, operation.payload.prop "id" = JsPrim.num n →
      n.natAbs ≤ MAX_SAFE_INTEGER →
      (operation.payload.prop "id").toJsString env.numberToString = toString n) := by
  rw [executeOperation_effect]
  simp only [requestsOf, buildRequest]
  refine ⟨fun h => ?_, fun h => ⟨fun hid => ?_, fun hid => ?_⟩,
    fun h => ⟨fun hid => ?_, fun hid => ?_⟩, truthy_eq_false_iff _,
    fun s hs => ?_, fun n hn hsafe => ?_⟩
  · rw [if_pos h]
  · rw [if_neg (by rw [h]; decide), if_pos h, if_pos hid]
  · rw [if_neg (by rw [h]; decide), if_pos h, hid]
    rfl
  · rw [if_neg (by rw [h]; decide), if_neg (by rw [h]; decide), if_pos h, if_pos hid]
  · rw [if_neg (by rw [h]; decide), if_neg (by rw [h]; decide), if_pos h, hid]
    rfl
  · rw [hs]
    rfl
  · rw [hn]
    exact if_pos hsafe

/-- C13, witness: the `UPDATE` of the story `"story-1"` is sent as a `PUT` to
`/api/stories/story-1`, the `DELETE` of the story 42 as a `DELETE` without
body to `/api/stories/42`, and the `UPDATE` whose payload has the id 0 as a
`PUT` to `/api/stories`. -/
theorem executeOperation_request_of_type_witness :
    (executeOperation acceptingEnv updateStory World.initial).2.requests =
      [{ url := "/api/stories/story-1", method := "PUT", authorization := "Bearer token",
         body := some (acceptingEnv.jsonStringify updateStory.payload) }] ∧
    (executeOperation acceptingEnv deleteRecord World.initial).2.requests =
      [{ url := "/api/stories/42", method := "DELETE", authorization := "Bearer token",
         body := none }] ∧
    (executeOperation acceptingEnv updateZero World.initial).2.requests =
      [{ url := "/api/stories", method := "PUT", authorization := "Bearer token",
         body := some (acceptingEnv.jsonStringify updateZero.payload) }] :=
  ⟨((executeOperation_request_of_type acceptingEnv updateStory World.initial).2.1 rfl).1
      (by decide),
   ((executeOperation_request_of_type acceptingEnv deleteRecord World.initial).2.2.1 rfl).1
      (by decide),
   ((executeOperation_request_of_type acceptingEnv updateZero World.initial).2.1 rfl).2
      (by decide)⟩

theorem notifyCallbacks_eq (env : Env) (data : SyncEvent) (cbs : List Nat) (st : World) :
    notifyCallbacks env data cbs st =
      { st with
        delivered := st.delivered ++ cbs.map (fun c => (c, data)),
        callbackErrors :=
          st.callbackErrors ++ cbs.filter (fun c => env.callbackThrows c data) } := by
  induction cbs generalizing st with
  | nil => simp [notifyCallbacks]
  | cons c rest ih =>
    unfold notifyCallbacks
    rw [ih]
    by_cases h : env.callbackThrows c data = true
    · simp [h, List.filter_cons]
    · simp [h, List.filter_cons]

theorem notifySyncStatusChange_eq (env : Env) (data : SyncEvent) (st : World) :
    notifySyncStatusChange env data st =
      { st with
        delivered := st.delivered ++ st.syncCallbacks.map (fun c => (c, data)),
        callbackErrors :=
          st.callbackErrors ++ st.syncCallbacks.filter (fun c => env.callbackThrows c data) } :=
  notifyCallbacks_eq env data _ st

/-- The observer invocations of a `syncOperation` whose execution fails, no
storage request being rejected: the observers are called, once each and with
the `failed` event, exactly when the retries of the object plus one reach
its `maxRetries`. -/
theorem syncOperation_failure_delivered {env : Env} (hfault : NoStorageFault env)
    (operation : Operation) (st : World) (error : JsError)
    (hmem : operation ∈ st.db.pendingOperations)
    (hkeys : UniqueKeys st.db.pendingOperations)
    (hexec : (executeOperation env operation st).1 = Except.error error) :
    (syncOperation env operation st).2.delivered =
      if operation.retries + 1 ≥ operation.maxRetries then
        st.delivered ++ st.syncCallbacks.map (fun c =>
          (c, SyncEvent.operation operation.id SYNC_STATUS.FAILED (some error.message)))
      else st.delivered := by
  have hr := getByKey_of_mem_uniqueKeys operation _ hkeys hmem
  unfold syncOperation
  rw [updateOperationStatus_noFault hfault, hr]
  simp only
  generalize hst₁ : withPending _ (clockRead (touch 2 st)) = st₁
  have hreq : st₁.requests = st.requests := by rw [← hst₁]; rfl
  have hdel₁ : st₁.delivered = st.delivered := by rw [← hst₁]; rfl
  have hcb₁ : st₁.syncCallbacks = st.syncCallbacks := by rw [← hst₁]; rfl
  have hdb₁ : getByKey operation.id st₁.db.pendingOperations =
      some (withStatus operation SYNC_STATUS.SYNCING none (env.dateNow st.clockReads)) := by
    rw [← hst₁]
    exact getByKey_putByKey_self
      (withStatus operation SYNC_STATUS.SYNCING none (env.dateNow st.clockReads))
      st.db.pendingOperations
  have hx : executeOperation env operation st₁ =
      (Except.error error, { st₁ with executed := st₁.executed ++ [operation],
                                      requests := st₁.requests ++ requestsOf env operation }) := by
    apply Prod.ext
    · rw [executeOperation_result env operation st st₁ hreq, hexec]
    · exact executeOperation_effect env operation st₁
  unfold syncOperationTry
  rw [hx]
  simp only
  unfold syncOperationCatch
  simp only
  by_cases hmax : operation.retries + 1 ≥ operation.maxRetries
  · rw [if_pos hmax, if_pos hmax]
    rw [updateOperationStatus_noFault hfault]
    simp only [hdb₁]
    rw [logSync_noFault hfault]
    simp only [notifySyncStatusChange_eq]
    simp [withPending, withLogged, clockRead, touch, hdel₁, hcb₁]
  · rw [if_neg hmax, if_neg hmax]
    rw [updateOperationStatus_noFault hfault]
    simp only [hdb₁]
    simp [withPending, clockRead, touch, hdel₁]

/-- C14, counterexample: the operation of `queuedOnce` fails at its only
attempt and the `add` of `logSync` is rejected. The operation ends with status
`failed`, the sync log is still empty, and the observer is not called. -/
theorem syncOperation_terminal_failure_without_log :
    (syncOperation logFaultEnv onceRecord queuedOnce).1.toOption = none ∧
    retryView (syncOperation logFaultEnv onceRecord queuedOnce).2 = [(1, "failed", 0, 1)] ∧
    (syncOperation logFaultEnv onceRecord queuedOnce).2.db.syncLog = [] ∧
    (syncOperation logFaultEnv onceRecord queuedOnce).2.delivered = [] ∧
    queuedOnce.db.pendingOperations = [onceRecord] ∧ queuedOnce.syncCallbacks = [0] := by
  decide

/-- C14, amended: a `syncOperation` whose execution fails, for an operation of
the queue as the pending query returned it and with no storage request
rejected, rejects with the error of the execution and writes to the sync log
if and only if the operation ends with status `failed`. When the retries of
the object plus one reach its `maxRetries`, the operation ends `failed`,
exactly one entry is appended, with the key of the operation, status `failed`,
no response and the text `error.toString()`, and every observer is called once
with the event of the operation, status `failed` and `error.message`.
Otherwise the operation ends `pending`, the sync log is unchanged and no
observer is called. -/
theorem syncOperation_logs_terminal_failure_only {env : Env} (hfault : NoStorageFault env)
    (operation : Operation) (st : World) (error : JsError)
    (hmem : operation ∈ st.db.pendingOperations)
    (hkeys : UniqueKeys st.db.pendingOperations)
    (hexec : (executeOperation env operation st).1 = Except.error error) :
    (syncOperation env operation st).1 = Except.error error ∧
    ((syncOperation env operation st).2.db.syncLog ≠ st.db.syncLog ↔
      ∃ r, getByKey operation.id (syncOperation env operation st).2.db.pendingOperations =
        some r ∧ r.status = SYNC_STATUS.FAILED) ∧
    (operation.retries + 1 ≥ operation.maxRetries →
      (∃ r, getByKey operation.id (syncOperation env operation st).2.db.pendingOperations =
        some r ∧ r.status = SYNC_STATUS.FAILED) ∧
      (syncOperation env operation st).2.db.syncLog = st.db.syncLog ++
        [{ id := st.db.syncLogNextKey, operationId := operation.id,
           status := SYNC_STATUS.FAILED, timestamp := env.dateNow (st.clockReads + 2),
           response := none, error := some error.toString }] ∧
      (syncOperation env operation st).2.delivered = st.delivered ++
        st.syncCallbacks.map (fun c =>
          (c, SyncEvent.operation operation.id SYNC_STATUS.FAILED (some error.message)))) ∧
    (operation.retries + 1 < operation.maxRetries →
      (∃ r, getByKey operation.id (syncOperation env operation st).2.db.pendingOperations =
        some r ∧ r.status = SYNC_STATUS.PENDING) ∧
      (syncOperation env operation st).2.db.syncLog = st.db.syncLog ∧
      (syncOperation env operation st).2.delivered = st.delivered) := by
  obtain ⟨hres, hrec, hlog⟩ :=
    syncOperation_failure_noFault hfault operation st error hmem hkeys hexec
  have hdel := syncOperation_failure_delivered hfault operation st error hmem hkeys hexec
  refine ⟨hres, ?_, fun hmax => ?_, fun hlt => ?_⟩
  · by_cases hmax : operation.retries + 1 ≥ operation.maxRetries
    · rw [if_pos hmax] at hrec hlog
      rw [hrec, hlog]
      constructor
      · intro _
        exact ⟨_, rfl, rfl⟩
      · intro _ h
        have := congrArg List.length h
        simp at this
    · rw [if_neg hmax] at hrec hlog
      rw [hrec, hlog]
      constructor
      · intro h
        exact absurd rfl h
      · rintro ⟨r, hr, hs⟩
        simp only [Option.some.injEq] at hr
        subst hr
        exact absurd (show SYNC_STATUS.PENDING = SYNC_STATUS.FAILED from hs) (by decide)
  · rw [if_pos hmax] at hrec hlog hdel
    exact ⟨⟨_, hrec, rfl⟩, hlog, hdel⟩
  · have hmax : ¬ operation.retries + 1 ≥ operation.maxRetries := by omega
    rw [if_neg hmax] at hrec hlog hdel
    exact ⟨⟨_, hrec, rfl⟩, hlog, hdel⟩

/-- The operation of `queuedOnce` fails at its only attempt with no storage
fault: it ends `failed`, one entry is logged with the text of the error, and
the observer gets the event with the message of the error. -/
theorem syncOperation_logs_terminal_failure_only_witness :
    retryView (syncOperation failingEnv onceRecord queuedOnce).2 = [(1, "failed", 0, 1)] ∧
    (syncOperation failingEnv onceRecord queuedOnce).2.db.syncLog =
      [{ id := 1, operationId := 1, status := "failed", timestamp := 1003,
         response := none, error := some "TypeError: Failed to fetch" }] ∧
    (syncOperation failingEnv onceRecord queuedOnce).2.delivered =
      [(0, SyncEvent.operation 1 "failed" (some "Failed to fetch"))] :=
  ⟨by decide,
   ((syncOperation_logs_terminal_failure_only (show NoStorageFault failingEnv from fun _ => rfl)
      onceRecord queuedOnce
      networkError (by decide) (by decide) rfl).2.2.1 (by decide)).2.1.trans (by decide),
   ((syncOperation_logs_terminal_failure_only (show NoStorageFault failingEnv from fun _ => rfl)
      onceRecord queuedOnce
      networkError (by decide) (by decide) rfl).2.2.1 (by decide)).2.2.trans (by decide)⟩

/-! ## The sync log in cursor order -/

theorem insertNewestFirst_perm (e : SyncLogEntry) (l : List SyncLogEntry) :
    (insertNewestFirst e l).Perm (e :: l) := by
  induction l with
  | nil => simp [insertNewestFirst]
  | cons x xs ih =>
    unfold insertNewestFirst
    by_cases h : logNewer e x = true
    · rw [if_pos h]
    · rw [if_neg h]
      exact (List.Perm.cons x ih).trans (List.Perm.swap e x xs)

theorem newestFirst_perm (log : List SyncLogEntry) : (newestFirst log).Perm log := by
  unfold newestFirst
  induction log with
  | nil => exact List.Perm.refl _
  | cons x xs ih =>
    rw [List.foldr_cons]
    exact (insertNewestFirst_perm x _).trans (List.Perm.cons x ih)

theorem logNewer_timestamp (a b : SyncLogEntry) (h : logNewer a b = true) :
    b.timestamp ≤ a.timestamp := by
  unfold logNewer at h
  simp only [Bool.or_eq_true, Bool.and_eq_true, decide_eq_true_eq] at h
  omega

theorem timestamp_of_not_logNewer (a b : SyncLogEntry) (h : ¬ logNewer a b = true) :
    a.timestamp ≤ b.timestamp := by
  unfold logNewer at h
  simp only [Bool.or_eq_true, Bool.and_eq_true, decide_eq_true_eq, not_or, not_and] at h
  omega

theorem insertNewestFirst_sorted (e : SyncLogEntry) (l : List SyncLogEntry)
    (h : l.Pairwise (fun a b => b.timestamp ≤ a.timestamp)) :
    (insertNewestFirst e l).Pairwise (fun a b => b.timestamp ≤ a.timestamp) := by
  induction l with
  | nil => simp [insertNewestFirst]
  | cons x xs ih =>
    have hx := List.pairwise_cons.mp h
    unfold insertNewestFirst
    by_cases hn : logNewer e x = true
    · rw [if_pos hn]
      have hle := logNewer_timestamp e x hn
      refine List.pairwise_cons.mpr ⟨fun y hy => ?_, h⟩
      rcases List.mem_cons.mp hy with rfl | hy
      · exact hle
      · exact le_trans (hx.1 y hy) hle
    · rw [if_neg hn]
      have hle := timestamp_of_not_logNewer e x hn
      refine List.pairwise_cons.mpr ⟨fun y hy => ?_, ih hx.2⟩
      rcases List.mem_cons.mp ((insertNewestFirst_perm e xs).mem_iff.mp hy) with rfl | hy
      · exact hle
      · exact hx.1 y hy

theorem newestFirst_sorted (log : List SyncLogEntry) :
    (newestFirst log).Pairwise (fun a b => b.timestamp ≤ a.timestamp) := by
  unfold newestFirst
  induction log with
  | nil => exact List.Pairwise.nil
  | cons x xs ih =>
    rw [List.foldr_cons]
    exact insertNewestFirst_sorted x _ ih

/-- The first `n` entries in cursor order: there are `min n (length log)` of
them, their timestamps do not increase, and together with the entries left
out, none of which is newer than any of them, they make up the log. -/
theorem take_newestFirst (n : Nat) (log : List SyncLogEntry) :
    ((newestFirst log).take n).length = min n log.length ∧
    ((newestFirst log).take n).Pairwise (fun a b => b.timestamp ≤ a.timestamp) ∧
    ((newestFirst log).take n ++ (newestFirst log).drop n).Perm log ∧
    ∀ a ∈ (newestFirst log).take n, ∀ b ∈ (newestFirst log).drop n,
      b.timestamp ≤ a.timestamp := by
  refine ⟨?_, ?_, ?_, ?_⟩
  · rw [List.length_take, (newestFirst_perm log).length_eq]
  · exact (newestFirst_sorted log).sublist (List.take_sublist _ _)
  · rw [List.take_append_drop]
    exact newestFirst_perm log
  · have h := newestFirst_sorted log
    rw [← List.take_append_drop n (newestFirst log)] at h
    exact fun a ha b hb => (List.pairwise_append.mp h).2.2 a ha b hb

theorem getPendingOperations_db (env : Env) (filter : Filter) (st : World) :
    (getPendingOperations env filter st).2.db = st.db := by
  unfold getPendingOperations
  have hdb := init_db env st
  split
  · rename_i h; rw [h] at hdb; exact hdb
  · rename_i h; rw [h] at hdb
    simp only [dbRequest]
    split
    · rename_i h; simp only [Prod.mk.injEq] at h; obtain ⟨-, rfl⟩ := h; exact hdb
    · rename_i h; simp only [Prod.mk.injEq] at h; obtain ⟨-, rfl⟩ := h
      split
      · split <;> exact hdb
      · exact hdb

theorem getSyncLog_db (env : Env) (limit : Int) (st : World) :
    (getSyncLog env limit st).2.db = st.db := by
  unfold getSyncLog
  have hdb := init_db env st
  split
  · rename_i h; rw [h] at hdb; exact hdb
  · rename_i h; rw [h] at hdb
    simp only [dbRequest]
    split
    · rename_i h; simp only [Prod.mk.injEq] at h; obtain ⟨-, rfl⟩ := h; exact hdb
    · rename_i h; simp only [Prod.mk.injEq] at h; obtain ⟨-, rfl⟩ := h
      exact hdb

theorem getSyncLog_resolved (env : Env) (limit : Int) (st : World)
    (logs : List SyncLogEntry) (h : (getSyncLog env limit st).1 = Except.ok logs) :
    logs = (newestFirst st.db.syncLog).take limit.toNat := by
  unfold getSyncLog at h
  have hdb := init_db env st
  split at h
  · cases h
  · rename_i u st₁ hi
    rw [hi] at hdb
    simp only [dbRequest] at h
    split at h
    · cases h
    · rename_i st₂ hreq
      simp only [Prod.mk.injEq] at hreq
      obtain ⟨-, rfl⟩ := hreq
      simp only [Except.ok.injEq] at h hdb
      rw [← h, hdb]

/-- C15: `getSyncLog(limit)`. With no storage request rejected it resolves;
and whenever it resolves, for every limit and every log, the entries it
returns number `min(limit, size of the log)`, none when `limit <= 0`; their
timestamps do not increase along the result; and the result together with
some list `rest` of entries is a rearrangement of the log, with every entry
of `rest` (the entries not returned) at most as recent as every returned
entry. -/
theorem getSyncLog_returns_most_recent (env : Env) (limit : Int) (st : World) :
    (NoStorageFault env → ∃ logs, (getSyncLog env limit st).1 = Except.ok logs) ∧
    ∀ logs, (getSyncLog env limit st).1 = Except.ok logs →
      logs.length = min limit.toNat st.db.syncLog.length ∧
      (limit ≤ 0 → logs = []) ∧
      logs.Pairwise (fun a b => b.timestamp ≤ a.timestamp) ∧
      ∃ rest, (logs ++ rest).Perm st.db.syncLog ∧
        ∀ a ∈ logs, ∀ b ∈ rest, b.timestamp ≤ a.timestamp := by
  refine ⟨fun hnf => ⟨_, by rw [getSyncLog_noFault hnf]⟩, fun logs h => ?_⟩
  have hlogs := getSyncLog_resolved env limit st logs h
  obtain ⟨h₁, h₂, h₃, h₄⟩ := take_newestFirst limit.toNat st.db.syncLog
  rw [← hlogs] at h₁ h₂ h₃ h₄
  refine ⟨h₁, fun hle => ?_, h₂, _, h₃, h₄⟩
  rw [hlogs, Int.toNat_of_nonpos hle, List.take_zero]

/-! ## Statistics -/

theorem countStatus_cons (status : String) (op : Operation) (rest : List Operation) :
    countStatus status (op :: rest) =
      (if op.status = status then 1 else 0) + countStatus status rest := by
  unfold countStatus
  by_cases h : op.status = status
  · simp [List.filter_cons, h]; omega
  · simp [List.filter_cons, h]

theorem countOperation_cons (operationType : String) (op : Operation)
    (rest : List Operation) :
    countOperation operationType (op :: rest) =
      (if op.operationType = operationType then 1 else 0) +
        countOperation operationType rest := by
  unfold countOperation
  by_cases h : op.operationType = operationType
  · simp [List.filter_cons, h]; omega
  · simp [List.filter_cons, h]

theorem countByStatus_eq (stats : Stats) (op : Operation) :
    countByStatus stats op =
      { stats with
        byStatusPending :=
          stats.byStatusPending + (if op.status = SYNC_STATUS.PENDING then 1 else 0),
        byStatusSyncing :=
          stats.byStatusSyncing + (if op.status = SYNC_STATUS.SYNCING then 1 else 0),
        byStatusSynced :=
          stats.byStatusSynced + (if op.status = SYNC_STATUS.SYNCED then 1 else 0),
        byStatusFailed :=
          stats.byStatusFailed + (if op.status = SYNC_STATUS.FAILED then 1 else 0) } := by
  unfold countByStatus
  by_cases h₁ : op.status = "pending"
  · simp [h₁]; decide
  · by_cases h₂ : op.status = "syncing"
    · simp [h₂]; decide
    · by_cases h₃ : op.status = "synced"
      · simp [h₃]; decide
      · by_cases h₄ : op.status = "failed"
        · simp [h₄]; decide
        · simp [h₁, h₂, h₃, h₄]

theorem countByOperation_eq (stats : Stats) (op : Operation) :
    countByOperation stats op =
      { stats with
        byOperationCreate :=
          stats.byOperationCreate + (if op.operationType = OPERATION_TYPES.CREATE then 1 else 0),
        byOperationUpdate :=
          stats.byOperationUpdate + (if op.operationType = OPERATION_TYPES.UPDATE then 1 else 0),
        byOperationDelete :=
          stats.byOperationDelete +
            (if op.operationType = OPERATION_TYPES.DELETE then 1 else 0) } := by
  unfold countByOperation
  by_cases h₁ : op.operationType = "CREATE"
  · simp [h₁]; decide
  · by_cases h₂ : op.operationType = "UPDATE"
    · simp [h₂]; decide
    · by_cases h₃ : op.operationType = "DELETE"
      · simp [h₃]; decide
      · simp [h₁, h₂, h₃]

theorem countAll_eq (ops : List Operation) (stats : Stats) :
    countAll ops stats =
      { totalPending := stats.totalPending,
        byStatusPending := stats.byStatusPending + countStatus SYNC_STATUS.PENDING ops,
        byStatusSyncing := stats.byStatusSyncing + countStatus SYNC_STATUS.SYNCING ops,
        byStatusSynced := stats.byStatusSynced + countStatus SYNC_STATUS.SYNCED ops,
        byStatusFailed := stats.byStatusFailed + countStatus SYNC_STATUS.FAILED ops,
        byOperationCreate := stats.byOperationCreate + countOperation OPERATION_TYPES.CREATE ops,
        byOperationUpdate := stats.byOperationUpdate + countOperation OPERATION_TYPES.UPDATE ops,
        byOperationDelete := stats.byOperationDelete + countOperation OPERATION_TYPES.DELETE ops,
        recentSync := stats.recentSync } := by
  induction ops generalizing stats with
  | nil => simp [countAll, countStatus, countOperation]
  | cons op rest ih =>
    unfold countAll
    rw [ih, countByOperation_eq, countByStatus_eq]
    simp only [countStatus_cons, countOperation_cons, Stats.mk.injEq, true_and, and_true]
    refine ⟨?_, ?_, ?_, ?_, ?_, ?_, ?_⟩ <;> omega

theorem getStats_db (env : Env) (st : World) : (getStats env st).2.db = st.db := by
  unfold getStats
  have h₁ := getPendingOperations_db env Filter.empty st
  split
  · rename_i h; rw [h] at h₁; exact h₁
  · rename_i ops st₁ h; rw [h] at h₁
    have h₂ := getSyncLog_db env 100 st₁
    split
    · rename_i h; rw [h] at h₂; exact h₂.trans h₁
    · rename_i h; rw [h] at h₂; exact h₂.trans h₁

/-- What `getStats` resolves with, for every environment: the counters of the
`forEach` over the whole queue, and the first five entries of the log in
cursor order. -/
theorem getStats_resolved (env : Env) (st : World) (stats : Stats)
    (h : (getStats env st).1 = Except.ok stats) :
    stats = countAll st.db.pendingOperations
      { totalPending := st.db.pendingOperations.length,
        byStatusPending := 0, byStatusSyncing := 0, byStatusSynced := 0, byStatusFailed := 0,
        byOperationCreate := 0, byOperationUpdate := 0, byOperationDelete := 0,
        recentSync := (newestFirst st.db.syncLog).take 5 } := by
  unfold getStats at h
  split at h
  · cases h
  · rename_i ops st₁ h₁
    have hops := getPendingOperations_resolved env Filter.empty st ops st₁ h₁
    have hdb : st₁.db = st.db := by
      have := getPendingOperations_db env Filter.empty st
      rw [h₁] at this
      exact this
    split at h
    · cases h
    · rename_i logs st₂ h₂
      have hlogs := getSyncLog_resolved env 100 st₁ logs (by rw [h₂])
      simp only [Except.ok.injEq] at h
      rw [← h, hlogs, hops, hdb, List.take_take]
      rfl

theorem getStats_noFault {env : Env} (h : NoStorageFault env) (st : World) :
    ∃ stats, getStats env st = (Except.ok stats, touch 1 (touch 1 st)) := by
  unfold getStats
  rw [getPendingOperations_noFault h]
  simp only
  rw [getSyncLog_noFault h]
  exact ⟨_, rfl⟩

/-- C16: `getStats()`. With no storage request rejected it resolves; and
whenever it resolves, for every queue and log, `totalPending` is the number of
operations in the queue, each `byStatus` counter is the number of queued
operations with that status, each `byOperation` counter is the number of
queued operations with that type, and `recentSync` is the first five entries
of the log in cursor order: `min(5, size of the log)` entries, timestamps not
increasing, and no entry left out is newer than one of them. -/
theorem getStats_counts_queue_and_recent_log (env : Env) (st : World) :
    (NoStorageFault env → ∃ stats, (getStats env st).1 = Except.ok stats) ∧
    ∀ stats, (getStats env st).1 = Except.ok stats →
      stats.totalPending = st.db.pendingOperations.length ∧
      stats.byStatusPending = countStatus SYNC_STATUS.PENDING st.db.pendingOperations ∧
      stats.byStatusSyncing = countStatus SYNC_STATUS.SYNCING st.db.pendingOperations ∧
      stats.byStatusSynced = countStatus SYNC_STATUS.SYNCED st.db.pendingOperations ∧
      stats.byStatusFailed = countStatus SYNC_STATUS.FAILED st.db.pendingOperations ∧
      stats.byOperationCreate = countOperation OPERATION_TYPES.CREATE st.db.pendingOperations ∧
      stats.byOperationUpdate = countOperation OPERATION_TYPES.UPDATE st.db.pendingOperations ∧
      stats.byOperationDelete = countOperation OPERATION_TYPES.DELETE st.db.pendingOperations ∧
      stats.recentSync = (newestFirst st.db.syncLog).take 5 ∧
      stats.recentSync.length = min 5 st.db.syncLog.length ∧
      stats.recentSync.Pairwise (fun a b => b.timestamp ≤ a.timestamp) ∧
      ∃ rest, (stats.recentSync ++ rest).Perm st.db.syncLog ∧
        ∀ a ∈ stats.recentSync, ∀ b ∈ rest, b.timestamp ≤ a.timestamp := by
  refine ⟨fun hnf => ?_, fun stats h => ?_⟩
  · obtain ⟨stats, hs⟩ := getStats_noFault hnf st
    exact ⟨stats, by rw [hs]⟩
  · have hs := getStats_resolved env st stats h
    rw [countAll_eq] at hs
    obtain ⟨h₁, h₂, h₃, h₄⟩ := take_newestFirst 5 st.db.syncLog
    subst hs
    exact ⟨rfl, Nat.zero_add _, Nat.zero_add _, Nat.zero_add _, Nat.zero_add _,
      Nat.zero_add _, Nat.zero_add _, Nat.zero_add _, rfl, h₁, h₂, _, h₃, h₄⟩

/-! ## What the calls leave of the engine, for every environment -/

theorem init_view (env : Env) (st : World) : engineView (init env st).2 = engineView st := by
  unfold init dbRequest
  split
  · rfl
  · split <;> rename_i h <;> simp only [Prod.mk.injEq] at h <;> obtain ⟨-, rfl⟩ := h <;> rfl

theorem getPendingOperations_view (env : Env) (filter : Filter) (st : World) :
    engineView (getPendingOperations env filter st).2 = engineView st := by
  unfold getPendingOperations
  have hi := init_view env st
  split
  · rename_i h; rw [h] at hi; exact hi
  · rename_i h; rw [h] at hi
    simp only [dbRequest]
    split
    · rename_i h; simp only [Prod.mk.injEq] at h; obtain ⟨-, rfl⟩ := h; exact hi
    · rename_i h; simp only [Prod.mk.injEq] at h; obtain ⟨-, rfl⟩ := h
      split
      · split <;> exact hi
      · exact hi

theorem updateOperationStatus_view (env : Env) (k : Nat) (status : String)
    (error : Option String) (st : World) :
    engineView (updateOperationStatus env k status error st).2 = engineView st := by
  unfold updateOperationStatus
  have hi := init_view env st
  split
  · rename_i h; rw [h] at hi; exact hi
  · rename_i h; rw [h] at hi
    unfold dbRequest dateNow
    split
    · rename_i h; simp only [Prod.mk.injEq] at h; obtain ⟨-, rfl⟩ := h; exact hi
    · rename_i h; simp only [Prod.mk.injEq] at h; obtain ⟨-, rfl⟩ := h
      split
      · exact hi
      · simp only
        split
        · rename_i h; simp only [Prod.mk.injEq] at h; obtain ⟨-, rfl⟩ := h; exact hi
        · rename_i h; simp only [Prod.mk.injEq] at h; obtain ⟨-, rfl⟩ := h; exact hi

theorem deleteOperation_view (env : Env) (k : Nat) (st : World) :
    engineView (deleteOperation env k st).2 = engineView st := by
  unfold deleteOperation
  have hi := init_view env st
  split
  · rename_i h; rw [h] at hi; exact hi
  · rename_i h; rw [h] at hi
    simp only [dbRequest]
    split
    · rename_i h; simp only [Prod.mk.injEq] at h; obtain ⟨-, rfl⟩ := h; exact hi
    · rename_i h; simp only [Prod.mk.injEq] at h; obtain ⟨-, rfl⟩ := h; exact hi

theorem logSync_view (env : Env) (operationId : Nat) (status : String)
    (response : Option JsObject) (error : Option JsError) (st : World) :
    engineView (logSync env operationId status response error st).2 = engineView st := by
  unfold logSync
  have hi := init_view env st
  split
  · rename_i h; rw [h] at hi; exact hi
  · rename_i h; rw [h] at hi
    unfold dbRequest dateNow
    simp only
    split
    · rename_i h; simp only [Prod.mk.injEq] at h; obtain ⟨-, rfl⟩ := h; exact hi
    · rename_i h; simp only [Prod.mk.injEq] at h; obtain ⟨-, rfl⟩ := h; exact hi

theorem getSyncLog_view (env : Env) (limit : Int) (st : World) :
    engineView (getSyncLog env limit st).2 = engineView st := by
  unfold getSyncLog
  have hi := init_view env st
  split
  · rename_i h; rw [h] at hi; exact hi
  · rename_i h; rw [h] at hi
    simp only [dbRequest]
    split
    · rename_i h; simp only [Prod.mk.injEq] at h; obtain ⟨-, rfl⟩ := h; exact hi
    · rename_i h; simp only [Prod.mk.injEq] at h; obtain ⟨-, rfl⟩ := h; exact hi

theorem getStats_view (env : Env) (st : World) :
    engineView (getStats env st).2 = engineView st := by
  unfold getStats
  have h₁ := getPendingOperations_view env Filter.empty st
  split
  · rename_i h; rw [h] at h₁; exact h₁
  · rename_i ops st₁ h; rw [h] at h₁
    have h₂ := getSyncLog_view env 100 st₁
    split
    · rename_i h; rw [h] at h₂; exact h₂.trans h₁
    · rename_i h; rw [h] at h₂; exact h₂.trans h₁

theorem notifySyncStatusChange_view (env : Env) (data : SyncEvent) (st : World) :
    engineView (notifySyncStatusChange env data st) = engineView st := by
  rw [notifySyncStatusChange_eq]
  rfl

theorem executeOperation_view (env : Env) (operation : Operation) (st : World) :
    engineView (executeOperation env operation st).2 = engineView st := by
  rw [executeOperation_effect]
  rfl

theorem syncOperationTry_view (env : Env) (operation : Operation) (st : World) :
    engineView (syncOperationTry env operation st).2 = engineView st := by
  unfold syncOperationTry
  have h₀ := executeOperation_view env operation st
  split
  · rename_i h; rw [h] at h₀; exact h₀
  · rename_i response st₁ h; rw [h] at h₀
    have h₁ := updateOperationStatus_view env operation.id SYNC_STATUS.SYNCED none st₁
    split
    · rename_i h; rw [h] at h₁; exact h₁.trans h₀
    · rename_i o st₂ h; rw [h] at h₁
      have h₂ := logSync_view env operation.id SYNC_STATUS.SYNCED (some response) none st₂
      split
      · rename_i h; rw [h] at h₂; exact h₂.trans (h₁.trans h₀)
      · rename_i e st₃ h; rw [h] at h₂
        have h₃ := deleteOperation_view env operation.id st₃
        split
        · rename_i h; rw [h] at h₃; exact h₃.trans (h₂.trans (h₁.trans h₀))
        · rename_i u st₄ h; rw [h] at h₃
          exact (notifySyncStatusChange_view env _ st₄).trans
            (h₃.trans (h₂.trans (h₁.trans h₀)))

theorem syncOperationCatch_view (env : Env) (operation : Operation) (error : JsError)
    (st : World) :
    engineView (syncOperationCatch env operation error st).2 = engineView st := by
  unfold syncOperationCatch
  simp only
  split
  · have h₁ := updateOperationStatus_view env operation.id SYNC_STATUS.FAILED
      (some error.message) st
    split
    · rename_i h; rw [h] at h₁; exact h₁
    · rename_i o st₁ h; rw [h] at h₁
      have h₂ := logSync_view env operation.id SYNC_STATUS.FAILED none (some error) st₁
      split
      · rename_i h; rw [h] at h₂; exact h₂.trans h₁
      · rename_i e st₂ h; rw [h] at h₂
        exact (notifySyncStatusChange_view env _ st₂).trans (h₂.trans h₁)
  · have h₁ := updateOperationStatus_view env operation.id SYNC_STATUS.PENDING none st
    split
    · rename_i h; rw [h] at h₁; exact h₁
    · rename_i h; rw [h] at h₁; exact h₁

theorem syncOperation_view (env : Env) (operation : Operation) (st : World) :
    engineView (syncOperation env operation st).2 = engineView st := by
  unfold syncOperation
  have h₁ := updateOperationStatus_view env operation.id SYNC_STATUS.SYNCING none st
  split
  · rename_i h; rw [h] at h₁; exact h₁
  · rename_i o st₁ h; rw [h] at h₁
    have h₂ := syncOperationTry_view env operation st₁
    split
    · rename_i h; rw [h] at h₂; exact h₂.trans h₁
    · rename_i error st₂ h; rw [h] at h₂
      exact (syncOperationCatch_view env operation error st₂).trans (h₂.trans h₁)

theorem syncAllLoop_view (env : Env) (ops : List Operation) (st : World) :
    engineView (syncAllLoop env ops st) = engineView st := by
  induction ops generalizing st with
  | nil => rfl
  | cons op rest ih =>
    unfold syncAllLoop
    exact (ih _).trans (syncOperation_view env op st)

theorem engineView_fields {a b : World} (h : engineView a = engineView b) :
    a.syncCallbacks = b.syncCallbacks ∧ a.isOnline = b.isOnline ∧
    a.isSyncing = b.isSyncing ∧ a.syncIntervalId = b.syncIntervalId ∧
    a.lastSyncTime = b.lastSyncTime ∧ a.timerSeq = b.timerSeq := by
  simpa [engineView] using h

/-- What `syncAll` leaves alone, for every environment: the observer list,
the connectivity flag, the stored timer and the timer counter; and the
`isSyncing` flag is afterwards what it was before the call. -/
theorem syncAll_scheduling (env : Env) (st : World) :
    (syncAll env st).2.syncCallbacks = st.syncCallbacks ∧
    (syncAll env st).2.isOnline = st.isOnline ∧
    (syncAll env st).2.isSyncing = st.isSyncing ∧
    (syncAll env st).2.syncIntervalId = st.syncIntervalId ∧
    (syncAll env st).2.timerSeq = st.timerSeq := by
  unfold syncAll
  split
  · exact ⟨rfl, rfl, rfl, rfl, rfl⟩
  · rename_i hguard
    have hidle : st.isSyncing = false := by
      cases h : st.isSyncing
      · rfl
      · simp [h] at hguard
    simp only
    generalize hst₀ : notifySyncStatusChange env (SyncEvent.aggregate true 0 none)
      { st with isSyncing := true } = st₀
    have h₀ : engineView st₀ = engineView { st with isSyncing := true } := by
      rw [← hst₀]; exact notifySyncStatusChange_view env _ _
    have key : (syncAllTry env st₀).2.syncCallbacks = st₀.syncCallbacks ∧
        (syncAllTry env st₀).2.isOnline = st₀.isOnline ∧
        (syncAllTry env st₀).2.syncIntervalId = st₀.syncIntervalId ∧
        (syncAllTry env st₀).2.timerSeq = st₀.timerSeq := by
      unfold syncAllTry
      have h₁ := getPendingOperations_view env { status := some SYNC_STATUS.PENDING } st₀
      split
      · rename_i h; rw [h] at h₁
        obtain ⟨a, b, -, c, -, d⟩ := engineView_fields h₁
        exact ⟨a, b, c, d⟩
      · rename_i ops st₁ h; rw [h] at h₁
        have h₂ := (syncAllLoop_view env ops st₁).trans h₁
        obtain ⟨a, b, -, c, -, d⟩ := engineView_fields h₂
        unfold dateNow
        simp only
        generalize hst₃ : ({ syncAllLoop env ops st₁ with
          clockReads := (syncAllLoop env ops st₁).clockReads + 1,
          lastSyncTime := some (env.dateNow (syncAllLoop env ops st₁).clockReads) } : World) = st₃
        have a₃ : st₃.syncCallbacks = st₀.syncCallbacks := by rw [← hst₃]; exact a
        have b₃ : st₃.isOnline = st₀.isOnline := by rw [← hst₃]; exact b
        have c₃ : st₃.syncIntervalId = st₀.syncIntervalId := by rw [← hst₃]; exact c
        have d₃ : st₃.timerSeq = st₀.timerSeq := by rw [← hst₃]; exact d
        have h₄ := getStats_view env st₃
        split
        · rename_i h; rw [h] at h₄
          obtain ⟨a', b', -, c', -, d'⟩ := engineView_fields h₄
          exact ⟨a'.trans a₃, b'.trans b₃, c'.trans c₃, d'.trans d₃⟩
        · rename_i stats st₄ h; rw [h] at h₄
          have h₅ := (notifySyncStatusChange_view env
            (SyncEvent.aggregate false stats.totalPending st₄.lastSyncTime) st₄).trans h₄
          obtain ⟨a', b', -, c', -, d'⟩ := engineView_fields h₅
          exact ⟨a'.trans a₃, b'.trans b₃, c'.trans c₃, d'.trans d₃⟩
    obtain ⟨a₀, b₀, -, c₀, -, d₀⟩ := engineView_fields h₀
    obtain ⟨a, b, c, d⟩ := key
    exact ⟨a.trans a₀, b.trans b₀, hidle.symm, c.trans c₀, d.trans d₀⟩

theorem countStatus_eq_length (status : String) (ops : List Operation)
    (h : ∀ r ∈ ops, r.status = status) : countStatus status ops = ops.length := by
  unfold countStatus
  rw [List.filter_eq_self.mpr]
  intro r hr
  simp [h r hr]

/-- What `getStatus` resolves with when no storage request is rejected: the
flags of the engine, the size of the whole queue as `pendingCount`, and the
number of operations with status `pending` as `byStatus.pending`. -/
theorem getStatus_noFault {env : Env} (h : NoStorageFault env) (st : World) :
    ∃ status, (getStatus env st).1 = Except.ok status ∧
      status.pendingCount = st.db.pendingOperations.length ∧
      status.byStatusPending = countStatus SYNC_STATUS.PENDING st.db.pendingOperations ∧
      status.isOnline = st.isOnline ∧ status.isSyncing = st.isSyncing ∧
      status.lastSyncTime = st.lastSyncTime := by
  obtain ⟨stats, hs⟩ := getStats_noFault h st
  have hr := getStats_resolved env st stats (by rw [hs])
  rw [countAll_eq] at hr
  unfold getStatus
  rw [hs]
  refine ⟨_, rfl, ?_, ?_, rfl, rfl, rfl⟩
  · rw [hr]
  · rw [hr]; exact Nat.zero_add _

/-- The end of a `syncAll` pass when no storage request is rejected: the last
observer invocations are those of the completion event, whose `pendingCount`
is the size of the whole queue. -/
theorem syncAll_completion {env : Env} (hfault : NoStorageFault env) (st : World)
    (hidle : st.isSyncing = false) (honline : st.isOnline = true) :
    (∃ earlier, (syncAll env st).2.delivered = earlier ++
      (syncAll env st).2.syncCallbacks.map (fun c =>
        (c, SyncEvent.aggregate false (syncAll env st).2.db.pendingOperations.length
          (syncAll env st).2.lastSyncTime))) ∧
    ∃ now, (syncAll env st).2.lastSyncTime = some now := by
  unfold syncAll
  rw [if_neg (by simp [hidle, honline])]
  simp only
  generalize notifySyncStatusChange env (SyncEvent.aggregate true 0 none)
    { st with isSyncing := true } = st₀
  unfold syncAllTry
  rw [getPendingOperations_noFault hfault]
  simp only
  generalize syncAllLoop env _ (touch 1 st₀) = st₂
  unfold dateNow
  simp only
  generalize hst₃ : ({ st₂ with
    clockReads := st₂.clockReads + 1,
    lastSyncTime := some (env.dateNow st₂.clockReads) } : World) = st₃
  obtain ⟨stats, hs⟩ := getStats_noFault hfault st₃
  have hr := getStats_resolved env st₃ stats (by rw [hs])
  rw [countAll_eq] at hr
  have htotal : stats.totalPending = st₃.db.pendingOperations.length := by rw [hr]
  rw [hs]
  simp only [notifySyncStatusChange_eq, htotal]
  refine ⟨⟨_, rfl⟩, env.dateNow st₂.clockReads, ?_⟩
  rw [← hst₃]
  rfl

/-- C17, counterexample: a queue that holds one `failed` operation and no
`pending` one, with one observer. The pass executes nothing, and its
completion event has `pendingCount` 1, as has `getStatus()` afterwards, while
the number of operations with status `pending` is 0. -/
theorem syncAll_pendingCount_counts_failed :
    (syncAll failingEnv observedFailed).2.delivered =
      [(0, SyncEvent.aggregate true 0 none),
       (0, SyncEvent.aggregate false 1 (some 1001))] ∧
    retryView (syncAll failingEnv observedFailed).2 = [(1, "failed", 3, 3)] ∧
    countStatus SYNC_STATUS.PENDING (syncAll failingEnv observedFailed).2.db.pendingOperations
      = 0 ∧
    (getStatus failingEnv (syncAll failingEnv observedFailed).2).1.toOption.map
      (fun status => (status.pendingCount, status.byStatusPending, status.byStatusFailed)) =
        some (1, 0, 1) := by
  decide

/-- C17, amended: when a `syncAll()` pass completes, started online and idle
and with no storage request rejected, the last event it sends, to every
observer in registration order, has `isSyncing = false`, `lastSyncTime` equal
to the `lastSyncTime` of the engine, which the pass has set, and
`pendingCount` equal to the number of operations in the queue at that moment,
whatever their status; `getStatus().pendingCount` reports the same number,
and the number of operations with status `pending` is its
`byStatus.pending`. The two numbers agree when every queued operation is
`pending`. -/
theorem syncAll_pendingCount_is_queue_size {env : Env} (hfault : NoStorageFault env)
    (st : World) (hidle : st.isSyncing = false) (honline : st.isOnline = true) :
    (∃ earlier, (syncAll env st).2.delivered = earlier ++
      (syncAll env st).2.syncCallbacks.map (fun c =>
        (c, SyncEvent.aggregate false (syncAll env st).2.db.pendingOperations.length
          (syncAll env st).2.lastSyncTime))) ∧
    (∃ now, (syncAll env st).2.lastSyncTime = some now) ∧
    (syncAll env st).2.syncCallbacks = st.syncCallbacks ∧
    (syncAll env st).2.isSyncing = false ∧
    (∃ status, (getStatus env (syncAll env st).2).1 = Except.ok status ∧
      status.pendingCount = (syncAll env st).2.db.pendingOperations.length ∧
      status.byStatusPending =
        countStatus SYNC_STATUS.PENDING (syncAll env st).2.db.pendingOperations ∧
      status.isSyncing = false ∧
      status.lastSyncTime = (syncAll env st).2.lastSyncTime) ∧
    ((∀ r ∈ (syncAll env st).2.db.pendingOperations, r.status = SYNC_STATUS.PENDING) →
      countStatus SYNC_STATUS.PENDING (syncAll env st).2.db.pendingOperations =
        (syncAll env st).2.db.pendingOperations.length) := by
  obtain ⟨hdel, hnow⟩ := syncAll_completion hfault st hidle honline
  obtain ⟨hcb, -, hsync, -, -⟩ := syncAll_scheduling env st
  obtain ⟨status, h₁, h₂, h₃, -, h₄, h₅⟩ := getStatus_noFault hfault (syncAll env st).2
  refine ⟨hdel, hnow, hcb, hsync.trans hidle, ⟨status, h₁, h₂, h₃, ?_, h₅⟩,
    countStatus_eq_length _ _⟩
  rw [h₄, hsync, hidle]

/-- The pass on the queue of the round trip scenario, with one observer: the
create is sent and accepted, and the completion event reports an empty
queue. -/
theorem syncAll_pendingCount_is_queue_size_witness :
    observedCreate.isSyncing = false ∧ observedCreate.isOnline = true ∧
    ∃ earlier, (syncAll acceptingEnv observedCreate).2.delivered = earlier ++
      [(0, SyncEvent.aggregate false 0 (some 1004))] :=
  ⟨rfl, rfl,
   (syncAll_pendingCount_is_queue_size (show NoStorageFault acceptingEnv from fun _ => rfl)
      observedCreate rfl rfl).1.imp
        (fun earlier h => h.trans (congrArg (fun l => earlier ++ l) (by decide)))⟩

/-! ## Observers -/

theorem notifyEach_eq (env : Env) (data : SyncEvent) (cbs : List Nat) (st : World) :
    notifyEach env data cbs st = (Except.ok (), notifyCallbacks env data cbs st) := by
  induction cbs generalizing st with
  | nil => rfl
  | cons c rest ih =>
    unfold notifyEach notifyCallbacks invokeCallback
    by_cases h : env.callbackThrows c data = true
    · simp only [h, if_true]
      exact ih _
    · simp only [h]
      exact ih _

/-- C18: observer isolation. For every list of registered callbacks and every
choice of the callbacks that throw, `notifySyncStatusChange(data)` invokes
the registered callbacks with `data`, each once and in registration order;
the callbacks whose exception was caught are exactly those that throw;
nothing else of the state changes; and the loop written with its `try` and
`catch` completes normally, with the same state. -/
theorem notifySyncStatusChange_calls_every_observer (env : Env) (data : SyncEvent)
    (st : World) :
    (notifySyncStatusChange env data st).delivered =
      st.delivered ++ st.syncCallbacks.map (fun c => (c, data)) ∧
    (notifySyncStatusChange env data st).callbackErrors =
      st.callbackErrors ++ st.syncCallbacks.filter (fun c => env.callbackThrows c data) ∧
    notifyEach env data st.syncCallbacks st =
      (Except.ok (), notifySyncStatusChange env data st) ∧
    notifySyncStatusChange env data st =
      { st with
        delivered := (notifySyncStatusChange env data st).delivered,
        callbackErrors := (notifySyncStatusChange env data st).callbackErrors } := by
  refine ⟨?_, ?_, notifyEach_eq env data _ st, ?_⟩
  · rw [notifySyncStatusChange_eq]
  · rw [notifySyncStatusChange_eq]
  · rw [notifySyncStatusChange_eq]

/-! ## Connectivity scheduling -/

theorem runListeners_fixed (f : Host → Host) (n : Nat) (h : Host) (hfix : f h = h) :
    runListeners f n h = h := by
  induction n with
  | zero => rfl
  | succ n ih => unfold runListeners; rw [hfix]; exact ih

theorem runListeners_once (f : Host → Host) (n : Nat) (h : Host) (hn : 0 < n)
    (hfix : f (f h) = f h) : runListeners f n h = f h := by
  cases n with
  | zero => omega
  | succ n => unfold runListeners; exact runListeners_fixed f n (f h) hfix

theorem startAutoSync_running (env : Env) (h : Host) (id : Nat)
    (hid : h.world.syncIntervalId = some id) (hne : id ≠ 0) : startAutoSync env h = h := by
  unfold startAutoSync intervalSet
  rw [hid]
  simp [hne]

theorem startAutoSync_start (env : Env) (h : Host) (hid : h.world.syncIntervalId = none)
    (hint : h.intervals = []) :
    (startAutoSync env h).syncAllCalls = h.syncAllCalls + 1 ∧
    (startAutoSync env h).world.syncIntervalId = some (h.world.timerSeq + 1) ∧
    (startAutoSync env h).intervals = [h.world.timerSeq + 1] ∧
    (startAutoSync env h).world.isOnline = h.world.isOnline ∧
    (startAutoSync env h).listeners = h.listeners := by
  obtain ⟨-, hon, -, -, hseq⟩ := syncAll_scheduling env h.world
  refine ⟨?_, ?_, ?_, ?_, ?_⟩ <;>
    simp [startAutoSync, intervalSet, callSyncAll, hid, hseq, hint, hon]

theorem world_online_eta (w : World) (hon : w.isOnline = true) :
    ({ w with isOnline := true } : World) = w := by
  have h : ({ w with isOnline := w.isOnline } : World) = w := rfl
  rw [hon] at h
  exact h

theorem world_offline_eta (w : World) (hoff : w.isOnline = false) :
    ({ w with isOnline := false } : World) = w := by
  have h : ({ w with isOnline := w.isOnline } : World) = w := rfl
  rw [hoff] at h
  exact h

theorem onOnline_again (env : Env) (h : Host) (hs : Scheduled h)
    (hon : h.world.isOnline = true) : onOnline env h = h := by
  obtain ⟨-, -, hne, hiff⟩ := hs
  unfold onOnline
  rw [world_online_eta h.world hon]
  rw [hon] at hiff
  obtain ⟨id, hid⟩ := Option.isSome_iff_exists.mp hiff
  exact startAutoSync_running env h id hid (hne id hid)

theorem onOnline_first (env : Env) (h : Host) (hs : Scheduled h)
    (hoff : h.world.isOnline = false) :
    Scheduled (onOnline env h) ∧
    (onOnline env h).syncAllCalls = h.syncAllCalls + 1 ∧
    (onOnline env h).world.isOnline = true ∧
    (onOnline env h).world.syncIntervalId = some (h.world.timerSeq + 1) ∧
    (onOnline env h).intervals = [h.world.timerSeq + 1] := by
  obtain ⟨hl, hint, -, hiff⟩ := hs
  rw [hoff] at hiff
  have hid : h.world.syncIntervalId = none := by
    cases hx : h.world.syncIntervalId with
    | none => rfl
    | some id => rw [hx] at hiff; cases hiff
  rw [hid] at hint
  obtain ⟨h₁, h₂, h₃, h₄, h₅⟩ := startAutoSync_start env
    { h with world := { h.world with isOnline := true } } hid hint
  unfold onOnline
  refine ⟨⟨by rw [h₅]; exact hl, by rw [h₂, h₃]; rfl, ?_, by rw [h₂, h₄]; rfl⟩,
    h₁, h₄, h₂, h₃⟩
  intro id hidx
  rw [h₂] at hidx
  simp only [Option.some.injEq] at hidx
  omega

theorem onOffline_again (h : Host) (hs : Scheduled h) (hoff : h.world.isOnline = false) :
    onOffline h = h := by
  obtain ⟨-, -, -, hiff⟩ := hs
  rw [hoff] at hiff
  have hid : h.world.syncIntervalId = none := by
    cases hx : h.world.syncIntervalId with
    | none => rfl
    | some id => rw [hx] at hiff; cases hiff
  unfold onOffline
  rw [world_offline_eta h.world hoff]
  unfold stopAutoSync
  rw [hid]

theorem onOffline_stops (h : Host) (hs : Scheduled h) :
    Scheduled (onOffline h) ∧
    (onOffline h).syncAllCalls = h.syncAllCalls ∧
    (onOffline h).world.isOnline = false ∧
    (onOffline h).world.syncIntervalId = none ∧
    (onOffline h).intervals = [] := by
  obtain ⟨hl, hint, hne, hiff⟩ := hs
  cases hx : h.world.syncIntervalId with
  | none =>
    rw [hx] at hint
    refine ⟨⟨?_, ?_, ?_, ?_⟩, ?_, ?_, ?_, ?_⟩ <;>
      simp [onOffline, stopAutoSync, hx, hint, hl]
  | some id =>
    rw [hx] at hint
    have hid := hne id hx
    refine ⟨⟨?_, ?_, ?_, ?_⟩, ?_, ?_, ?_, ?_⟩ <;>
      simp [onOffline, stopAutoSync, hx, hint, hl, hid, Option.toList]

theorem onTick_scheduled (env : Env) (id : Nat) (h : Host) (hs : Scheduled h) :
    Scheduled (onTick env id h) := by
  obtain ⟨-, hon, -, hid, -⟩ := syncAll_scheduling env h.world
  unfold onTick callSyncAll
  split
  · split
    · obtain ⟨hl, hint, hne, hiff⟩ := hs
      refine ⟨hl, ?_, ?_, ?_⟩
      · simp only [hid]; exact hint
      · simp only [hid]; exact hne
      · simp only [hid, hon]; exact hiff
    · exact hs
  · exact hs

/-- What a timer tick does, for every state of the window: it calls
`syncAll()` at most once, and only when the timer is set, the device is held
to be online and no pass is running. -/
theorem onTick_calls (env : Env) (id : Nat) (h : Host) :
    ((onTick env id h).syncAllCalls = h.syncAllCalls ∨
      (onTick env id h).syncAllCalls = h.syncAllCalls + 1) ∧
    ((onTick env id h).syncAllCalls ≠ h.syncAllCalls →
      id ∈ h.intervals ∧ h.world.isOnline = true ∧ h.world.isSyncing = false) ∧
    (id ∈ h.intervals → h.world.isOnline = true → h.world.isSyncing = false →
      (onTick env id h).syncAllCalls = h.syncAllCalls + 1) := by
  unfold onTick callSyncAll
  by_cases hmem : id ∈ h.intervals
  · by_cases hg : (h.world.isOnline && !h.world.isSyncing) = true
    · rw [if_pos hmem, if_pos hg]
      simp only [Bool.and_eq_true, Bool.not_eq_true', ] at hg
      exact ⟨Or.inr rfl, fun _ => ⟨hmem, hg.1, hg.2⟩, fun _ _ _ => rfl⟩
    · rw [if_pos hmem, if_neg hg]
      refine ⟨Or.inl rfl, fun hne => absurd rfl hne, fun _ h₁ h₂ => ?_⟩
      simp [h₁, h₂] at hg
  · rw [if_neg hmem]
    exact ⟨Or.inl rfl, fun hne => absurd rfl hne, fun hm => absurd hm hmem⟩

theorem dispatch_online_of_offline (env : Env) (h : Host) (hs : Scheduled h)
    (hoff : h.world.isOnline = false) :
    dispatch env WindowEvent.online h = onOnline env h := by
  obtain ⟨hs', -, hon, -, -⟩ := onOnline_first env h hs hoff
  exact runListeners_once _ _ h hs.1 (onOnline_again env _ hs' hon)

theorem dispatch_online_of_online (env : Env) (h : Host) (hs : Scheduled h)
    (hon : h.world.isOnline = true) :
    dispatch env WindowEvent.online h = h :=
  runListeners_fixed _ _ h (onOnline_again env h hs hon)

theorem dispatch_offline (env : Env) (h : Host) (hs : Scheduled h) :
    dispatch env WindowEvent.offline h = onOffline h := by
  obtain ⟨hs', -, hoff, -, -⟩ := onOffline_stops h hs
  exact runListeners_once _ _ h hs.1 (onOffline_again _ hs' hoff)

theorem dispatch_scheduled (env : Env) (event : WindowEvent) (h : Host) (hs : Scheduled h) :
    Scheduled (dispatch env event h) := by
  cases event with
  | online =>
    cases hon : h.world.isOnline with
    | true => rw [dispatch_online_of_online env h hs hon]; exact hs
    | false =>
      rw [dispatch_online_of_offline env h hs hon]
      exact (onOnline_first env h hs hon).1
  | offline =>
    rw [dispatch_offline env h hs]
    exact (onOffline_stops h hs).1
  | tick id => exact onTick_scheduled env id h hs

theorem dispatchAll_scheduled (env : Env) (events : List WindowEvent) (h : Host)
    (hs : Scheduled h) : Scheduled (dispatchAll env events h) := by
  induction events generalizing h with
  | nil => exact hs
  | cons event rest ih =>
    unfold dispatchAll
    exact ih _ (dispatch_scheduled env event h hs)

theorem engineInit_scheduled (env : Env) (h : Host) (hint : h.intervals = [])
    (hid : h.world.syncIntervalId = none) (hok : (engineInit env h).1 = Except.ok ()) :
    Scheduled (engineInit env h).2 := by
  unfold engineInit at hok ⊢
  have hv := engineView_fields (init_view env h.world)
  split at hok
  · cases hok
  · rename_i u w hw
    rw [hw] at hv
    obtain ⟨-, hon, -, hidw, -, -⟩ := hv
    simp only at hon hidw
    simp only
    cases hx : h.world.isOnline with
    | false =>
      rw [hx] at hon
      simp only [hon, Bool.false_eq_true, if_false]
      refine ⟨Nat.succ_pos _, ?_, ?_, ?_⟩
      · simp [hidw, hid, hint]
      · intro id hi
        simp only [hidw, hid] at hi
        cases hi
      · simp [hidw, hid, hon]
    | true =>
      rw [hx] at hon
      simp only [hon, if_true]
      obtain ⟨-, h₂, h₃, h₄, h₅⟩ := startAutoSync_start env
        { h with world := w, listeners := h.listeners + 1 } (hidw.trans hid) hint
      refine ⟨by rw [h₅]; exact Nat.succ_pos _, by rw [h₂, h₃]; rfl, ?_,
        by rw [h₂, h₄]; exact hon.symm⟩
      intro id hi
      rw [h₂] at hi
      simp only [Option.some.injEq] at hi
      omega

/-- C19: connectivity scheduling. Let `h` be the state of the window after
`init` has resolved on a page without timer and after any sequence of
`online`, `offline` and timer events. The timers that are set are exactly the
stored one, and one is stored exactly when the engine holds the device to be
online. An `offline` event leaves no timer set, `syncIntervalId` empty, and
calls no `syncAll()`; while the engine is offline no timer tick calls
`syncAll()`. The first `online` event after that calls `syncAll()` exactly
once and leaves exactly one timer set, the stored one; a further `online`
event changes nothing. A timer tick calls `syncAll()` at most once, and only
when `isOnline` is true and `isSyncing` is false. -/
theorem scheduling_follows_connectivity (env : Env) (h₀ : Host) (events : List WindowEvent)
    (hint : h₀.intervals = []) (hid : h₀.world.syncIntervalId = none)
    (hok : (engineInit env h₀).1 = Except.ok ()) :
    ∀ h, h = dispatchAll env events (engineInit env h₀).2 →
      (h.intervals = h.world.syncIntervalId.toList ∧
        h.world.syncIntervalId.isSome = h.world.isOnline) ∧
      ((dispatch env WindowEvent.offline h).world.syncIntervalId = none ∧
        (dispatch env WindowEvent.offline h).intervals = [] ∧
        (dispatch env WindowEvent.offline h).world.isOnline = false ∧
        (dispatch env WindowEvent.offline h).syncAllCalls = h.syncAllCalls) ∧
      (h.world.isOnline = false → ∀ id,
        (dispatch env (WindowEvent.tick id) h).syncAllCalls = h.syncAllCalls) ∧
      (h.world.isOnline = false →
        (dispatch env WindowEvent.online h).syncAllCalls = h.syncAllCalls + 1 ∧
        (dispatch env WindowEvent.online h).world.isOnline = true ∧
        ∃ id, id ≠ 0 ∧
          (dispatch env WindowEvent.online h).world.syncIntervalId = some id ∧
          (dispatch env WindowEvent.online h).intervals = [id]) ∧
      (h.world.isOnline = true → dispatch env WindowEvent.online h = h) ∧
      ∀ id,
        ((dispatch env (WindowEvent.tick id) h).syncAllCalls = h.syncAllCalls ∨
          (dispatch env (WindowEvent.tick id) h).syncAllCalls = h.syncAllCalls + 1) ∧
        ((dispatch env (WindowEvent.tick id) h).syncAllCalls ≠ h.syncAllCalls →
          h.world.isOnline = true ∧ h.world.isSyncing = false) ∧
        (dispatch env (WindowEvent.tick id) h).intervals = h.intervals := by
  intro h hh
  have hs : Scheduled h := by
    rw [hh]
    exact dispatchAll_scheduled env events _ (engineInit_scheduled env h₀ hint hid hok)
  refine ⟨⟨hs.2.1, hs.2.2.2⟩, ?_, fun hoff id => ?_, fun hoff => ?_, fun hon => ?_,
    fun id => ?_⟩
  · rw [dispatch_offline env h hs]
    obtain ⟨-, h₁, h₂, h₃, h₄⟩ := onOffline_stops h hs
    exact ⟨h₃, h₄, h₂, h₁⟩
  · rcases (onTick_calls env id h).1 with hsame | hmore
    · exact hsame
    · have := ((onTick_calls env id h).2.1 (by rw [hmore]; omega)).2.1
      rw [hoff] at this
      cases this
  · rw [dispatch_online_of_offline env h hs hoff]
    obtain ⟨-, h₁, h₂, h₃, h₄⟩ := onOnline_first env h hs hoff
    exact ⟨h₁, h₂, _, Nat.succ_ne_zero _, h₃, h₄⟩
  · exact dispatch_online_of_online env h hs hon
  · obtain ⟨h₁, h₂, -⟩ := onTick_calls env id h
    refine ⟨h₁, fun hne => (h₂ hne).2, ?_⟩
    show (onTick env id h).intervals = h.intervals
    unfold onTick callSyncAll
    split
    · split <;> rfl
    · rfl

/-- On a fresh page with an accepting server: `init`, then `offline`, a tick
of the cancelled timer, `online`, and a tick of the new timer. `syncAll()` is
called at `init`, at the `online` event and at the last tick, and the timer
set at the end is the one started by the `online` event. -/
theorem scheduling_follows_connectivity_witness :
    (engineInit acceptingEnv Host.initial).1 = Except.ok () ∧
    (engineInit acceptingEnv Host.initial).2.syncAllCalls = 1 ∧
    (engineInit acceptingEnv Host.initial).2.intervals = [2] ∧
    (dispatchAll acceptingEnv
      [WindowEvent.offline, WindowEvent.tick 2, WindowEvent.online, WindowEvent.tick 3]
      (engineInit acceptingEnv Host.initial).2).syncAllCalls = 3 ∧
    (dispatchAll acceptingEnv
      [WindowEvent.offline, WindowEvent.tick 2, WindowEvent.online, WindowEvent.tick 3]
      (engineInit acceptingEnv Host.initial).2).intervals = [3] ∧
    (dispatch acceptingEnv WindowEvent.offline (dispatchAll acceptingEnv
      [WindowEvent.offline, WindowEvent.tick 2, WindowEvent.online, WindowEvent.tick 3]
      (engineInit acceptingEnv Host.initial).2)).world.syncIntervalId = none :=
  ⟨rfl, by decide, by decide, by decide, by decide,
   (scheduling_follows_connectivity acceptingEnv Host.initial
      [WindowEvent.offline, WindowEvent.tick 2, WindowEvent.online, WindowEvent.tick 3]
      rfl rfl rfl _ rfl).2.1.1⟩

/-! ## Retry ceiling -/

/-- C20: `maxRetries` is configurable by the caller, with default 3. Whenever
`addPendingOperation` resolves, with key `k`, the record stored under `k` has
`maxRetries = 3` when the options carry no `maxRetries`, and `maxRetries = m`
when `options.maxRetries = m`, for every number `m`, 0 included: the default
`options.maxRetries || 3` gives 3 for 0, and the spread of the options that
follows puts the 0 back. -/
theorem addPendingOperation_maxRetries (env : Env) (operationType endpoint : String)
    (payload : JsObject) (options : Options) (st : World) (k : Nat) (st' : World)
    (h : addPendingOperation env operationType endpoint payload options st = (Except.ok k, st')) :
    ∃ op : Operation, getByKey k st'.db.pendingOperations = some op ∧
      op ∈ st'.db.pendingOperations ∧
      (options.maxRetries = none → op.maxRetries = 3) ∧
      ∀ m, options.maxRetries = some m → op.maxRetries = m := by
  obtain ⟨now, hk, hfree, hst⟩ := addPendingOperation_resolved env _ _ _ _ _ _ _ h
  refine ⟨buildOperation operationType endpoint payload options now st.db.pendingNextKey,
    ?_, ?_, fun hnone => ?_, fun m hm => ?_⟩
  · rw [hst, hk]
    exact getByKey_insertByKey_self _ _ (hk ▸ hfree)
  · rw [hst]
    exact (insertByKey_perm _ _).symm.subset (List.mem_cons_self _ _)
  · simp [buildOperation, hnone]
  · simp [buildOperation, hm]

/-- The enqueueing of a `DELETE` with the options `{ maxRetries: 0 }` on a
fresh database resolves with key 1 and stores `maxRetries = 0`; with the
options `{}` it stores `maxRetries = 3`. -/
theorem addPendingOperation_maxRetries_witness :
    (∃ op : Operation,
      getByKey 1 (addPendingOperation failingEnv OPERATION_TYPES.DELETE "/api/stories"
        [("id", JsPrim.num 42)] zeroRetries World.initial).2.db.pendingOperations =
          some op ∧
      op.maxRetries = 0) ∧
    retryView (addPendingOperation failingEnv OPERATION_TYPES.DELETE "/api/stories"
      [("id", JsPrim.num 42)] Options.empty World.initial).2 = [(1, "pending", 0, 3)] := by
  refine ⟨?_, by decide⟩
  obtain ⟨op, hget, -, -, hm⟩ :=
    addPendingOperation_maxRetries failingEnv OPERATION_TYPES.DELETE "/api/stories"
      [("id", JsPrim.num 42)] zeroRetries World.initial 1 _ rfl
  exact ⟨op, hget, hm 0 rfl⟩

/-! ## Storage calls case by case, for every environment -/

theorem init_error (env : Env) (st : World) (e : JsError)
    (h : (init env st).1 = Except.error e) : ∃ n, env.storageFault n = some e := by
  unfold init dbRequest at h
  split at h
  · cases h
  · split at h
    · rename_i h'; simp only [Prod.mk.injEq] at h'
      simp only [Except.error.injEq] at h
      exact ⟨_, h ▸ h'.1⟩
    · cases h

theorem init_clockReads (env : Env) (st : World) :
    (init env st).2.clockReads = st.clockReads := by
  unfold init dbRequest
  split
  · rfl
  · split <;> rename_i h <;> simp only [Prod.mk.injEq] at h <;> obtain ⟨-, rfl⟩ := h <;> rfl

/-- What `logSync` does, for every environment: it fails with the error of a
rejected storage request and leaves the database as it was, or it resolves
with the entry it built, which is then the last one of the log. -/
theorem logSync_cases (env : Env) (operationId : Nat) (status : String)
    (response : Option JsObject) (error : Option JsError) (st : World) :
    (∃ e, (logSync env operationId status response error st).1 = Except.error e ∧
      (logSync env operationId status response error st).2.db = st.db ∧
      ∃ n, env.storageFault n = some e) ∨
    ((logSync env operationId status response error st).1 =
        Except.ok (logEntryOf st.db.syncLogNextKey operationId status response error
          (env.dateNow st.clockReads)) ∧
      (logSync env operationId status response error st).2.db =
        { st.db with
          syncLog := st.db.syncLog ++
            [logEntryOf st.db.syncLogNextKey operationId status response error
              (env.dateNow st.clockReads)],
          syncLogNextKey := st.db.syncLogNextKey + 1 }) := by
  unfold logSync
  have hi := init_db env st
  have hf := init_error env st
  have hc := init_clockReads env st
  split
  · rename_i e st₁ h; rw [h] at hi hf
    exact Or.inl ⟨e, rfl, hi, hf e rfl⟩
  · rename_i st₁ h; rw [h] at hi hc
    simp only at hi hc
    unfold dbRequest dateNow
    simp only
    split
    · rename_i e st₂ h; simp only [Prod.mk.injEq] at h; obtain ⟨he, rfl⟩ := h
      exact Or.inl ⟨e, rfl, hi, _, he⟩
    · rename_i st₂ h; simp only [Prod.mk.injEq] at h; obtain ⟨-, rfl⟩ := h
      refine Or.inr ⟨?_, ?_⟩
      · simp only [hi, hc, logEntryOf]
        cases error <;> rfl
      · show ({ st₁.db with syncLog := _, syncLogNextKey := _ } : Db) = _
        rw [hi, hc]
        simp only [logEntryOf]
        cases error <;> rfl

/-- What `deleteOperation` does, for every environment: it fails with the
error of a rejected storage request and leaves the database as it was, or it
resolves and the records with the key are gone from the queue. -/
theorem deleteOperation_cases (env : Env) (k : Nat) (st : World) :
    (∃ e, (deleteOperation env k st).1 = Except.error e ∧
      (deleteOperation env k st).2.db = st.db ∧ ∃ n, env.storageFault n = some e) ∨
    ((deleteOperation env k st).1 = Except.ok () ∧
      (deleteOperation env k st).2.db =
        { st.db with pendingOperations := deleteByKey k st.db.pendingOperations }) := by
  unfold deleteOperation
  have hi := init_db env st
  have hf := init_error env st
  split
  · rename_i e st₁ h; rw [h] at hi hf
    exact Or.inl ⟨e, rfl, hi, hf e rfl⟩
  · rename_i st₁ h; rw [h] at hi
    simp only at hi
    unfold dbRequest
    split
    · rename_i e st₂ h; simp only [Prod.mk.injEq] at h; obtain ⟨he, rfl⟩ := h
      exact Or.inl ⟨e, rfl, hi, _, he⟩
    · rename_i st₂ h; simp only [Prod.mk.injEq] at h; obtain ⟨-, rfl⟩ := h
      refine Or.inr ⟨rfl, ?_⟩
      show ({ st₁.db with pendingOperations := _ } : Db) = _
      rw [hi]

/-- C22: `logSync(operationId, status, response, error)`. With no storage
request rejected it resolves, whatever the queue holds, so also when no
operation has the key `operationId`. Whenever it resolves, the log is the old
log with exactly one entry appended, which has the given `operationId`,
`status` and `response`, the time of the call as `timestamp`, and as `error`
the text `error.toString()`, or `null` for no error; the queue, the drafts
and the key generator of the queue are unchanged. Whenever it fails, the
whole database is unchanged. -/
theorem logSync_appends_one_entry (env : Env) (operationId : Nat) (status : String)
    (response : Option JsObject) (error : Option JsError) (st : World) :
    (NoStorageFault env →
      ∃ entry, (logSync env operationId status response error st).1 = Except.ok entry) ∧
    (∀ entry, (logSync env operationId status response error st).1 = Except.ok entry →
      (logSync env operationId status response error st).2.db.syncLog =
        st.db.syncLog ++ [entry] ∧
      entry.operationId = operationId ∧ entry.status = status ∧
      entry.timestamp = env.dateNow st.clockReads ∧ entry.response = response ∧
      entry.error = error.map JsError.toString ∧
      (logSync env operationId status response error st).2.db.pendingOperations =
        st.db.pendingOperations ∧
      (logSync env operationId status response error st).2.db.localDrafts =
        st.db.localDrafts ∧
      (logSync env operationId status response error st).2.db.pendingNextKey =
        st.db.pendingNextKey) ∧
    (∀ e, (logSync env operationId status response error st).1 = Except.error e →
      (logSync env operationId status response error st).2.db = st.db) := by
  refine ⟨fun hnf => ⟨_, by rw [logSync_noFault hnf]⟩, fun entry h => ?_, fun e h => ?_⟩
  · rcases logSync_cases env operationId status response error st with
      ⟨e, he, -, -⟩ | ⟨hres, hdb⟩
    · rw [he] at h; cases h
    · rw [hres] at h
      simp only [Except.ok.injEq] at h
      subst h
      rw [hdb]
      exact ⟨rfl, rfl, rfl, rfl, rfl, rfl, rfl, rfl, rfl⟩
  · rcases logSync_cases env operationId status response error st with
      ⟨e', -, hdb, -⟩ | ⟨hres, -⟩
    · exact hdb
    · rw [hres] at h; cases h

/-! ## The status `synced` and the order of log and delete -/

theorem withStatus_id (r : Operation) (status : String) (error : Option String) (now : Nat) :
    (withStatus r status error now).id = r.id := rfl

/-- The queue and the log after a `syncOperation`, no storage request being
rejected, for any operation object: nothing changes when no record has its
key; otherwise the record `r` under its key is put back as `syncing`, and
then, if the execution succeeds, put back as `synced`, logged and deleted,
and if it fails, put back as `failed` or as `pending` by the retry rule. -/
theorem syncOperation_noFault_queue {env : Env} (hfault : NoStorageFault env)
    (operation : Operation) (st : World) :
    (getByKey operation.id st.db.pendingOperations = none ∧
      (syncOperation env operation st).2.db = st.db) ∨
    (∃ r, getByKey operation.id st.db.pendingOperations = some r ∧
      ((∃ response, (executeOperation env operation st).1 = Except.ok response ∧
          (syncOperation env operation st).1 = Except.ok response ∧
          (syncOperation env operation st).2.db.pendingOperations =
            deleteByKey operation.id
              (putByKey (withStatus (withStatus r SYNC_STATUS.SYNCING none
                  (env.dateNow st.clockReads)) SYNC_STATUS.SYNCED none
                  (env.dateNow (st.clockReads + 1)))
                (putByKey (withStatus r SYNC_STATUS.SYNCING none (env.dateNow st.clockReads))
                  st.db.pendingOperations)) ∧
          (syncOperation env operation st).2.db.syncLog = st.db.syncLog ++
            [logEntryOf st.db.syncLogNextKey operation.id SYNC_STATUS.SYNCED
              (some response) none (env.dateNow (st.clockReads + 2))]) ∨
        (∃ error, (executeOperation env operation st).1 = Except.error error ∧
          (syncOperation env operation st).1 = Except.error error ∧
          (syncOperation env operation st).2.db.pendingOperations =
            putByKey (withStatus (withStatus r SYNC_STATUS.SYNCING none
                (env.dateNow st.clockReads))
                (if operation.retries + 1 ≥ operation.maxRetries then SYNC_STATUS.FAILED
                  else SYNC_STATUS.PENDING)
                (if operation.retries + 1 ≥ operation.maxRetries then some error.message
                  else none)
                (env.dateNow (st.clockReads + 1)))
              (putByKey (withStatus r SYNC_STATUS.SYNCING none (env.dateNow st.clockReads))
                st.db.pendingOperations)))) := by
  cases hg : getByKey operation.id st.db.pendingOperations with
  | none =>
    refine Or.inl ⟨rfl, ?_⟩
    unfold syncOperation
    rw [updateOperationStatus_noFault hfault, hg]
    rfl
  | some r =>
    refine Or.inr ⟨r, rfl, ?_⟩
    have hrid : r.id = operation.id := getByKey_id _ _ _ hg
    unfold syncOperation
    rw [updateOperationStatus_noFault hfault, hg]
    simp only
    generalize hst₁ : withPending _ (clockRead (touch 2 st)) = st₁
    have hreq : st₁.requests = st.requests := by rw [← hst₁]; rfl
    have hlog₁ : st₁.db.syncLog = st.db.syncLog := by rw [← hst₁]; rfl
    have hkey₁ : st₁.db.syncLogNextKey = st.db.syncLogNextKey := by rw [← hst₁]; rfl
    have hclock₁ : st₁.clockReads = st.clockReads + 1 := by rw [← hst₁]; rfl
    have hpend₁ : st₁.db.pendingOperations =
        putByKey (withStatus r SYNC_STATUS.SYNCING none (env.dateNow st.clockReads))
          st.db.pendingOperations := by rw [← hst₁]; rfl
    have hdb₁ : getByKey operation.id st₁.db.pendingOperations =
        some (withStatus r SYNC_STATUS.SYNCING none (env.dateNow st.clockReads)) := by
      rw [hpend₁, ← hrid]
      exact getByKey_putByKey_self
        (withStatus r SYNC_STATUS.SYNCING none (env.dateNow st.clockReads))
        st.db.pendingOperations
    have hx : executeOperation env operation st₁ =
        ((executeOperation env operation st).1,
          { st₁ with executed := st₁.executed ++ [operation],
                     requests := st₁.requests ++ requestsOf env operation }) := by
      apply Prod.ext
      · exact executeOperation_result env operation st st₁ hreq
      · exact executeOperation_effect env operation st₁
    unfold syncOperationTry
    rw [hx]
    cases hexec : (executeOperation env operation st).1 with
    | ok response =>
      refine Or.inl ⟨response, rfl, ?_⟩
      simp only
      rw [updateOperationStatus_noFault hfault]
      simp only [hdb₁]
      rw [logSync_noFault hfault]
      simp only
      rw [deleteOperation_noFault hfault]
      simp only [notifySyncStatusChange_db]
      refine ⟨trivial, ?_, ?_⟩
      · simp [withPending, withLogged, clockRead, touch, hpend₁, hclock₁]
      · simp [withPending, withLogged, clockRead, touch, hlog₁, hkey₁, hclock₁]
    | error error =>
      refine Or.inr ⟨error, rfl, ?_⟩
      simp only
      unfold syncOperationCatch
      simp only
      by_cases hmax : operation.retries + 1 ≥ operation.maxRetries
      · rw [if_pos hmax, if_pos hmax, if_pos hmax]
        rw [updateOperationStatus_noFault hfault]
        simp only [hdb₁]
        rw [logSync_noFault hfault]
        simp only [notifySyncStatusChange_db]
        refine ⟨trivial, ?_⟩
        simp [withPending, withLogged, clockRead, touch, hpend₁, hclock₁]
      · rw [if_neg hmax, if_neg hmax, if_neg hmax]
        rw [updateOperationStatus_noFault hfault]
        simp only [hdb₁]
        refine ⟨trivial, ?_⟩
        simp [withPending, clockRead, touch, hpend₁, hclock₁]

theorem hasKey_of_pending {k : Nat} {st st' : World}
    (h : st'.db.pendingOperations = st.db.pendingOperations) (hk : HasKey k st) :
    HasKey k st' := by
  unfold HasKey at hk ⊢
  rw [h]
  exact hk

theorem hasKey_of_db {k : Nat} {st st' : World} (h : st'.db = st.db) (hk : HasKey k st) :
    HasKey k st' :=
  hasKey_of_pending (by rw [h]) hk

theorem getByKey_ne_none_of_hasKey {k : Nat} {st : World} (hk : HasKey k st) :
    getByKey k st.db.pendingOperations ≠ none := by
  obtain ⟨r, hr, hid⟩ := hk
  intro hnone
  exact (getByKey_eq_none_iff k _).mp hnone r hr hid

/-- A status update for a key of the queue, whatever the environment does:
the key stays in the queue, the log is untouched, and an error is that of a
rejected storage request. -/
theorem updateOperationStatus_step (env : Env) (k : Nat) (status : String)
    (error : Option String) (st : World) (hk : HasKey k st) :
    HasKey k (updateOperationStatus env k status error st).2 ∧
    (updateOperationStatus env k status error st).2.db.syncLog = st.db.syncLog ∧
    ∀ e, (updateOperationStatus env k status error st).1 = Except.error e →
      ∃ n, env.storageFault n = some e := by
  rcases updateOperationStatus_cases env k status error st with
    ⟨e, he, hdb, hwhy⟩ | ⟨r, now, hr, hres, hdb⟩
  · refine ⟨hasKey_of_db hdb hk, by rw [hdb], fun e' he' => ?_⟩
    rw [he] at he'
    simp only [Except.error.injEq] at he'
    subst he'
    rcases hwhy with ⟨-, hnone⟩ | hfault
    · exact absurd hnone (getByKey_ne_none_of_hasKey hk)
    · exact hfault
  · refine ⟨?_, by rw [hdb], fun e' he' => ?_⟩
    · have hid : (withStatus r status error now).id = k := getByKey_id k _ r hr
      refine ⟨withStatus r status error now, ?_, hid⟩
      rw [hdb]
      apply mem_of_getByKey k
      rw [← hid]
      exact getByKey_putByKey_self _ _
    · rw [hres] at he'; cases he'

/-- The `catch` block of `syncOperation` for a key of the queue, whatever the
environment does: it rejects, with the error it caught or with the error of a
rejected storage request, and the key stays in the queue. -/
theorem syncOperationCatch_step (env : Env) (operation : Operation) (error : JsError)
    (st : World) (hk : HasKey operation.id st) :
    HasKey operation.id (syncOperationCatch env operation error st).2 ∧
    ∃ e, (syncOperationCatch env operation error st).1 = Except.error e ∧
      (e = error ∨ ∃ n, env.storageFault n = some e) := by
  unfold syncOperationCatch
  simp only
  split
  · have h₁ := updateOperationStatus_step env operation.id SYNC_STATUS.FAILED
      (some error.message) st hk
    split
    · rename_i e st₁ h; rw [h] at h₁
      exact ⟨h₁.1, e, rfl, Or.inr (h₁.2.2 e rfl)⟩
    · rename_i o st₁ h; rw [h] at h₁
      rcases logSync_cases env operation.id SYNC_STATUS.FAILED none (some error) st₁ with
        ⟨e, he, hdb, hwhy⟩ | ⟨hres, hdb⟩
      · split
        · rename_i e' st₂ h'; rw [h'] at he hdb
          simp only [Except.error.injEq] at he
          subst he
          exact ⟨hasKey_of_db hdb h₁.1, _, rfl, Or.inr hwhy⟩
        · rename_i e' st₂ h'; rw [h'] at he; cases he
      · split
        · rename_i e' st₂ h'; rw [h'] at hres; cases hres
        · rename_i e' st₂ h'; rw [h'] at hdb
          refine ⟨?_, error, rfl, Or.inl rfl⟩
          refine hasKey_of_pending ?_ h₁.1
          rw [notifySyncStatusChange_db, hdb]
  · have h₁ := updateOperationStatus_step env operation.id SYNC_STATUS.PENDING none st hk
    split
    · rename_i e st₁ h; rw [h] at h₁
      exact ⟨h₁.1, e, rfl, Or.inr (h₁.2.2 e rfl)⟩
    · rename_i o st₁ h; rw [h] at h₁
      exact ⟨h₁.1, error, rfl, Or.inl rfl⟩

/-- The `try` block of `syncOperation` for a key of the queue, whatever the
environment does. Either the execution succeeds and the block resolves with
its response: then no record has the key any more and the log has one more
entry, the `synced` entry of the operation. Or the block rejects, with the
error of the execution or with that of a rejected storage request, and the
key is still in the queue. -/
theorem syncOperationTry_step (env : Env) (operation : Operation) (st : World)
    (hk : HasKey operation.id st) :
    (∃ response, (executeOperation env operation st).1 = Except.ok response ∧
      (syncOperationTry env operation st).1 = Except.ok response ∧
      (∀ o ∈ (syncOperationTry env operation st).2.db.pendingOperations,
        o.id ≠ operation.id) ∧
      ∃ entry, (syncOperationTry env operation st).2.db.syncLog = st.db.syncLog ++ [entry] ∧
        entry.operationId = operation.id ∧ entry.status = SYNC_STATUS.SYNCED ∧
        entry.response = some response) ∨
    (∃ e, (syncOperationTry env operation st).1 = Except.error e ∧
      HasKey operation.id (syncOperationTry env operation st).2 ∧
      ((executeOperation env operation st).1 = Except.error e ∨
        ∃ n, env.storageFault n = some e)) := by
  unfold syncOperationTry
  have hx : (executeOperation env operation st).2.db = st.db := by
    rw [executeOperation_effect]
  split
  · rename_i e st₁ h; rw [h] at hx
    exact Or.inr ⟨e, rfl, hasKey_of_db hx hk, Or.inl (by rw [h])⟩
  · rename_i response st₁ h; rw [h] at hx
    simp only at hx
    have hk₁ : HasKey operation.id st₁ := hasKey_of_db hx hk
    have h₁ := updateOperationStatus_step env operation.id SYNC_STATUS.SYNCED none st₁ hk₁
    split
    · rename_i e st₂ h'; rw [h'] at h₁
      exact Or.inr ⟨e, rfl, h₁.1, Or.inr (h₁.2.2 e rfl)⟩
    · rename_i o st₂ h'; rw [h'] at h₁
      obtain ⟨hk₂, hlog₂, -⟩ := h₁
      simp only at hk₂ hlog₂
      rcases logSync_cases env operation.id SYNC_STATUS.SYNCED (some response) none st₂ with
        ⟨e, he, hdb, hwhy⟩ | ⟨hres, hdb⟩
      · split
        · rename_i e' st₃ h''; rw [h''] at he hdb
          simp only [Except.error.injEq] at he
          subst he
          exact Or.inr ⟨_, rfl, hasKey_of_db hdb hk₂, Or.inr hwhy⟩
        · rename_i e' st₃ h''; rw [h''] at he; cases he
      · split
        · rename_i e' st₃ h''; rw [h''] at hres; cases hres
        · rename_i entry st₃ h''; rw [h''] at hdb
          simp only at hdb
          have hk₃ : HasKey operation.id st₃ := hasKey_of_pending (by rw [hdb]) hk₂
          rcases deleteOperation_cases env operation.id st₃ with
            ⟨e, he, hdb', hwhy⟩ | ⟨hres', hdb'⟩
          · split
            · rename_i e' st₄ h₄; rw [h₄] at he hdb'
              simp only [Except.error.injEq] at he
              subst he
              exact Or.inr ⟨_, rfl, hasKey_of_db hdb' hk₃, Or.inr hwhy⟩
            · rename_i u st₄ h₄; rw [h₄] at he; cases he
          · split
            · rename_i e' st₄ h₄; rw [h₄] at hres'; cases hres'
            · rename_i u st₄ h₄; rw [h₄] at hdb'
              simp only at hdb'
              refine Or.inl ⟨response, by rw [h], rfl, ?_, ?_⟩
              · intro o ho
                simp only [notifySyncStatusChange_db, hdb'] at ho
                exact id_ne_of_mem_deleteByKey _ _ _ ho
              · refine ⟨logEntryOf st₂.db.syncLogNextKey operation.id SYNC_STATUS.SYNCED
                  (some response) none (env.dateNow st₂.clockReads), ?_, rfl, rfl, rfl⟩
                simp only [notifySyncStatusChange_db, hdb', hdb, hlog₂, hx]

/-- One `syncOperation` for a key of the queue, whatever the environment
does. Either the execution succeeds and the call resolves with its response:
then no record has the key any more and the log has one more entry, the
`synced` entry of the operation. Or the call rejects, with the error of the
execution or with that of a rejected storage request, and the key is still in
the queue. -/
theorem syncOperation_cases (env : Env) (operation : Operation) (st : World)
    (hk : HasKey operation.id st) :
    (∃ response, (executeOperation env operation st).1 = Except.ok response ∧
      (syncOperation env operation st).1 = Except.ok response ∧
      (∀ o ∈ (syncOperation env operation st).2.db.pendingOperations,
        o.id ≠ operation.id) ∧
      ∃ entry, (syncOperation env operation st).2.db.syncLog = st.db.syncLog ++ [entry] ∧
        entry.operationId = operation.id ∧ entry.status = SYNC_STATUS.SYNCED ∧
        entry.response = some response) ∨
    (∃ e, (syncOperation env operation st).1 = Except.error e ∧
      HasKey operation.id (syncOperation env operation st).2 ∧
      ((executeOperation env operation st).1 = Except.error e ∨
        ∃ n, env.storageFault n = some e)) := by
  unfold syncOperation
  have h₁ := updateOperationStatus_step env operation.id SYNC_STATUS.SYNCING none st hk
  have hframe := updateOperationStatus_frame env operation.id (fun _ => True)
    SYNC_STATUS.SYNCING none st trivial
  split
  · rename_i e st₁ h; rw [h] at h₁
    exact Or.inr ⟨e, rfl, h₁.1, Or.inr (h₁.2.2 e rfl)⟩
  · rename_i o st₁ h; rw [h] at h₁ hframe
    obtain ⟨hk₁, hlog₁, -⟩ := h₁
    simp only at hk₁ hlog₁
    have hreq : st₁.requests = st.requests := hframe.2.2.1
    have hres := executeOperation_result env operation st st₁ hreq
    rcases syncOperationTry_step env operation st₁ hk₁ with
      ⟨response, hexec, htry, habsent, entry, hlog, hentry⟩ | ⟨e, htry, hk₂, hwhy⟩
    · split
      · rename_i response' st₂ h'; rw [h'] at htry habsent hlog
        simp only [Except.ok.injEq] at htry
        subst htry
        exact Or.inl ⟨response', by rw [← hres, hexec], rfl, habsent, entry,
          by rw [hlog, hlog₁], hentry⟩
      · rename_i e' st₂ h'; rw [h'] at htry; cases htry
    · split
      · rename_i response' st₂ h'; rw [h'] at htry; cases htry
      · rename_i e' st₂ h'; rw [h'] at htry hk₂
        simp only [Except.error.injEq] at htry
        subst htry
        obtain ⟨hk₃, e'', hcatch, hwhy'⟩ := syncOperationCatch_step env operation e' st₂ hk₂
        refine Or.inr ⟨e'', hcatch, hk₃, ?_⟩
        rcases hwhy' with rfl | hfault
        · rcases hwhy with hx | hfault
          · exact Or.inl (by rw [← hres, hx])
          · exact Or.inr hfault
        · exact Or.inr hfault

theorem syncAllLoop_invariant (env : Env) (Q : List Operation → Prop)
    (hstep : ∀ op st, Q st.db.pendingOperations →
      Q (syncOperation env op st).2.db.pendingOperations)
    (ops : List Operation) (st : World) (h : Q st.db.pendingOperations) :
    Q (syncAllLoop env ops st).db.pendingOperations := by
  induction ops generalizing st with
  | nil => exact h
  | cons op rest ih =>
    unfold syncAllLoop
    exact ih _ (hstep op st h)

/-- A property of the queue that every `syncOperation` keeps is kept by
`syncAll`, whatever the environment does: nothing else in a pass writes to
the queue. -/
theorem syncAll_invariant (env : Env) (Q : List Operation → Prop)
    (hstep : ∀ op st, Q st.db.pendingOperations →
      Q (syncOperation env op st).2.db.pendingOperations)
    (st : World) (h : Q st.db.pendingOperations) :
    Q (syncAll env st).2.db.pendingOperations := by
  unfold syncAll
  split
  · exact h
  · simp only
    generalize hst₀ : notifySyncStatusChange env (SyncEvent.aggregate true 0 none)
      { st with isSyncing := true } = st₀
    have hdb₀ : st₀.db = st.db := by rw [← hst₀, notifySyncStatusChange_db]
    have h₀ : Q st₀.db.pendingOperations := by rw [hdb₀]; exact h
    show Q (syncAllTry env st₀).2.db.pendingOperations
    unfold syncAllTry
    have hdb₁ := getPendingOperations_db env { status := some SYNC_STATUS.PENDING } st₀
    split
    · rename_i e st₁ hq; rw [hq] at hdb₁
      simp only at hdb₁
      rw [hdb₁]; exact h₀
    · rename_i ops st₁ hq; rw [hq] at hdb₁
      simp only at hdb₁
      have h₁ : Q st₁.db.pendingOperations := by rw [hdb₁]; exact h₀
      have h₂ := syncAllLoop_invariant env Q hstep ops st₁ h₁
      unfold dateNow
      simp only
      generalize hst₃ : ({ syncAllLoop env ops st₁ with
        clockReads := (syncAllLoop env ops st₁).clockReads + 1,
        lastSyncTime := some (env.dateNow (syncAllLoop env ops st₁).clockReads) } : World) = st₃
      have h₃ : Q st₃.db.pendingOperations := by rw [← hst₃]; exact h₂
      have hdb₄ := getStats_db env st₃
      split
      · rename_i e st₄ hs; rw [hs] at hdb₄
        simp only at hdb₄
        rw [hdb₄]; exact h₃
      · rename_i stats st₄ hs; rw [hs] at hdb₄
        simp only at hdb₄
        simp only [notifySyncStatusChange_db]
        rw [hdb₄]; exact h₃

theorem syncOperation_noFault_noSynced {env : Env} (hfault : NoStorageFault env)
    (operation : Operation) (st : World)
    (hnone : ∀ r ∈ st.db.pendingOperations, r.status ≠ SYNC_STATUS.SYNCED) :
    ∀ r ∈ (syncOperation env operation st).2.db.pendingOperations,
      r.status ≠ SYNC_STATUS.SYNCED := by
  intro r' hr'
  rcases syncOperation_noFault_queue hfault operation st with
    ⟨-, hdb⟩ | ⟨r, hr, ⟨response, -, -, hq, -⟩ | ⟨error, -, -, hq⟩⟩
  · rw [hdb] at hr'
    exact hnone r' hr'
  · rw [hq] at hr'
    have hne := id_ne_of_mem_deleteByKey _ _ _ hr'
    have hid : r.id = operation.id := getByKey_id _ _ _ hr
    rcases mem_putByKey _ _ _ (mem_of_mem_deleteByKey _ _ _ hr') with rfl | h₁
    · exact absurd hid hne
    · rcases mem_putByKey _ _ _ h₁ with rfl | h₂
      · exact absurd hid hne
      · exact hnone r' h₂
  · rw [hq] at hr'
    rcases mem_putByKey _ _ _ hr' with rfl | h₁
    · show (if operation.retries + 1 ≥ operation.maxRetries then SYNC_STATUS.FAILED
        else SYNC_STATUS.PENDING) ≠ SYNC_STATUS.SYNCED
      split <;> decide
    · rcases mem_putByKey _ _ _ h₁ with rfl | h₂
      · show SYNC_STATUS.SYNCING ≠ SYNC_STATUS.SYNCED
        decide
      · exact hnone r' h₂

/-- C21, counterexample: the create of `queuedCreate` is accepted by the
server, and storage rejects the `add` of `logSync` and then the write of the
status update in the `catch` block. No operation is `synced` before, the
operation is `synced` in the queue after the `syncOperation`, with nothing in
the log, and a later pass without any fault leaves it there; the same with
the faults falling in a `syncAll` pass. -/
theorem syncOperation_storage_faults_leave_synced :
    (∀ r ∈ queuedCreate.db.pendingOperations, r.status ≠ SYNC_STATUS.SYNCED) ∧
    retryView (syncOperation logAndPutFaultEnv createRecord queuedCreate).2 =
      [(1, "synced", 0, 3)] ∧
    (syncOperation logAndPutFaultEnv createRecord queuedCreate).2.db.syncLog = [] ∧
    retryView (syncAll acceptingEnv
      (syncOperation logAndPutFaultEnv createRecord queuedCreate).2).2 =
        [(1, "synced", 0, 3)] ∧
    retryView (syncAll passLogAndPutFaultEnv queuedCreate).2 = [(1, "synced", 0, 3)] := by
  decide

/-- C21, amended: if no operation of the queue is `synced` before a
`syncOperation` or a `syncAll()` pass during which no storage request is
rejected, then none is `synced` after it, whatever the executions do. And in
every environment, storage faults included, a `syncOperation` that removes
the key of its operation from the queue has appended the `synced` entry of
that operation to the log: the delete comes after the log write. -/
theorem sync_leaves_no_synced (env : Env) (operation : Operation) (st : World)
    (hnone : ∀ r ∈ st.db.pendingOperations, r.status ≠ SYNC_STATUS.SYNCED) :
    (NoStorageFault env →
      (∀ r ∈ (syncOperation env operation st).2.db.pendingOperations,
        r.status ≠ SYNC_STATUS.SYNCED) ∧
      (∀ r ∈ (syncAll env st).2.db.pendingOperations, r.status ≠ SYNC_STATUS.SYNCED)) ∧
    (HasKey operation.id st → ¬ HasKey operation.id (syncOperation env operation st).2 →
      ∃ entry,
        (syncOperation env operation st).2.db.syncLog = st.db.syncLog ++ [entry] ∧
        entry.operationId = operation.id ∧ entry.status = SYNC_STATUS.SYNCED) := by
  refine ⟨fun hfault => ⟨syncOperation_noFault_noSynced hfault operation st hnone, ?_⟩,
    fun hk hgone => ?_⟩
  · exact syncAll_invariant env (fun ops => ∀ r ∈ ops, r.status ≠ SYNC_STATUS.SYNCED)
      (fun op st' h => syncOperation_noFault_noSynced hfault op st' h) st hnone
  · rcases syncOperation_cases env operation st hk with
      ⟨response, -, -, -, entry, hlog, hid, hstatus, -⟩ | ⟨e, -, hk', -⟩
    · exact ⟨entry, hlog, hid, hstatus⟩
    · exact absurd hk' hgone

/-- The pass on the queue of the round trip scenario with an accepting
server and no storage fault: the create is logged as `synced` and the queue
is empty afterwards. -/
theorem sync_leaves_no_synced_witness :
    (∀ r ∈ queuedCreate.db.pendingOperations, r.status ≠ SYNC_STATUS.SYNCED) ∧
    (∀ r ∈ (syncAll acceptingEnv queuedCreate).2.db.pendingOperations,
      r.status ≠ SYNC_STATUS.SYNCED) ∧
    (syncAll acceptingEnv queuedCreate).2.db.pendingOperations = [] ∧
    (syncAll acceptingEnv queuedCreate).2.db.syncLog.map
      (fun entry => (entry.operationId, entry.status)) = [(1, "synced")] :=
  ⟨by decide,
   ((sync_leaves_no_synced acceptingEnv createRecord queuedCreate (by decide)).1
      (fun _ => rfl)).2,
   by decide, by decide⟩

/-! ## Drafts -/

theorem getDraftByKey_cons (k : String) (x : Draft) (xs : List Draft) :
    getDraftByKey k (x :: xs) = if x.id = k then some x else getDraftByKey k xs := by
  unfold getDraftByKey
  by_cases h : x.id = k <;> simp [List.find?_cons, h]

theorem getDraftByKey_putDraft_self (d : Draft) (l : List Draft) :
    getDraftByKey d.id (putDraft d l) = some d := by
  induction l with
  | nil => simp [putDraft, getDraftByKey_cons]
  | cons x xs ih =>
    unfold putDraft
    by_cases hx : x.id = d.id
    · rw [if_pos hx, getDraftByKey_cons, if_pos rfl]
    · rw [if_neg hx, getDraftByKey_cons, if_neg hx, ih]

theorem getDraftByKey_putDraft_of_ne (k : String) (d : Draft) (l : List Draft)
    (hne : k ≠ d.id) : getDraftByKey k (putDraft d l) = getDraftByKey k l := by
  induction l with
  | nil => simp [putDraft, getDraftByKey_cons, Ne.symm hne]
  | cons x xs ih =>
    unfold putDraft
    by_cases hx : x.id = d.id
    · rw [if_pos hx, getDraftByKey_cons, getDraftByKey_cons, if_neg (Ne.symm hne),
        if_neg (by rw [hx]; exact Ne.symm hne)]
    · rw [if_neg hx, getDraftByKey_cons, getDraftByKey_cons, ih]

theorem putDraft_putDraft (d₁ d₂ : Draft) (l : List Draft) (hid : d₁.id = d₂.id) :
    putDraft d₂ (putDraft d₁ l) = putDraft d₂ l := by
  induction l with
  | nil => simp [putDraft, hid]
  | cons x xs ih =>
    by_cases hx : x.id = d₁.id
    · have hx₂ : x.id = d₂.id := hx.trans hid
      simp [putDraft, hx, hx₂, hid]
    · have hx₂ : ¬ x.id = d₂.id := fun h => hx (h.trans hid.symm)
      simp [putDraft, hx, hx₂, ih]

theorem getDraftByKey_deleteDraftByKey_self (k : String) (l : List Draft) :
    getDraftByKey k (deleteDraftByKey k l) = none := by
  unfold getDraftByKey deleteDraftByKey
  rw [List.find?_eq_none]
  intro x hx
  have := (List.mem_filter.mp hx).2
  simpa using this

theorem getDraftByKey_deleteDraftByKey_of_ne (k k' : String) (l : List Draft)
    (hne : k ≠ k') : getDraftByKey k (deleteDraftByKey k' l) = getDraftByKey k l := by
  induction l with
  | nil => rfl
  | cons x xs ih =>
    unfold deleteDraftByKey at ih ⊢
    by_cases hx : x.id = k'
    · have hxk : ¬ x.id = k := fun h => hne (h.symm.trans hx)
      simp only [List.filter_cons, hx, bne_self_eq_false, Bool.false_eq_true, if_false]
      rw [ih, getDraftByKey_cons, if_neg (by rw [hx]; exact Ne.symm hne)]
    · have : (x.id != k') = true := by simpa using hx
      simp only [List.filter_cons, this, if_true]
      rw [getDraftByKey_cons, getDraftByKey_cons, ih]

/-- What `saveDraft` does, for every environment: it fails and leaves the
database as it was, or it resolves with the draft it built and has put. -/
theorem saveDraft_cases (env : Env) (draftId : String) (data : JsObject) (st : World) :
    (∃ e, (saveDraft env draftId data st).1 = Except.error e ∧
      (saveDraft env draftId data st).2.db = st.db) ∨
    ((saveDraft env draftId data st).1 =
        Except.ok { id := draftId, data := data, savedAt := env.dateNow st.clockReads } ∧
      (saveDraft env draftId data st).2.db =
        { st.db with
          localDrafts := putDraft
            { id := draftId, data := data, savedAt := env.dateNow st.clockReads }
            st.db.localDrafts }) := by
  unfold saveDraft
  have hi := init_db env st
  have hc := init_clockReads env st
  split
  · rename_i e st₁ h; rw [h] at hi
    exact Or.inl ⟨e, rfl, hi⟩
  · rename_i st₁ h; rw [h] at hi hc
    simp only at hi hc
    unfold dbRequest dateNow
    simp only
    split
    · rename_i e st₂ h; simp only [Prod.mk.injEq] at h; obtain ⟨-, rfl⟩ := h
      exact Or.inl ⟨e, rfl, hi⟩
    · rename_i st₂ h; simp only [Prod.mk.injEq] at h; obtain ⟨-, rfl⟩ := h
      refine Or.inr ⟨by rw [hc], ?_⟩
      show ({ st₁.db with localDrafts := _ } : Db) = _
      rw [hi, hc]

/-- What `getDraft` does, for every environment: the database is as it was,
and when it resolves the result is what the store holds under the key. -/
theorem getDraft_cases (env : Env) (draftId : String) (st : World) :
    (getDraft env draftId st).2.db = st.db ∧
    ∀ found, (getDraft env draftId st).1 = Except.ok found →
      found = getDraftByKey draftId st.db.localDrafts := by
  unfold getDraft
  have hi := init_db env st
  split
  · rename_i e st₁ h; rw [h] at hi
    exact ⟨hi, fun found hf => by cases hf⟩
  · rename_i st₁ h; rw [h] at hi
    simp only at hi
    unfold dbRequest
    split
    · rename_i e st₂ h; simp only [Prod.mk.injEq] at h; obtain ⟨-, rfl⟩ := h
      exact ⟨hi, fun found hf => by cases hf⟩
    · rename_i st₂ h; simp only [Prod.mk.injEq] at h; obtain ⟨-, rfl⟩ := h
      refine ⟨hi, fun found hf => ?_⟩
      simp only [Except.ok.injEq] at hf
      rw [← hf, hi]

/-- What `deleteDraft` does, for every environment: it fails and leaves the
database as it was, or it resolves and the drafts with the key are gone. -/
theorem deleteDraft_cases (env : Env) (draftId : String) (st : World) :
    (∃ e, (deleteDraft env draftId st).1 = Except.error e ∧
      (deleteDraft env draftId st).2.db = st.db) ∨
    ((deleteDraft env draftId st).1 = Except.ok () ∧
      (deleteDraft env draftId st).2.db =
        { st.db with localDrafts := deleteDraftByKey draftId st.db.localDrafts }) := by
  unfold deleteDraft
  have hi := init_db env st
  split
  · rename_i e st₁ h; rw [h] at hi
    exact Or.inl ⟨e, rfl, hi⟩
  · rename_i st₁ h; rw [h] at hi
    simp only at hi
    unfold dbRequest
    split
    · rename_i e st₂ h; simp only [Prod.mk.injEq] at h; obtain ⟨-, rfl⟩ := h
      exact Or.inl ⟨e, rfl, hi⟩
    · rename_i st₂ h; simp only [Prod.mk.injEq] at h; obtain ⟨-, rfl⟩ := h
      refine Or.inr ⟨rfl, ?_⟩
      show ({ st₁.db with localDrafts := _ } : Db) = _
      rw [hi]

theorem saveDraft_noFault {env : Env} (h : NoStorageFault env) (draftId : String)
    (data : JsObject) (st : World) :
    ∃ draft, (saveDraft env draftId data st).1 = Except.ok draft := by
  unfold saveDraft
  rw [init_noFault h]
  simp only [dateNow, dbRequest, h _]
  exact ⟨_, rfl⟩

theorem getDraft_noFault {env : Env} (h : NoStorageFault env) (draftId : String)
    (st : World) : ∃ found, (getDraft env draftId st).1 = Except.ok found := by
  unfold getDraft
  rw [init_noFault h]
  simp only [dbRequest, h _]
  exact ⟨_, rfl⟩

theorem deleteDraft_noFault {env : Env} (h : NoStorageFault env) (draftId : String)
    (st : World) : (deleteDraft env draftId st).1 = Except.ok () := by
  unfold deleteDraft
  rw [init_noFault h]
  simp only [dbRequest, h _]

/-- C23: drafts are a key-value store of their own. With no storage request
rejected the three methods resolve. For every id and data, whenever
`saveDraft(id, data)` resolves, it resolves with a draft that has this id and
data, a following `getDraft(id)` that resolves returns that draft, and the
drafts under other ids are as before; a second `saveDraft` with the same id
that resolves replaces the first (the store is as if only the second had
been saved, and `getDraft(id)` returns the second). Whenever `deleteDraft(id)`
resolves, a following `getDraft(id)` that resolves returns no draft, and the
drafts under other ids are as before. Whatever their outcome, `saveDraft` and
`deleteDraft` leave the operation queue, the sync log and their key
generators unchanged. -/
theorem drafts_are_independent_key_value_store (env : Env) (draftId : String)
    (data data' : JsObject) (st : World) :
    (NoStorageFault env →
      (∃ draft, (saveDraft env draftId data st).1 = Except.ok draft) ∧
      (∃ found, (getDraft env draftId st).1 = Except.ok found) ∧
      (deleteDraft env draftId st).1 = Except.ok ()) ∧
    (∀ draft, (saveDraft env draftId data st).1 = Except.ok draft →
      draft.id = draftId ∧ draft.data = data ∧
      (∀ found, (getDraft env draftId (saveDraft env draftId data st).2).1 = Except.ok found →
        found = some draft) ∧
      (∀ k, k ≠ draftId →
        getDraftByKey k (saveDraft env draftId data st).2.db.localDrafts =
          getDraftByKey k st.db.localDrafts) ∧
      ∀ second,
        (saveDraft env draftId data' (saveDraft env draftId data st).2).1 =
          Except.ok second →
        second.id = draftId ∧ second.data = data' ∧
        (saveDraft env draftId data' (saveDraft env draftId data st).2).2.db.localDrafts =
          putDraft second st.db.localDrafts ∧
        ∀ found,
          (getDraft env draftId
            (saveDraft env draftId data' (saveDraft env draftId data st).2).2).1 =
              Except.ok found →
          found = some second) ∧
    ((deleteDraft env draftId st).1 = Except.ok () →
      (∀ found, (getDraft env draftId (deleteDraft env draftId st).2).1 = Except.ok found →
        found = none) ∧
      ∀ k, k ≠ draftId →
        getDraftByKey k (deleteDraft env draftId st).2.db.localDrafts =
          getDraftByKey k st.db.localDrafts) ∧
    ((saveDraft env draftId data st).2.db.pendingOperations = st.db.pendingOperations ∧
      (saveDraft env draftId data st).2.db.syncLog = st.db.syncLog ∧
      (saveDraft env draftId data st).2.db.pendingNextKey = st.db.pendingNextKey ∧
      (saveDraft env draftId data st).2.db.syncLogNextKey = st.db.syncLogNextKey) ∧
    ((deleteDraft env draftId st).2.db.pendingOperations = st.db.pendingOperations ∧
      (deleteDraft env draftId st).2.db.syncLog = st.db.syncLog ∧
      (deleteDraft env draftId st).2.db.pendingNextKey = st.db.pendingNextKey ∧
      (deleteDraft env draftId st).2.db.syncLogNextKey = st.db.syncLogNextKey) := by
  refine ⟨fun hnf => ⟨saveDraft_noFault hnf _ _ _, getDraft_noFault hnf _ _,
    deleteDraft_noFault hnf _ _⟩, fun draft hd => ?_, fun hdel => ?_, ?_, ?_⟩
  · rcases saveDraft_cases env draftId data st with ⟨e, he, -⟩ | ⟨hres, hdb⟩
    · rw [he] at hd; cases hd
    · rw [hres] at hd
      simp only [Except.ok.injEq] at hd
      subst hd
      refine ⟨rfl, rfl, fun found hf => ?_, fun k hk => ?_, fun second hs => ?_⟩
      · rw [(getDraft_cases env draftId _).2 found hf, hdb]
        exact getDraftByKey_putDraft_self
          { id := draftId, data := data, savedAt := env.dateNow st.clockReads } _
      · rw [hdb]
        exact getDraftByKey_putDraft_of_ne k _ _ hk
      · rcases saveDraft_cases env draftId data' (saveDraft env draftId data st).2 with
          ⟨e, he, -⟩ | ⟨hres', hdb'⟩
        · rw [he] at hs; cases hs
        · rw [hres'] at hs
          simp only [Except.ok.injEq] at hs
          subst hs
          refine ⟨rfl, rfl, ?_, fun found hf => ?_⟩
          · rw [hdb', hdb]
            exact putDraft_putDraft _ _ _ rfl
          · rw [(getDraft_cases env draftId _).2 found hf, hdb']
            exact getDraftByKey_putDraft_self
              { id := draftId, data := data',
                savedAt := env.dateNow (saveDraft env draftId data st).2.clockReads } _
  · rcases deleteDraft_cases env draftId st with ⟨e, he, -⟩ | ⟨-, hdb⟩
    · rw [he] at hdel; cases hdel
    · refine ⟨fun found hf => ?_, fun k hk => ?_⟩
      · rw [(getDraft_cases env draftId _).2 found hf, hdb]
        exact getDraftByKey_deleteDraftByKey_self draftId _
      · rw [hdb]
        exact getDraftByKey_deleteDraftByKey_of_ne k draftId _ hk
  · rcases saveDraft_cases env draftId data st with ⟨e, -, hdb⟩ | ⟨-, hdb⟩ <;>
      rw [hdb] <;> exact ⟨rfl, rfl, rfl, rfl⟩
  · rcases deleteDraft_cases env draftId st with ⟨e, -, hdb⟩ | ⟨-, hdb⟩ <;>
      rw [hdb] <;> exact ⟨rfl, rfl, rfl, rfl⟩

/-! ## Deleting and clearing -/

theorem deleteByKey_eq_self (k : Nat) (l : List Operation) (h : ∀ r ∈ l, r.id ≠ k) :
    deleteByKey k l = l := by
  unfold deleteByKey
  rw [List.filter_eq_self]
  intro r hr
  simpa using h r hr

/-- What `clearAll` does, for every environment: it fails and leaves the
database as it was, or it resolves and the three stores are empty. -/
theorem clearAll_cases (env : Env) (st : World) :
    (∃ e, (clearAll env st).1 = Except.error e ∧ (clearAll env st).2.db = st.db) ∨
    ((clearAll env st).1 = Except.ok () ∧
      (clearAll env st).2.db =
        { st.db with pendingOperations := [], syncLog := [], localDrafts := [] }) := by
  unfold clearAll
  have hi := init_db env st
  split
  · rename_i e st₁ h; rw [h] at hi
    exact Or.inl ⟨e, rfl, hi⟩
  · rename_i st₁ h; rw [h] at hi
    simp only at hi
    unfold dbRequest
    simp only
    split
    · rename_i e h
      exact Or.inl ⟨e, rfl, hi⟩
    · rename_i h
      refine Or.inr ⟨rfl, ?_⟩
      show ({ st₁.db with pendingOperations := _, syncLog := _, localDrafts := _ } : Db) = _
      rw [hi]

theorem clearAll_noFault {env : Env} (h : NoStorageFault env) (st : World) :
    (clearAll env st).1 = Except.ok () := by
  unfold clearAll
  rw [init_noFault h]
  simp only [dbRequest, h _]
  rfl

/-- C24: `deleteOperation(id)` and `clearAll()`. With no storage request
rejected both resolve, `deleteOperation` also when no operation has the key,
and then it leaves the queue as it was. Whenever `deleteOperation(id)`
resolves, the queue is the old queue without the records that have key `id`:
no queued operation has that key, every operation with another key is there
as before and in the same order, and nothing is added; the sync log, the
drafts and the key generators are unchanged. Whenever `clearAll()` resolves,
the queue, the sync log and the drafts are empty. A call that fails leaves
the database as it was. -/
theorem deleteOperation_removes_only_its_key (env : Env) (operationId : Nat) (st : World) :
    (NoStorageFault env →
      (deleteOperation env operationId st).1 = Except.ok () ∧
      (clearAll env st).1 = Except.ok () ∧
      ((∀ r ∈ st.db.pendingOperations, r.id ≠ operationId) →
        (deleteOperation env operationId st).2.db = st.db)) ∧
    ((deleteOperation env operationId st).1 = Except.ok () →
      (deleteOperation env operationId st).2.db.pendingOperations =
        st.db.pendingOperations.filter (fun r => r.id != operationId) ∧
      (∀ r ∈ (deleteOperation env operationId st).2.db.pendingOperations,
        r.id ≠ operationId) ∧
      (∀ r, r.id ≠ operationId →
        (r ∈ (deleteOperation env operationId st).2.db.pendingOperations ↔
          r ∈ st.db.pendingOperations)) ∧
      (deleteOperation env operationId st).2.db.syncLog = st.db.syncLog ∧
      (deleteOperation env operationId st).2.db.localDrafts = st.db.localDrafts ∧
      (deleteOperation env operationId st).2.db.pendingNextKey = st.db.pendingNextKey ∧
      (deleteOperation env operationId st).2.db.syncLogNextKey = st.db.syncLogNextKey) ∧
    ((clearAll env st).1 = Except.ok () →
      (clearAll env st).2.db.pendingOperations = [] ∧
      (clearAll env st).2.db.syncLog = [] ∧
      (clearAll env st).2.db.localDrafts = []) ∧
    (∀ e, (deleteOperation env operationId st).1 = Except.error e →
      (deleteOperation env operationId st).2.db = st.db) ∧
    (∀ e, (clearAll env st).1 = Except.error e → (clearAll env st).2.db = st.db) := by
  refine ⟨fun hnf => ⟨?_, clearAll_noFault hnf st, fun habsent => ?_⟩, fun hok => ?_,
    fun hok => ?_, fun e he => ?_, fun e he => ?_⟩
  · rw [deleteOperation_noFault hnf]
  · rcases deleteOperation_cases env operationId st with ⟨e, -, hdb, -⟩ | ⟨-, hdb⟩
    · exact hdb
    · rw [hdb, deleteByKey_eq_self operationId _ habsent]
  · rcases deleteOperation_cases env operationId st with ⟨e, he, -, -⟩ | ⟨-, hdb⟩
    · rw [he] at hok; cases hok
    · rw [hdb]
      refine ⟨rfl, fun r hr => id_ne_of_mem_deleteByKey _ _ _ hr, fun r hne => ?_,
        rfl, rfl, rfl, rfl⟩
      exact ⟨fun hr => mem_of_mem_deleteByKey _ _ _ hr,
        fun hr => mem_deleteByKey_of_ne _ _ _ hr hne⟩
  · rcases clearAll_cases env st with ⟨e, he, -⟩ | ⟨-, hdb⟩
    · rw [he] at hok; cases hok
    · rw [hdb]
      exact ⟨rfl, rfl, rfl⟩
  · rcases deleteOperation_cases env operationId st with ⟨e', -, hdb, -⟩ | ⟨hres, -⟩
    · exact hdb
    · rw [hres] at he; cases he
  · rcases clearAll_cases env st with ⟨e', -, hdb⟩ | ⟨hres, -⟩
    · exact hdb
    · rw [hres] at he; cases he

/-! ## Two runs that differ in the error of the execution -/

theorem getByKey_map_eraseError (k : Nat) (l : List Operation) :
    getByKey k (l.map eraseError) = (getByKey k l).map eraseError := by
  induction l with
  | nil => rfl
  | cons x xs ih =>
    rw [List.map_cons, getByKey_cons, getByKey_cons, ih]
    by_cases h : x.id = k
    · rw [if_pos (show (eraseError x).id = k from h), if_pos h]; rfl
    · rw [if_neg (show ¬ (eraseError x).id = k from h), if_neg h]

theorem putByKey_map_eraseError (op : Operation) (l : List Operation) :
    putByKey (eraseError op) (l.map eraseError) = (putByKey op l).map eraseError := by
  induction l with
  | nil => rfl
  | cons x xs ih =>
    rw [List.map_cons]
    unfold putByKey
    by_cases h : x.id = op.id
    · rw [if_pos (show (eraseError x).id = (eraseError op).id from h), if_pos h]; rfl
    · rw [if_neg (show ¬ (eraseError x).id = (eraseError op).id from h), if_neg h]
      by_cases hlt : op.id < x.id
      · rw [if_pos (show (eraseError op).id < (eraseError x).id from hlt), if_pos hlt]; rfl
      · rw [if_neg (show ¬ (eraseError op).id < (eraseError x).id from hlt), if_neg hlt,
          List.map_cons, ih]

theorem init_forgetErrors (env : Env) (st : World) :
    init env (forgetErrors st) = ((init env st).1, forgetErrors (init env st).2) := by
  unfold init dbRequest
  by_cases hi : st.isInitialized = true
  · rw [if_pos hi, if_pos (show (forgetErrors st).isInitialized = true from hi)]
  · rw [if_neg hi, if_neg (show ¬ (forgetErrors st).isInitialized = true from hi)]
    simp only [forgetErrors]
    cases env.storageFault st.storageCalls <;> rfl

theorem forgetErrors_storageCalls (st : World) :
    (forgetErrors st).storageCalls = st.storageCalls := rfl

theorem forgetErrors_clockReads (st : World) :
    (forgetErrors st).clockReads = st.clockReads := rfl

theorem forgetErrors_pending (st : World) :
    (forgetErrors st).db.pendingOperations = st.db.pendingOperations.map eraseError := rfl

theorem updateOperationStatus_forgetErrors (env : Env) (k : Nat) (status : String)
    (error : Option String) (st : World) :
    (updateOperationStatus env k status none (forgetErrors st)).2 =
      forgetErrors (updateOperationStatus env k status error st).2 ∧
    (updateOperationStatus env k status none (forgetErrors st)).1.isOk =
      (updateOperationStatus env k status error st).1.isOk := by
  unfold updateOperationStatus
  rw [init_forgetErrors]
  rcases hinit : init env st with ⟨res, st₁⟩
  cases res with
  | error e => exact ⟨rfl, rfl⟩
  | ok u =>
    simp only [dbRequest, dateNow, forgetErrors_storageCalls, forgetErrors_clockReads]
    cases hf : env.storageFault st₁.storageCalls with
    | some e => exact ⟨rfl, rfl⟩
    | none =>
      simp only [forgetErrors_pending, getByKey_map_eraseError]
      cases hg : getByKey k st₁.db.pendingOperations with
      | none => exact ⟨rfl, rfl⟩
      | some r =>
        simp only [Option.map_some']
        cases hf₂ : env.storageFault (st₁.storageCalls + 1) with
        | some e => exact ⟨rfl, rfl⟩
        | none =>
          simp only
          refine ⟨?_, rfl⟩
          simp only [forgetErrors, ← putByKey_map_eraseError]
          rfl

theorem forgetErrors_syncLog (st : World) :
    (forgetErrors st).db.syncLog = st.db.syncLog.map eraseLogError := rfl

theorem forgetErrors_syncLogNextKey (st : World) :
    (forgetErrors st).db.syncLogNextKey = st.db.syncLogNextKey := rfl

theorem logSync_forgetErrors (env : Env) (operationId : Nat) (status : String)
    (response : Option JsObject) (error : Option JsError) (st : World) :
    (logSync env operationId status response none (forgetErrors st)).2 =
      forgetErrors (logSync env operationId status response error st).2 ∧
    (logSync env operationId status response none (forgetErrors st)).1.isOk =
      (logSync env operationId status response error st).1.isOk := by
  unfold logSync
  rw [init_forgetErrors]
  rcases hinit : init env st with ⟨res, st₁⟩
  cases res with
  | error e => exact ⟨rfl, rfl⟩
  | ok u =>
    simp only [dbRequest, dateNow, forgetErrors_storageCalls, forgetErrors_clockReads]
    cases hf : env.storageFault st₁.storageCalls with
    | some e => exact ⟨rfl, rfl⟩
    | none =>
      simp only
      refine ⟨?_, rfl⟩
      simp only [forgetErrors, List.map_append, List.map_cons, List.map_nil]
      rfl

theorem updateOperationStatus_env {env₁ env₂ : Env}
    (hs : env₁.storageFault = env₂.storageFault) (hd : env₁.dateNow = env₂.dateNow)
    (k : Nat) (status : String) (error : Option String) (st : World) :
    updateOperationStatus env₁ k status error st =
      updateOperationStatus env₂ k status error st := by
  simp only [updateOperationStatus, init, dbRequest, dateNow, hs, hd]

theorem logSync_env {env₁ env₂ : Env}
    (hs : env₁.storageFault = env₂.storageFault) (hd : env₁.dateNow = env₂.dateNow)
    (operationId : Nat) (status : String) (response : Option JsObject)
    (error : Option JsError) (st : World) :
    logSync env₁ operationId status response error st =
      logSync env₂ operationId status response error st := by
  simp only [logSync, init, dbRequest, dateNow, hs, hd]

/-- Two status updates for the same key and status, in environments with the
same storage and clock and in worlds that differ only in error texts and
traces: both resolve or both fail, and the worlds still differ only so. -/
theorem updateOperationStatus_related {env₁ env₂ : Env}
    (hs : env₁.storageFault = env₂.storageFault) (hd : env₁.dateNow = env₂.dateNow)
    (k : Nat) (status : String) (error₁ error₂ : Option String) (st₁ st₂ : World)
    (h : forgetErrors st₁ = forgetErrors st₂) :
    forgetErrors (updateOperationStatus env₁ k status error₁ st₁).2 =
      forgetErrors (updateOperationStatus env₂ k status error₂ st₂).2 ∧
    (updateOperationStatus env₁ k status error₁ st₁).1.isOk =
      (updateOperationStatus env₂ k status error₂ st₂).1.isOk := by
  obtain ⟨a₁, b₁⟩ := updateOperationStatus_forgetErrors env₁ k status error₁ st₁
  obtain ⟨a₂, b₂⟩ := updateOperationStatus_forgetErrors env₂ k status error₂ st₂
  rw [← a₁, ← a₂, ← b₁, ← b₂, updateOperationStatus_env hs hd, h]
  exact ⟨rfl, rfl⟩

theorem logSync_related {env₁ env₂ : Env}
    (hs : env₁.storageFault = env₂.storageFault) (hd : env₁.dateNow = env₂.dateNow)
    (operationId : Nat) (status : String) (response : Option JsObject)
    (error₁ error₂ : Option JsError) (st₁ st₂ : World)
    (h : forgetErrors st₁ = forgetErrors st₂) :
    forgetErrors (logSync env₁ operationId status response error₁ st₁).2 =
      forgetErrors (logSync env₂ operationId status response error₂ st₂).2 ∧
    (logSync env₁ operationId status response error₁ st₁).1.isOk =
      (logSync env₂ operationId status response error₂ st₂).1.isOk := by
  obtain ⟨a₁, b₁⟩ := logSync_forgetErrors env₁ operationId status response error₁ st₁
  obtain ⟨a₂, b₂⟩ := logSync_forgetErrors env₂ operationId status response error₂ st₂
  rw [← a₁, ← a₂, ← b₁, ← b₂, logSync_env hs hd, h]
  exact ⟨rfl, rfl⟩

theorem notifySyncStatusChange_forgetErrors (env : Env) (data : SyncEvent) (st : World) :
    forgetErrors (notifySyncStatusChange env data st) = forgetErrors st := by
  rw [notifySyncStatusChange_eq]
  rfl

theorem executeOperation_forgetErrors (env : Env) (operation : Operation) (st : World) :
    forgetErrors (executeOperation env operation st).2 = forgetErrors st := by
  rw [executeOperation_effect]
  rfl

/-- The `catch` block of `syncOperation` run twice, for objects with the same
key, retries and `maxRetries`, with any two caught errors, in environments
with the same storage and clock and in worlds that differ only in error
texts and traces: the worlds still differ only so afterwards. -/
theorem syncOperationCatch_related {env₁ env₂ : Env}
    (hs : env₁.storageFault = env₂.storageFault) (hd : env₁.dateNow = env₂.dateNow)
    (op₁ op₂ : Operation) (hid : op₁.id = op₂.id) (hr : op₁.retries = op₂.retries)
    (hm : op₁.maxRetries = op₂.maxRetries) (e₁ e₂ : JsError) (st₁ st₂ : World)
    (h : forgetErrors st₁ = forgetErrors st₂) :
    forgetErrors (syncOperationCatch env₁ op₁ e₁ st₁).2 =
      forgetErrors (syncOperationCatch env₂ op₂ e₂ st₂).2 := by
  unfold syncOperationCatch
  simp only
  rw [hid, hr, hm]
  by_cases hmax : op₂.retries + 1 ≥ op₂.maxRetries
  · rw [if_pos hmax, if_pos hmax]
    obtain ⟨ha, hb⟩ := updateOperationStatus_related hs hd op₂.id SYNC_STATUS.FAILED
      (some e₁.message) (some e₂.message) st₁ st₂ h
    rcases h₁ : updateOperationStatus env₁ op₂.id SYNC_STATUS.FAILED (some e₁.message) st₁
      with ⟨res₁, t₁⟩
    rcases h₂ : updateOperationStatus env₂ op₂.id SYNC_STATUS.FAILED (some e₂.message) st₂
      with ⟨res₂, t₂⟩
    rw [h₁, h₂] at ha hb
    simp only at ha hb
    cases res₁ <;> cases res₂ <;> simp only [Except.isOk, Except.toBool] at hb
    · exact ha
    · exact absurd hb (by decide)
    · exact absurd hb (by decide)
    · simp only
      obtain ⟨hc, hd'⟩ := logSync_related hs hd op₂.id SYNC_STATUS.FAILED none
        (some e₁) (some e₂) t₁ t₂ ha
      rcases h₃ : logSync env₁ op₂.id SYNC_STATUS.FAILED none (some e₁) t₁ with ⟨res₃, u₁⟩
      rcases h₄ : logSync env₂ op₂.id SYNC_STATUS.FAILED none (some e₂) t₂ with ⟨res₄, u₂⟩
      rw [h₃, h₄] at hc hd'
      simp only at hc hd'
      cases res₃ <;> cases res₄ <;> simp only [Except.isOk, Except.toBool] at hd'
      · exact hc
      · exact absurd hd' (by decide)
      · exact absurd hd' (by decide)
      · simp only [notifySyncStatusChange_forgetErrors]
        exact hc
  · rw [if_neg hmax, if_neg hmax]
    obtain ⟨ha, hb⟩ := updateOperationStatus_related hs hd op₂.id SYNC_STATUS.PENDING
      none none st₁ st₂ h
    rcases h₁ : updateOperationStatus env₁ op₂.id SYNC_STATUS.PENDING none st₁ with ⟨res₁, t₁⟩
    rcases h₂ : updateOperationStatus env₂ op₂.id SYNC_STATUS.PENDING none st₂ with ⟨res₂, t₂⟩
    rw [h₁, h₂] at ha hb
    simp only at ha hb
    cases res₁ <;> cases res₂ <;> simp only [Except.isOk, Except.toBool] at hb
    · exact ha
    · exact absurd hb (by decide)
    · exact absurd hb (by decide)
    · exact ha

theorem syncOperationTry_of_error (env : Env) (operation : Operation) (st : World)
    (e : JsError) (h : (executeOperation env operation st).1 = Except.error e) :
    syncOperationTry env operation st = (Except.error e, (executeOperation env operation st).2) := by
  unfold syncOperationTry
  rcases hx : executeOperation env operation st with ⟨res, st₁⟩
  rw [hx] at h
  simp only at h
  subst h
  rfl

/-- Two runs of `syncOperation` whose executions both fail, for objects with
the same key, retries and `maxRetries`, in environments with the same storage
and clock and from worlds that differ only in error texts and traces: the
worlds differ only so afterwards. -/
theorem syncOperation_related {env₁ env₂ : Env}
    (hs : env₁.storageFault = env₂.storageFault) (hd : env₁.dateNow = env₂.dateNow)
    (op₁ op₂ : Operation) (hid : op₁.id = op₂.id) (hr : op₁.retries = op₂.retries)
    (hm : op₁.maxRetries = op₂.maxRetries) (e₁ e₂ : JsError) (st₁ st₂ : World)
    (h : forgetErrors st₁ = forgetErrors st₂)
    (hx₁ : (executeOperation env₁ op₁ st₁).1 = Except.error e₁)
    (hx₂ : (executeOperation env₂ op₂ st₂).1 = Except.error e₂) :
    forgetErrors (syncOperation env₁ op₁ st₁).2 =
      forgetErrors (syncOperation env₂ op₂ st₂).2 := by
  unfold syncOperation
  obtain ⟨ha, hb⟩ := updateOperationStatus_related hs hd op₂.id SYNC_STATUS.SYNCING
    none none st₁ st₂ h
  have hf₁ := updateOperationStatus_frame env₁ op₂.id (fun _ => True)
    SYNC_STATUS.SYNCING none st₁ trivial
  have hf₂ := updateOperationStatus_frame env₂ op₂.id (fun _ => True)
    SYNC_STATUS.SYNCING none st₂ trivial
  rw [hid]
  rcases h₁ : updateOperationStatus env₁ op₂.id SYNC_STATUS.SYNCING none st₁ with ⟨res₁, t₁⟩
  rcases h₂ : updateOperationStatus env₂ op₂.id SYNC_STATUS.SYNCING none st₂ with ⟨res₂, t₂⟩
  rw [h₁] at ha hb hf₁
  rw [h₂] at ha hb hf₂
  simp only at ha hb
  cases res₁ <;> cases res₂ <;> simp only [Except.isOk, Except.toBool] at hb
  · exact ha
  · exact absurd hb (by decide)
  · exact absurd hb (by decide)
  · simp only
    have hy₁ : (executeOperation env₁ op₁ t₁).1 = Except.error e₁ := by
      rw [executeOperation_result env₁ op₁ st₁ t₁ hf₁.2.2.1, hx₁]
    have hy₂ : (executeOperation env₂ op₂ t₂).1 = Except.error e₂ := by
      rw [executeOperation_result env₂ op₂ st₂ t₂ hf₂.2.2.1, hx₂]
    rw [syncOperationTry_of_error env₁ op₁ t₁ e₁ hy₁,
      syncOperationTry_of_error env₂ op₂ t₂ e₂ hy₂]
    simp only
    apply syncOperationCatch_related hs hd op₁ op₂ hid hr hm
    rw [executeOperation_forgetErrors, executeOperation_forgetErrors]
    exact ha

theorem syncOperationCatch_rejects (env : Env) (operation : Operation) (error : JsError)
    (st : World) : ∃ e, (syncOperationCatch env operation error st).1 = Except.error e := by
  unfold syncOperationCatch
  simp only
  split
  · split
    · exact ⟨_, rfl⟩
    · split <;> exact ⟨_, rfl⟩
  · split <;> exact ⟨_, rfl⟩

theorem syncOperation_rejects (env : Env) (operation : Operation) (st : World) (e : JsError)
    (hx : (executeOperation env operation st).1 = Except.error e) :
    ∃ e', (syncOperation env operation st).1 = Except.error e' := by
  unfold syncOperation
  have hf := updateOperationStatus_frame env operation.id (fun _ => True)
    SYNC_STATUS.SYNCING none st trivial
  split
  · exact ⟨_, rfl⟩
  · rename_i o st₁ h
    rw [h] at hf
    have hy : (executeOperation env operation st₁).1 = Except.error e := by
      rw [executeOperation_result env operation st st₁ hf.2.2.1, hx]
    rw [syncOperationTry_of_error env operation st₁ e hy]
    exact syncOperationCatch_rejects env operation e _

theorem retryView_eq_of_erased {a b : World}
    (h : a.db.pendingOperations.map eraseError = b.db.pendingOperations.map eraseError) :
    retryView a = retryView b := by
  have key : ∀ st : World, retryView st =
      (st.db.pendingOperations.map eraseError).map
        (fun op => (op.id, op.status, op.retries, op.maxRetries)) := by
    intro st
    unfold retryView
    rw [List.map_map]
    rfl
  rw [key a, key b, h]

/-- C25: all failure kinds are treated alike for the retry. Take two runs of
`syncOperation` from the same state, with the same storage behaviour and
clock, for operation objects that have the same key, retries and
`maxRetries`, and let the execution fail in both, in any two ways (network
error, response that is not 2xx, timeout, unknown operation type). Then both
runs reject, and afterwards the two queues hold the same records with the
same statuses and retries, and the two logs the same entries: they differ at
most in the recorded error texts. -/
theorem syncOperation_failure_kinds_alike (env₁ env₂ : Env)
    (hs : env₁.storageFault = env₂.storageFault) (hd : env₁.dateNow = env₂.dateNow)
    (op₁ op₂ : Operation) (hid : op₁.id = op₂.id) (hr : op₁.retries = op₂.retries)
    (hm : op₁.maxRetries = op₂.maxRetries) (st : World) (e₁ e₂ : JsError)
    (hx₁ : (executeOperation env₁ op₁ st).1 = Except.error e₁)
    (hx₂ : (executeOperation env₂ op₂ st).1 = Except.error e₂) :
    retryView (syncOperation env₁ op₁ st).2 = retryView (syncOperation env₂ op₂ st).2 ∧
    (syncOperation env₁ op₁ st).2.db.pendingOperations.map eraseError =
      (syncOperation env₂ op₂ st).2.db.pendingOperations.map eraseError ∧
    (syncOperation env₁ op₁ st).2.db.syncLog.map eraseLogError =
      (syncOperation env₂ op₂ st).2.db.syncLog.map eraseLogError ∧
    (∃ e, (syncOperation env₁ op₁ st).1 = Except.error e) ∧
    (∃ e, (syncOperation env₂ op₂ st).1 = Except.error e) := by
  have h := syncOperation_related hs hd op₁ op₂ hid hr hm e₁ e₂ st st rfl hx₁ hx₂
  have hp : (syncOperation env₁ op₁ st).2.db.pendingOperations.map eraseError =
      (syncOperation env₂ op₂ st).2.db.pendingOperations.map eraseError :=
    congrArg (fun w => w.db.pendingOperations) h
  have hl : (syncOperation env₁ op₁ st).2.db.syncLog.map eraseLogError =
      (syncOperation env₂ op₂ st).2.db.syncLog.map eraseLogError :=
    congrArg (fun w => w.db.syncLog) h
  exact ⟨retryView_eq_of_erased hp, hp, hl, syncOperation_rejects env₁ op₁ st e₁ hx₁,
    syncOperation_rejects env₂ op₂ st e₂ hx₂⟩

/-- The operation of `queuedOnce` at its only attempt, once with a network
error and once with a 500 response: it ends `failed` with the same retries in
both runs, and the stored error texts differ. -/
theorem syncOperation_failure_kinds_alike_witness :
    retryView (syncOperation failingEnv onceRecord queuedOnce).2 = [(1, "failed", 0, 1)] ∧
    retryView (syncOperation serverErrorEnv onceRecord queuedOnce).2 =
      [(1, "failed", 0, 1)] ∧
    (syncOperation failingEnv onceRecord queuedOnce).2.db.pendingOperations.map
      (fun r => r.error) = [some "Failed to fetch"] ∧
    (syncOperation serverErrorEnv onceRecord queuedOnce).2.db.pendingOperations.map
      (fun r => r.error) = [some "Server error: 500 Internal Server Error"] :=
  ⟨by decide,
   (syncOperation_failure_kinds_alike failingEnv serverErrorEnv rfl rfl onceRecord onceRecord
      rfl rfl rfl queuedOnce networkError
      (newError "Server error: 500 Internal Server Error") rfl rfl).1.symm.trans (by decide),
   by decide, by decide⟩

/-! ## The actions of a card -/

theorem deleteOperationAt_num (env : Env) (n : Nat) (st : World) :
    deleteOperationAt env (StoreKey.num n) st = deleteOperation env n st := rfl

theorem updateOperationStatusAt_num (env : Env) (n : Nat) (status : String)
    (error : Option String) (st : World) :
    updateOperationStatusAt env (StoreKey.num n) status error st =
      updateOperationStatus env n status error st := rfl

theorem deleteOperationAt_str_db (env : Env) (s : String) (st : World) :
    (deleteOperationAt env (StoreKey.str s) st).2.db = st.db := by
  unfold deleteOperationAt
  have hi := init_db env st
  split
  · rename_i h; rw [h] at hi; exact hi
  · rename_i h; rw [h] at hi
    simp only [dbRequest]
    split
    · rename_i h; simp only [Prod.mk.injEq] at h; obtain ⟨-, rfl⟩ := h; exact hi
    · rename_i h; simp only [Prod.mk.injEq] at h; obtain ⟨-, rfl⟩ := h; exact hi

theorem updateOperationStatusAt_str (env : Env) (s : String) (status : String)
    (error : Option String) (st : World) :
    (updateOperationStatusAt env (StoreKey.str s) status error st).2.db = st.db ∧
    (updateOperationStatusAt env (StoreKey.str s) status error st).1.isOk = false := by
  unfold updateOperationStatusAt
  have hi := init_db env st
  split
  · rename_i h; rw [h] at hi; exact ⟨hi, rfl⟩
  · rename_i h; rw [h] at hi
    simp only [dbRequest, getByStoreKey]
    split
    · rename_i h; simp only [Prod.mk.injEq] at h; obtain ⟨-, rfl⟩ := h; exact ⟨hi, rfl⟩
    · rename_i h; simp only [Prod.mk.injEq] at h; obtain ⟨-, rfl⟩ := h; exact ⟨hi, rfl⟩

/-- C26 (the code departs from it). The card of the operation with key 1
carries `data-id="1"`, and the handlers pass the string `"1"` on. On the
queue holding that one operation, `failed`: the `Delete` action shows
`Operation deleted` and the operation is still in the queue; the `Retry`
action shows `Error: Operation not found` and the operation is still
`failed`. With the number 1 the same two methods of the manager delete the
operation and store it as `pending`. For every environment, operation and
queue, neither action changes the database. -/
theorem card_actions_pass_a_string_key :
    dataId failedRecord = "1" ∧
    queuedFailed.db.pendingOperations = [failedRecord] ∧
    (clickDelete failingEnv true failedRecord queuedFailed).1 =
      some { message := "Operation deleted", type := "success" } ∧
    (clickDelete failingEnv true failedRecord queuedFailed).2.db.pendingOperations =
      [failedRecord] ∧
    (clickRetry failingEnv failedRecord queuedFailed).1 =
      { message := "Error: Operation not found", type := "error" } ∧
    (clickRetry failingEnv failedRecord queuedFailed).2.db.pendingOperations =
      [failedRecord] ∧
    (deleteOperation failingEnv failedRecord.id queuedFailed).2.db.pendingOperations = [] ∧
    retryView (updateOperationStatus failingEnv failedRecord.id SYNC_STATUS.PENDING none
      queuedFailed).2 = [(1, "pending", 3, 3)] ∧
    (∀ (env : Env) (confirmed : Bool) (op : Operation) (st : World),
      (clickDelete env confirmed op st).2.db = st.db) ∧
    (∀ (env : Env) (op : Operation) (st : World),
      (clickRetry env op st).2.db = st.db ∧ (clickRetry env op st).1.type = "error") := by
  refine ⟨by decide, by decide, by decide, by decide, by decide, by decide, by decide,
    by decide, fun env confirmed op st => ?_, fun env op st => ?_⟩
  · unfold clickDelete pageDeleteOperation
    have h := deleteOperationAt_str_db env (dataId op) st
    cases confirmed with
    | false => rfl
    | true =>
      simp only [if_true]
      split
      · rename_i hq; rw [hq] at h; exact h
      · rename_i hq; rw [hq] at h; exact h
  · unfold clickRetry pageRetryOperation
    obtain ⟨h, hok⟩ := updateOperationStatusAt_str env (dataId op) SYNC_STATUS.PENDING none st
    split
    · rename_i hq; rw [hq] at hok; cases hok
    · rename_i hq; rw [hq] at h; exact ⟨h, rfl⟩

/-! ## An accepted request and a storage fault -/

/-- C27, counterexample: the server accepts the create of `queuedCreate`, and
storage rejects the write of the status `synced` that follows. The `catch`
block then applies the retry rule and the operation is left `pending`; the
next pass sends the same create a second time, and the server accepts it
again. -/
theorem syncOperation_accepted_left_pending :
    (executeOperation syncedPutFaultEnv createRecord queuedCreate).1.toOption =
      some [("id", JsPrim.num 7)] ∧
    retryView (syncOperation syncedPutFaultEnv createRecord queuedCreate).2 =
      [(1, "pending", 0, 3)] ∧
    retryView (syncAllTimes passSyncedPutFaultEnv 1 queuedCreate) = [(1, "pending", 0, 3)] ∧
    (syncAllTimes passSyncedPutFaultEnv 1 queuedCreate).requests.map
      (fun r => (r.method, r.url)) = [("POST", "/api/stories")] ∧
    (syncAllTimes passSyncedPutFaultEnv 2 queuedCreate).requests.map
      (fun r => (r.method, r.url)) = [("POST", "/api/stories"), ("POST", "/api/stories")] ∧
    retryView (syncAllTimes passSyncedPutFaultEnv 2 queuedCreate) = [] := by
  decide

/-- C27, amended: for an operation whose key is in the queue and whose
execution succeeds, `syncOperation` either resolves with the response, and
then no record with the key is left in the queue, or it rejects with the
error of a storage request that was rejected, the key still being in the
queue. So with no storage request rejected the call resolves and the
operation is not left in the queue, `pending` or otherwise. -/
theorem syncOperation_accepted_is_removed_or_storage_failed (env : Env)
    (operation : Operation) (st : World) (response : JsObject)
    (hk : HasKey operation.id st)
    (hexec : (executeOperation env operation st).1 = Except.ok response) :
    (((syncOperation env operation st).1 = Except.ok response ∧
        ∀ o ∈ (syncOperation env operation st).2.db.pendingOperations,
          o.id ≠ operation.id) ∨
      (∃ e n, (syncOperation env operation st).1 = Except.error e ∧
        env.storageFault n = some e ∧
        HasKey operation.id (syncOperation env operation st).2)) ∧
    (NoStorageFault env →
      (syncOperation env operation st).1 = Except.ok response ∧
      ∀ o ∈ (syncOperation env operation st).2.db.pendingOperations,
        o.id ≠ operation.id) := by
  have key : ((syncOperation env operation st).1 = Except.ok response ∧
        ∀ o ∈ (syncOperation env operation st).2.db.pendingOperations,
          o.id ≠ operation.id) ∨
      (∃ e n, (syncOperation env operation st).1 = Except.error e ∧
        env.storageFault n = some e ∧
        HasKey operation.id (syncOperation env operation st).2) := by
    rcases syncOperation_cases env operation st hk with
      ⟨response', hx, hres, habsent, -⟩ | ⟨e, hres, hk', hx | ⟨n, hn⟩⟩
    · rw [hexec] at hx
      simp only [Except.ok.injEq] at hx
      subst hx
      exact Or.inl ⟨hres, habsent⟩
    · rw [hexec] at hx; cases hx
    · exact Or.inr ⟨e, n, hres, hn, hk'⟩
  refine ⟨key, fun hnf => ?_⟩
  rcases key with h | ⟨e, n, -, hn, -⟩
  · exact h
  · rw [hnf n] at hn; cases hn

/-- The create of `queuedCreate` with an accepting server and no storage
fault: `syncOperation` resolves and the queue is empty. -/
theorem syncOperation_accepted_is_removed_or_storage_failed_witness :
    HasKey createRecord.id queuedCreate ∧
    (syncOperation acceptingEnv createRecord queuedCreate).1 =
      Except.ok [("id", JsPrim.num 7)] ∧
    (syncOperation acceptingEnv createRecord queuedCreate).2.db.pendingOperations = [] :=
  ⟨⟨createRecord, by decide, rfl⟩,
   ((syncOperation_accepted_is_removed_or_storage_failed acceptingEnv createRecord
      queuedCreate [("id", JsPrim.num 7)] ⟨createRecord, by decide, rfl⟩ rfl).2
      (fun _ => rfl)).1,
   by decide⟩

/-! ## Operations left `syncing` -/

theorem touchesOnly_of_pending {K : Nat → Prop} {a b : World}
    (h : b.db.pendingOperations = a.db.pendingOperations) : TouchesOnly K a b :=
  fun _ hr => Or.inl (h ▸ hr)

theorem touchesOnly_trans {K : Nat → Prop} {a b c : World}
    (h₁ : TouchesOnly K a b) (h₂ : TouchesOnly K b c) : TouchesOnly K a c := by
  intro r' hr'
  rcases h₂ r' hr' with hb | hk
  · exact h₁ r' hb
  · exact Or.inr hk

theorem touchesOnly_mono {K K' : Nat → Prop} {a b : World} (hK : ∀ i, K i → K' i)
    (h : TouchesOnly K a b) : TouchesOnly K' a b :=
  fun r' hr' => (h r' hr').imp id (hK _)

theorem touchesOnly_of_evolves {k : Nat} {P : String → Prop} {a b : World}
    (h : Evolves k P a b) : TouchesOnly (fun i => i = k) a b := by
  intro r' hr'
  rcases h r' hr' with hold | ⟨r, -, -, hid, -⟩
  · exact Or.inl hold
  · exact Or.inr hid

theorem touchesOnly_of_keeps {K : Nat → Prop} {a b : World} (h : Keeps a b) :
    TouchesOnly K a b :=
  fun r' hr' => Or.inl (h.2.2.2 r' hr')

theorem syncAllLoop_touches (env : Env) (ops : List Operation) (st : World) :
    TouchesOnly (fun i => ∃ x ∈ ops, x.id = i) st (syncAllLoop env ops st) := by
  induction ops generalizing st with
  | nil => exact touchesOnly_of_pending rfl
  | cons x rest ih =>
    unfold syncAllLoop
    have h₁ : TouchesOnly (fun i => ∃ y ∈ x :: rest, y.id = i) st (syncOperation env x st).2 :=
      touchesOnly_mono (fun i hi => ⟨x, List.mem_cons_self _ _, hi.symm⟩)
        (touchesOnly_of_evolves (syncOperation_frame env x st).2.2)
    have h₂ : TouchesOnly (fun i => ∃ y ∈ x :: rest, y.id = i) (syncOperation env x st).2
        (syncAllLoop env rest (syncOperation env x st).2) :=
      touchesOnly_mono (fun i ⟨y, hy, hi⟩ => ⟨y, List.mem_cons_of_mem _ hy, hi⟩) (ih _)
    exact touchesOnly_trans h₁ h₂

/-- The records that a call of `syncAll` writes, whatever the environment
does, have the key of a record that is `pending` when it is called. -/
theorem syncAll_touches (env : Env) (st : World) :
    TouchesOnly
      (fun i => ∃ x ∈ getAllByStatus SYNC_STATUS.PENDING st.db.pendingOperations, x.id = i)
      st (syncAll env st).2 := by
  unfold syncAll
  split
  · exact touchesOnly_of_pending rfl
  · simp only
    generalize hst₀ : notifySyncStatusChange env (SyncEvent.aggregate true 0 none)
      { st with isSyncing := true } = st₀
    have hdb₀ : st₀.db = st.db := by rw [← hst₀, notifySyncStatusChange_db]
    have hk₀ : Keeps st st₀ := by
      rw [← hst₀]
      have hflag : Keeps st { st with isSyncing := true } := keeps_of_eq rfl rfl rfl
      exact keeps_trans hflag
        (keeps_of_frame (fun k => notifySyncStatusChange_frame env k (fun _ => True) _ _))
    suffices key : TouchesOnly
        (fun i => ∃ x ∈ getAllByStatus SYNC_STATUS.PENDING st.db.pendingOperations, x.id = i)
        st (syncAllTry env st₀).2 from fun r' hr' => key r' hr'
    unfold syncAllTry
    have hk₁ : Keeps st₀ (getPendingOperations env { status := some SYNC_STATUS.PENDING } st₀).2 :=
      keeps_of_frame (fun k => getPendingOperations_frame env k (fun _ => True) _ st₀)
    split
    · rename_i r₁ e st₁ h
      rw [h] at hk₁
      exact touchesOnly_of_keeps (keeps_trans hk₀ hk₁)
    · rename_i r₁ pendingOps st₁ h
      rw [h] at hk₁
      have hops := getPendingOperations_resolved env _ _ _ _ h
      rw [selectOperations_pending, hdb₀] at hops
      subst hops
      have hloop := syncAllLoop_touches env
        (getAllByStatus SYNC_STATUS.PENDING st.db.pendingOperations) st₁
      have hk₂ := syncAll_tail_keeps env
        (syncAllLoop env (getAllByStatus SYNC_STATUS.PENDING st.db.pendingOperations) st₁)
      exact touchesOnly_trans (touchesOnly_trans (touchesOnly_of_keeps (keeps_trans hk₀ hk₁))
        hloop) (touchesOnly_of_keeps hk₂)

/-- The loop of `retryFailed`, whatever the environment does: the records
with other keys stay, nothing is executed, and the records written have the
key of one of the operations. -/
theorem retryFailedLoop_frame (env : Env) (ops : List Operation) (st : World) :
    (∀ r ∈ st.db.pendingOperations, (∀ x ∈ ops, r.id ≠ x.id) →
      r ∈ (retryFailedLoop env ops st).2.db.pendingOperations) ∧
    (retryFailedLoop env ops st).2.executed = st.executed ∧
    (retryFailedLoop env ops st).2.requests = st.requests ∧
    TouchesOnly (fun i => ∃ x ∈ ops, x.id = i) st (retryFailedLoop env ops st).2 := by
  induction ops generalizing st with
  | nil => exact ⟨fun r hr _ => hr, rfl, rfl, touchesOnly_of_pending rfl⟩
  | cons x rest ih =>
    unfold retryFailedLoop
    simp only
    have h₁ := updateOperationStatus_frame env x.id (fun _ => True)
      SYNC_STATUS.PENDING none st trivial
    have ht₁ : TouchesOnly (fun i => ∃ y ∈ x :: rest, y.id = i) st
        (updateOperationStatus env x.id SYNC_STATUS.PENDING none st).2 :=
      touchesOnly_mono (fun i hi => ⟨x, List.mem_cons_self _ _, hi.symm⟩)
        (touchesOnly_of_evolves h₁.2.2.2)
    split
    · rename_i e st₁ h; rw [h] at h₁ ht₁
      exact ⟨fun r hr hne => h₁.1 r hr (hne x (List.mem_cons_self _ _)), h₁.2.1, h₁.2.2.1, ht₁⟩
    · rename_i o st₁ h; rw [h] at h₁ ht₁
      obtain ⟨ihkeep, ihexec, ihreq, ihtouch⟩ := ih st₁
      refine ⟨fun r hr hne => ?_, ihexec.trans h₁.2.1, ihreq.trans h₁.2.2.1, ?_⟩
      · exact ihkeep r (h₁.1 r hr (hne x (List.mem_cons_self _ _)))
          (fun y hy => hne y (List.mem_cons_of_mem _ hy))
      · exact touchesOnly_trans ht₁
          (touchesOnly_mono (fun i ⟨y, hy, hi⟩ => ⟨y, List.mem_cons_of_mem _ hy, hi⟩) ihtouch)

/-- The status updates of `retryFailed`, whatever the environment does: the
records whose key is not that of a `failed` record stay, nothing is executed,
and the records written have the key of a `failed` record. -/
theorem retryFailedReset_frame (env : Env) (st : World) :
    (∀ r ∈ st.db.pendingOperations,
      (∀ x ∈ getAllByStatus SYNC_STATUS.FAILED st.db.pendingOperations, r.id ≠ x.id) →
      r ∈ (retryFailedReset env st).2.db.pendingOperations) ∧
    (retryFailedReset env st).2.executed = st.executed ∧
    (retryFailedReset env st).2.requests = st.requests ∧
    TouchesOnly
      (fun i => ∃ x ∈ getAllByStatus SYNC_STATUS.FAILED st.db.pendingOperations, x.id = i)
      st (retryFailedReset env st).2 := by
  unfold retryFailedReset
  have hk : Keeps st (getPendingOperations env { status := some SYNC_STATUS.FAILED } st).2 :=
    keeps_of_frame (fun k => getPendingOperations_frame env k (fun _ => True) _ st)
  split
  · rename_i e st₁ h; rw [h] at hk
    exact ⟨fun r hr _ => hk.1 r hr, hk.2.1, hk.2.2.1, touchesOnly_of_keeps hk⟩
  · rename_i failedOps st₁ h; rw [h] at hk
    have hops := getPendingOperations_resolved env _ _ _ _ h
    have hsel : selectOperations { status := some SYNC_STATUS.FAILED } st.db.pendingOperations =
        getAllByStatus SYNC_STATUS.FAILED st.db.pendingOperations := by
      unfold selectOperations
      simp only
      rw [if_pos (by decide)]
    rw [hsel] at hops
    subst hops
    obtain ⟨hkeep, hexec, hreq, htouch⟩ := retryFailedLoop_frame env
      (getAllByStatus SYNC_STATUS.FAILED st.db.pendingOperations) st₁
    exact ⟨fun r hr hne => hkeep r (hk.1 r hr) hne, hexec.trans hk.2.1, hreq.trans hk.2.2.1,
      touchesOnly_trans (touchesOnly_of_keeps hk) htouch⟩

/-- A record that is not `pending` and is the only one under its key,
through a call of `syncAll`, whatever the environment does: it stays, it is
still the only one under its key, and nothing is executed for its key. -/
theorem syncAll_leaves_other_status (env : Env) (st : World) (op : Operation)
    (hop : op ∈ st.db.pendingOperations) (hs : op.status ≠ SYNC_STATUS.PENDING)
    (honly : ∀ x ∈ st.db.pendingOperations, x.id = op.id → x = op) :
    op ∈ (syncAll env st).2.db.pendingOperations ∧
    (∀ r' ∈ (syncAll env st).2.db.pendingOperations, r'.id = op.id → r' = op) ∧
    ∃ done : List Operation,
      (syncAll env st).2.executed = st.executed ++ done ∧
      (syncAll env st).2.requests = st.requests ++ done.flatMap (requestsOf env) ∧
      ∀ x ∈ done, x.id ≠ op.id := by
  have hne : ∀ x ∈ getAllByStatus SYNC_STATUS.PENDING st.db.pendingOperations,
      op.id ≠ x.id := by
    intro x hx hid
    obtain ⟨hxmem, hxstatus⟩ := (mem_getAllByStatus _ _ _).mp hx
    have := honly x hxmem hid.symm
    rw [this] at hxstatus
    exact hs hxstatus
  obtain ⟨done, hsub, hexec, hreq, hkeep⟩ := syncAll_frame env st
  refine ⟨hkeep op hop hne, fun r' hr' hid => ?_, done, hexec, hreq,
    fun x hx hid => hne x (hsub.subset hx) hid.symm⟩
  rcases syncAll_touches env st r' hr' with hold | ⟨x, hx, hxid⟩
  · exact honly r' hold hid
  · exact absurd (hid.symm.trans hxid.symm) (hne x hx)

/-- A record that is not `failed` and is the only one under its key, through
the status updates of `retryFailed`, whatever the environment does. -/
theorem retryFailedReset_leaves_other_status (env : Env) (st : World) (op : Operation)
    (hop : op ∈ st.db.pendingOperations) (hs : op.status ≠ SYNC_STATUS.FAILED)
    (honly : ∀ x ∈ st.db.pendingOperations, x.id = op.id → x = op) :
    op ∈ (retryFailedReset env st).2.db.pendingOperations ∧
    (∀ r' ∈ (retryFailedReset env st).2.db.pendingOperations, r'.id = op.id → r' = op) ∧
    (retryFailedReset env st).2.executed = st.executed ∧
    (retryFailedReset env st).2.requests = st.requests := by
  have hne : ∀ x ∈ getAllByStatus SYNC_STATUS.FAILED st.db.pendingOperations,
      op.id ≠ x.id := by
    intro x hx hid
    obtain ⟨hxmem, hxstatus⟩ := (mem_getAllByStatus _ _ _).mp hx
    have := honly x hxmem hid.symm
    rw [this] at hxstatus
    exact hs hxstatus
  obtain ⟨hkeep, hexec, hreq, htouch⟩ := retryFailedReset_frame env st
  refine ⟨hkeep op hop hne, fun r' hr' hid => ?_, hexec, hreq⟩
  rcases htouch r' hr' with hold | ⟨x, hx, hxid⟩
  · exact honly r' hold hid
  · exact absurd (hid.symm.trans hxid.symm) (hne x hx)

/-- C28: an operation that is `syncing` when `syncAll()` or `retryFailed()`
is called is left alone, for every environment and every queue (with unique
keys, as the store keeps them): the record is in the queue afterwards with
all its fields unchanged, it is still the only record under its key, and
none of the operations executed and none of the requests sent in the call is
for its key. -/
theorem syncing_operations_are_left_alone (env : Env) (st : World) (op : Operation)
    (hkeys : UniqueKeys st.db.pendingOperations) (hop : op ∈ st.db.pendingOperations)
    (hs : op.status = SYNC_STATUS.SYNCING) :
    (op ∈ (syncAll env st).2.db.pendingOperations ∧
      (∀ r' ∈ (syncAll env st).2.db.pendingOperations, r'.id = op.id → r' = op) ∧
      ∃ done : List Operation,
        (syncAll env st).2.executed = st.executed ++ done ∧
        (syncAll env st).2.requests = st.requests ++ done.flatMap (requestsOf env) ∧
        ∀ x ∈ done, x.id ≠ op.id) ∧
    (op ∈ (retryFailed env st).2.db.pendingOperations ∧
      (∀ r' ∈ (retryFailed env st).2.db.pendingOperations, r'.id = op.id → r' = op) ∧
      ∃ done : List Operation,
        (retryFailed env st).2.executed = st.executed ++ done ∧
        (retryFailed env st).2.requests = st.requests ++ done.flatMap (requestsOf env) ∧
        ∀ x ∈ done, x.id ≠ op.id) := by
  have honly : ∀ x ∈ st.db.pendingOperations, x.id = op.id → x = op :=
    fun x hx hid => eq_of_id_eq _ hkeys x op hx hop hid
  have hnp : op.status ≠ SYNC_STATUS.PENDING := by rw [hs]; decide
  have hnf : op.status ≠ SYNC_STATUS.FAILED := by rw [hs]; decide
  refine ⟨syncAll_leaves_other_status env st op hop hnp honly, ?_⟩
  obtain ⟨hop₁, honly₁, hexec₁, hreq₁⟩ :=
    retryFailedReset_leaves_other_status env st op hop hnf honly
  unfold retryFailed
  split
  · rename_i e st₁ h
    rw [h] at hop₁ honly₁ hexec₁ hreq₁
    exact ⟨hop₁, honly₁, [], by simpa using hexec₁, by simpa using hreq₁,
      fun x hx => by cases hx⟩
  · rename_i u st₁ h
    rw [h] at hop₁ honly₁ hexec₁ hreq₁
    simp only at hop₁ honly₁ hexec₁ hreq₁
    obtain ⟨hop₂, honly₂, done, hexec₂, hreq₂, hdone⟩ :=
      syncAll_leaves_other_status env st₁ op hop₁ hnp honly₁
    exact ⟨hop₂, honly₂, done, by rw [hexec₂, hexec₁], by rw [hreq₂, hreq₁], hdone⟩

/-- The queue `queuedStuck`, with a `syncing` operation under key 1 and a
`failed` one under key 2, when every request fails: after `syncAll()` and
after `retryFailed()` the `syncing` record is there unchanged, and
`retryFailed()` has executed the other operation only. -/
theorem syncing_operations_are_left_alone_witness :
    queuedStuck.db.pendingOperations.map (fun r => (r.id, r.status)) =
      [(1, "syncing"), (2, "failed")] ∧
    stuckRecord ∈ (syncAll failingEnv queuedStuck).2.db.pendingOperations ∧
    stuckRecord ∈ (retryFailed failingEnv queuedStuck).2.db.pendingOperations ∧
    (retryFailed failingEnv queuedStuck).2.executed.map (fun x => x.id) = [2] :=
  ⟨by decide,
   (syncing_operations_are_left_alone failingEnv queuedStuck stuckRecord (by decide)
      (by decide) rfl).1.1,
   (syncing_operations_are_left_alone failingEnv queuedStuck stuckRecord (by decide)
      (by decide) rfl).2.1,
   by decide⟩

/-! ## Subscribing and unsubscribing -/

theorem filter_append_self (callback : Nat) (l : List Nat) :
    (l ++ [callback]).filter (fun cb => cb != callback) =
      l.filter (fun cb => cb != callback) := by
  simp [List.filter_append]

/-- C29, counterexample: the callback 5 is registered already. After
`onSyncStatusChange(5)` and the function it returned, the list is `[7]` and
not `[5, 7]`: the filter `cb !== callback` removes the earlier registration
as well. -/
theorem unsubscribe_removes_earlier_registration :
    observedTwice.syncCallbacks = [5, 7] ∧
    (onSyncStatusChange 5 observedTwice).syncCallbacks = [5, 7, 5] ∧
    (unsubscribe 5 (onSyncStatusChange 5 observedTwice)).syncCallbacks = [7] := by
  decide

/-- C29, amended: for every list of registered callbacks and every callback,
`onSyncStatusChange(cb)` followed by the function it returned leaves the list
without any occurrence of `cb`, the other callbacks keeping their
multiplicities and their order; so it leaves the manager exactly as it was
when `cb` was not registered before. Calling the returned function a second
time changes nothing. -/
theorem subscribe_unsubscribe_roundTrip (callback : Nat) (st : World) :
    (onSyncStatusChange callback st).syncCallbacks = st.syncCallbacks ++ [callback] ∧
    (unsubscribe callback (onSyncStatusChange callback st)).syncCallbacks =
      st.syncCallbacks.filter (fun cb => cb != callback) ∧
    (callback ∉ st.syncCallbacks →
      unsubscribe callback (onSyncStatusChange callback st) = st) ∧
    unsubscribe callback (unsubscribe callback (onSyncStatusChange callback st)) =
      unsubscribe callback (onSyncStatusChange callback st) := by
  refine ⟨rfl, filter_append_self callback _, fun hnot => ?_, ?_⟩
  · have h : (st.syncCallbacks ++ [callback]).filter (fun cb => cb != callback) =
        st.syncCallbacks := by
      rw [filter_append_self, List.filter_eq_self]
      intro cb hcb
      have : cb ≠ callback := fun heq => hnot (heq ▸ hcb)
      simpa using this
    show ({ onSyncStatusChange callback st with
      syncCallbacks := (st.syncCallbacks ++ [callback]).filter (fun cb => cb != callback) }
        : World) = st
    rw [h]
    rfl
  · show ({ unsubscribe callback (onSyncStatusChange callback st) with
      syncCallbacks := ((st.syncCallbacks ++ [callback]).filter (fun cb => cb != callback)).filter
        (fun cb => cb != callback) } : World) = _
    rw [List.filter_filter]
    simp only [Bool.and_self]
    rfl

/-- The callback 9, not registered before, on the manager with the callbacks
5 and 7: after the round trip the manager is as it was. -/
theorem subscribe_unsubscribe_roundTrip_witness :
    9 ∉ observedTwice.syncCallbacks ∧
    unsubscribe 9 (onSyncStatusChange 9 observedTwice) = observedTwice :=
  ⟨by decide, (subscribe_unsubscribe_roundTrip 9 observedTwice).2.2.1 (by decide)⟩

/-! ## The strategy of a url -/

/-- The result of `getStrategy` read off the table: the first list that has
an endpoint the url includes decides, and `/stories` stands in the first
list. -/
theorem getStrategy_eq (url : String) :
    getStrategy url =
      if includes url "/stories" || includes url "/reports" || includes url "/users" then
        CACHE_STRATEGY.NETWORK_FIRST
      else if includes url "/login" || includes url "/register" then
        CACHE_STRATEGY.CACHE_FIRST
      else CACHE_STRATEGY.NETWORK_FIRST := by
  unfold getStrategy ENDPOINTS
  simp only [getStrategyEntries, getStrategyEndpoints]
  cases includes url "/stories" <;> cases includes url "/reports" <;>
    cases includes url "/users" <;> cases includes url "/login" <;>
    cases includes url "/register" <;> rfl

/-- C30: for every url, `getStrategy(url)` is `network-first` or
`cache-first` and never `stale-while-revalidate`. A url that includes
`/stories`, `/reports` or `/users` gets `network-first`; otherwise a url that
includes `/login` or `/register` gets `cache-first`; every other url gets
`network-first`. Hence the `switch` of `intercept` never calls
`staleWhileRevalidate`, and it calls `cacheFirst` exactly for the strategy
`cache-first`. -/
theorem getStrategy_never_stale_while_revalidate (url : String) :
    (getStrategy url = CACHE_STRATEGY.NETWORK_FIRST ∨
      getStrategy url = CACHE_STRATEGY.CACHE_FIRST) ∧
    getStrategy url ≠ CACHE_STRATEGY.STALE_WHILE_REVALIDATE ∧
    (includes url "/stories" = true ∨ includes url "/reports" = true ∨
        includes url "/users" = true →
      getStrategy url = CACHE_STRATEGY.NETWORK_FIRST) ∧
    (includes url "/stories" = false → includes url "/reports" = false →
      includes url "/users" = false →
      (includes url "/login" = true ∨ includes url "/register" = true →
        getStrategy url = CACHE_STRATEGY.CACHE_FIRST) ∧
      (includes url "/login" = false → includes url "/register" = false →
        getStrategy url = CACHE_STRATEGY.NETWORK_FIRST)) ∧
    interceptBranch url ≠ InterceptBranch.staleWhileRevalidate ∧
    (interceptBranch url = InterceptBranch.cacheFirst ↔
      getStrategy url = CACHE_STRATEGY.CACHE_FIRST) ∧
    getStrategy "https://story-api.dicoding.dev/v1/stories?location=1" = "network-first" ∧
    getStrategy "https://story-api.dicoding.dev/v1/login" = "cache-first" ∧
    getStrategy "https://story-api.dicoding.dev/v1/notifications/subscribe" =
      "network-first" := by
  have h := getStrategy_eq url
  have hcases : getStrategy url = CACHE_STRATEGY.NETWORK_FIRST ∨
      getStrategy url = CACHE_STRATEGY.CACHE_FIRST := by
    rw [h]
    split
    · exact Or.inl rfl
    · split
      · exact Or.inr rfl
      · exact Or.inl rfl
  have hne : getStrategy url ≠ CACHE_STRATEGY.STALE_WHILE_REVALIDATE := by
    rcases hcases with hc | hc <;> rw [hc] <;> decide
  refine ⟨hcases, hne, fun hnet => ?_, fun h₁ h₂ h₃ => ⟨fun hcache => ?_, fun h₄ h₅ => ?_⟩,
    ?_, ?_, by decide, by decide, by decide⟩
  · rw [h, if_pos]
    rcases hnet with hx | hx | hx <;> simp [hx]
  · rw [h, if_neg (by simp [h₁, h₂, h₃]), if_pos]
    rcases hcache with hx | hx <;> simp [hx]
  · rw [h, if_neg (by simp [h₁, h₂, h₃]), if_neg (by simp [h₄, h₅])]
  · unfold interceptBranch
    simp only
    rcases hcases with hc | hc <;> rw [hc] <;> decide
  · unfold interceptBranch
    simp only
    rcases hcases with hc | hc <;> rw [hc] <;> decide

/-! ## A synchronised operation in the queue and in the log -/

theorem newestFirst_length (log : List SyncLogEntry) :
    (newestFirst log).length = log.length :=
  (newestFirst_perm log).length_eq

/-- C5, counterexample: `getSyncLog()` does not return the entry of an
operation that was just synchronised. The log holds fifty entries written at
the clock readings 5000 to 5049; afterwards the clock was set back, and it
reads 1000, 1001, and so on. No storage request is rejected and the server
accepts the pending operation 51: `syncOperation` resolves with the response,
the queue is empty, and the `sync_log` store holds the entry of the operation
under the key 51, with the timestamp 1002. In the order of the `timestamp`
index this entry is the oldest one, so the cursor of `getSyncLog()`, which
stops after 50 entries, does not reach it: the call resolves with the fifty
earlier entries. -/
theorem syncOperation_logged_entry_beyond_limit :
    NoStorageFault acceptingEnv ∧
    lateRecord ∈ (loggedFifty 5000).db.pendingOperations ∧
    (syncOperation acceptingEnv lateRecord (loggedFifty 5000)).1 =
      Except.ok [("id", JsPrim.num 7)] ∧
    (syncOperation acceptingEnv lateRecord (loggedFifty 5000)).2.db.pendingOperations = [] ∧
    (syncOperation acceptingEnv lateRecord (loggedFifty 5000)).2.db.syncLog =
      fiftyEntries 5000 ++
        [{ id := 51, operationId := 51, status := "synced", timestamp := 1002,
           response := some [("id", JsPrim.num 7)], error := none }] ∧
    ∃ logs st',
      getSyncLog acceptingEnv 50 (syncOperation acceptingEnv lateRecord (loggedFifty 5000)).2 =
        (Except.ok logs, st') ∧
      logs.length = 50 ∧ ∀ e ∈ logs, e.operationId ≠ 51 :=
  ⟨fun _ => rfl, by decide, rfl, by decide, by decide, _, _, rfl, by decide, by decide⟩

/-- C5, amended. Let `operation` be a record of the queue whose execution
succeeds with `response`, in an environment that rejects no storage request.
Then `syncOperation` resolves with `response`; afterwards
`getPendingOperations(filter)` resolves, for every filter (none, or any
status), with a list that holds no record with the key of the operation; and
the `sync_log` store holds an entry with that `operationId`, status `synced`
and the response. `getSyncLog(limit)` resolves for every limit, and its list
holds this entry when the log had fewer than `limit` entries before the call
(fewer than 50 for `getSyncLog()`). It also holds it, as its first entry,
for every limit of 1 or more when the `Date.now()` reading that stamps the
entry, the third one of the call, is not below a timestamp already in the log,
the key generator of the log being above the keys in use. -/
theorem syncOperation_success_absent_and_logged (env : Env) (operation : Operation)
    (st : World) (response : JsObject)
    (hfault : NoStorageFault env)
    (hmem : operation ∈ st.db.pendingOperations)
    (hexec : (executeOperation env operation st).1 = Except.ok response) :
    (syncOperation env operation st).1 = Except.ok response ∧
    (∀ filter : Filter, ∃ ops st',
      getPendingOperations env filter (syncOperation env operation st).2 = (Except.ok ops, st') ∧
      ∀ o ∈ ops, o.id ≠ operation.id) ∧
    ∃ entry : SyncLogEntry,
      entry ∈ (syncOperation env operation st).2.db.syncLog ∧
      entry.operationId = operation.id ∧
      entry.status = SYNC_STATUS.SYNCED ∧
      entry.response = some response ∧
      ∀ limit : Int, ∃ logs st',
        getSyncLog env limit (syncOperation env operation st).2 = (Except.ok logs, st') ∧
        ((st.db.syncLog.length : Int) < limit → entry ∈ logs) ∧
        (0 < limit →
          (∀ e ∈ st.db.syncLog, e.timestamp ≤ env.dateNow (st.clockReads + 2)) →
          LogKeysBelow st.db.syncLogNextKey st.db.syncLog →
          logs.head? = some entry ∧ entry ∈ logs) := by
  obtain ⟨hres, habsent, hlog⟩ :=
    syncOperation_success_noFault hfault operation st response hmem hexec
  refine ⟨hres, fun filter => ?_, ?_⟩
  · rw [getPendingOperations_noFault hfault]
    exact ⟨_, _, rfl, fun o ho => habsent o (selectOperations_subset _ _ o ho)⟩
  · refine ⟨logEntryOf st.db.syncLogNextKey operation.id SYNC_STATUS.SYNCED (some response)
      none (env.dateNow (st.clockReads + 2)), ?_, rfl, rfl, rfl, fun limit => ?_⟩
    · rw [hlog]; simp
    · rw [getSyncLog_noFault hfault, hlog]
      refine ⟨_, _, rfl, fun hlen => ?_, fun hpos hclock hkeys => ?_⟩
      · rw [List.take_of_length_le]
        · exact (newestFirst_perm _).mem_iff.mpr (by simp)
        · rw [newestFirst_length, List.length_append, List.length_singleton]
          omega
      · rw [newestFirst_append_newest]
        · obtain ⟨n, hn⟩ : ∃ n, limit.toNat = n + 1 := ⟨limit.toNat - 1, by omega⟩
          rw [hn, List.take_succ_cons]
          exact ⟨rfl, List.mem_cons_self _ _⟩
        · intro x hx
          exact logNewer_eq_false x _ (hclock x hx) (hkeys x hx)

/-- C5, witness: the pending operation 51, accepted by the server with the
body `{ id: 7 }`, on a log of fifty entries. When the fifty entries were
written at the clock readings 500 to 549, before the readings of the call,
`getSyncLog()` resolves with the entry of the operation as its first entry.
When they were written at the readings 5000 to 5049, `getSyncLog(51)`, whose
limit exceeds the fifty entries, resolves with a list that holds the entry. -/
theorem syncOperation_success_absent_and_logged_witness :
    NoStorageFault acceptingEnv ∧
    (lateRecord ∈ (loggedFifty 500).db.pendingOperations ∧
      (loggedFifty 500).db.syncLog.length = 50 ∧
      (syncOperation acceptingEnv lateRecord (loggedFifty 500)).1 =
        Except.ok [("id", JsPrim.num 7)] ∧
      (∃ ops st', getPendingOperations acceptingEnv Filter.empty
          (syncOperation acceptingEnv lateRecord (loggedFifty 500)).2 = (Except.ok ops, st') ∧
        ∀ o ∈ ops, o.id ≠ 51) ∧
      ∃ entry : SyncLogEntry,
        entry.operationId = 51 ∧ entry.status = "synced" ∧
        entry.response = some [("id", JsPrim.num 7)] ∧
        ∃ logs st',
          getSyncLog acceptingEnv 50
            (syncOperation acceptingEnv lateRecord (loggedFifty 500)).2 = (Except.ok logs, st') ∧
          logs.head? = some entry ∧ entry ∈ logs) ∧
    (lateRecord ∈ (loggedFifty 5000).db.pendingOperations ∧
      (loggedFifty 5000).db.syncLog.length = 50 ∧
      ∃ entry : SyncLogEntry,
        entry.operationId = 51 ∧ entry.status = "synced" ∧
        entry.response = some [("id", JsPrim.num 7)] ∧
        ∃ logs st',
          getSyncLog acceptingEnv 51
            (syncOperation acceptingEnv lateRecord (loggedFifty 5000)).2 = (Except.ok logs, st') ∧
          entry ∈ logs) := by
  have hold := syncOperation_success_absent_and_logged acceptingEnv lateRecord
    (loggedFifty 500) [("id", JsPrim.num 7)] (fun _ => rfl) (by decide) rfl
  have hnew := syncOperation_success_absent_and_logged acceptingEnv lateRecord
    (loggedFifty 5000) [("id", JsPrim.num 7)] (fun _ => rfl) (by decide) rfl
  obtain ⟨hres, habsent, entry, -, hid, hstatus, hresponse, hget⟩ := hold
  obtain ⟨-, -, entry', -, hid', hstatus', hresponse', hget'⟩ := hnew
  refine ⟨fun _ => rfl, ⟨by decide, by decide, hres, habsent Filter.empty, entry, hid, hstatus,
    hresponse, ?_⟩, by decide, by decide, entry', hid', hstatus', hresponse', ?_⟩
  · obtain ⟨logs, st', hlogs, -, hfirst⟩ := hget 50
    refine ⟨logs, st', hlogs, hfirst (by decide) ?_ (by decide)⟩
    have hstamp : ∀ e ∈ fiftyEntries 500, e.timestamp ≤ 549 := by decide
    intro e he
    exact Nat.le_trans (hstamp e he) (by decide)
  · obtain ⟨logs, st', hlogs, hshort, -⟩ := hget' 51
    exact ⟨logs, st', hlogs, hshort (by decide)⟩

end OfflineSync
